import Mathlib

/-!
Verification of the demon-battle simulator (`sim.c`).

This file gives a shallow embedding of the battle-resolution engine of the
simulator into Lean: the card / attribute / rune data model, the random
stream, the ability-resolution functions and the round-by-round battle loop
are translated from the C source into pure Lean functions (state mutation
becomes explicit state passing; `unsigned int` arithmetic is `Nat` with an
explicit reduction modulo 2^32 where wrap-around can occur; C `int`
quantities are `Int`).  Theorems about the claims of the specification
follow the definitions.

Conventions used throughout:
* C arrays with an explicit element count (`Attr attr[MAX_ATTR]` with
  `numAttr`, `Card cards[MAX_CARDS_IN_SET]` with `numCards`) are modelled as
  Lean lists; the count is the list length.
* Capacity overflow (more than 40 attributes, more than 20 cards in a set)
  makes the C program print a diagnostic and abort via `exit(1)`; the spec
  classifies this as an unrecoverable configuration error outside the battle
  semantics, so the embedding appends unconditionally and theorems add
  capacity hypotheses where the distinction could matter.
* Functions that mutate a card in place through a pointer into the field
  array are modelled as functions of the card's index into the field list.
* The mutually recursive ability cluster (`RemoveCard` / `SimReanimate` /
  `CardPlayedToField`, which can re-enter each other through desperation
  reanimation and sacrifice) takes an explicit fuel parameter; exhausted
  fuel returns the state unchanged.
-/

set_option maxHeartbeats 1000000

namespace DemonSim

/-- The attribute-type enumeration `attrTypes` of sim.c, in source order. -/
inductive AttrType where
  | ATTR_NONE
  | ATTR_ADVANCED_STRIKE
  | ATTR_BACKSTAB
  | ATTR_BACKSTAB_BUFF
  | ATTR_BITE
  | ATTR_BLOODSUCKER
  | ATTR_BLOODTHIRSTY
  | ATTR_CHAIN_ATTACK
  | ATTR_CONCENTRATE
  | ATTR_COUNTERATTACK
  | ATTR_CRAZE
  | ATTR_CURSE
  | ATTR_D_PRAYER
  | ATTR_D_REANIMATE
  | ATTR_D_REINCARNATE
  | ATTR_DAMNATION
  | ATTR_DEAD
  | ATTR_DESTROY
  | ATTR_DEXTERITY
  | ATTR_DODGE
  | ATTR_EVASION
  | ATTR_EXILE
  | ATTR_FIRE_GOD
  | ATTR_FOREST
  | ATTR_FOREST_ATK
  | ATTR_FOREST_ATK_BUFF
  | ATTR_FOREST_HP
  | ATTR_FOREST_HP_BUFF
  | ATTR_GUARD
  | ATTR_HEALING
  | ATTR_HOT_CHASE
  | ATTR_ICE_SHIELD
  | ATTR_IMMUNITY
  | ATTR_LACERATE
  | ATTR_LACERATE_BUFF
  | ATTR_MANA_CORRUPT
  | ATTR_MANIA
  | ATTR_MTN
  | ATTR_MTN_ATK
  | ATTR_MTN_ATK_BUFF
  | ATTR_MTN_HP
  | ATTR_MTN_HP_BUFF
  | ATTR_OBSTINACY
  | ATTR_PARRY
  | ATTR_PRAYER
  | ATTR_QS_PRAYER
  | ATTR_QS_REGENERATE
  | ATTR_QS_REINCARNATE
  | ATTR_REANIMATE
  | ATTR_REANIM_SICKNESS
  | ATTR_REFLECTION
  | ATTR_REGENERATE
  | ATTR_REINCARNATE
  | ATTR_REJUVENATE
  | ATTR_RESISTANCE
  | ATTR_RESURRECTION
  | ATTR_RETALIATION
  | ATTR_SACRIFICE
  | ATTR_SNIPE
  | ATTR_SWAMP
  | ATTR_SWAMP_ATK
  | ATTR_SWAMP_ATK_BUFF
  | ATTR_SWAMP_HP
  | ATTR_SWAMP_HP_BUFF
  | ATTR_TOXIC_CLOUDS
  | ATTR_TRAP
  | ATTR_TRAP_BUFF
  | ATTR_TUNDRA
  | ATTR_TUNDRA_ATK
  | ATTR_TUNDRA_ATK_BUFF
  | ATTR_TUNDRA_HP
  | ATTR_TUNDRA_HP_BUFF
  | ATTR_VENDETTA
  | ATTR_WARPATH
  | ATTR_WICKED_LEECH
  | ATTR_ARCTIC_FREEZE
  | ATTR_BLOOD_STONE
  | ATTR_CLEAR_SPRING
  | ATTR_FROST_BITE
  | ATTR_RED_VALLEY
  | ATTR_LORE
  | ATTR_LEAF
  | ATTR_REVIVAL
  | ATTR_FIRE_FORGE
  | ATTR_STONEWALL
  | ATTR_SPRING_BREEZE
  | ATTR_THUNDER_SHIELD
  | ATTR_NIMBLE_SOUL
  | ATTR_DIRT
  | ATTR_FLYING_STONE
  | ATTR_TSUNAMI
deriving DecidableEq

/-- C `struct attribute`: a type tag together with an optional level. -/
structure Attr where
  type : AttrType
  level : Int
deriving DecidableEq

/-- C `const Attr DeadAttr = { ATTR_DEAD }` (level zero-initialised). -/
def DeadAttr : Attr := ⟨.ATTR_DEAD, 0⟩

/-- C `struct card`.  The first block is the immutable template, the second
block the mutable battle state.  `numAttr` is the length of `attr`. -/
structure Card where
  name : String
  cost : Int
  timing : Int
  baseAtk : Int
  baseHp : Int
  baseAttr : List Attr
  curTiming : Int
  atk : Int
  curBaseAtk : Int
  hp : Int
  maxHp : Int
  attr : List Attr
deriving DecidableEq

/-- C `static const Card DeadCard`: the inert placeholder written into a
field slot when a card dies, carrying only the Dead attribute. -/
def DeadCard : Card :=
  { name := "Dead Card"
    cost := 0
    timing := 0
    baseAtk := 0
    baseHp := 0
    baseAttr := [DeadAttr]
    curTiming := 0
    atk := 0
    curBaseAtk := 0
    hp := 0
    maxHp := 0
    attr := [DeadAttr] }

/-- C `struct rune`: immutable template plus mutable charge state.
`usedThisRound` is an int used as a flag in C (0 or 1). -/
structure Rune where
  name : String
  attr : Attr
  maxCharges : Int
  chargesUsed : Int
  usedThisRound : Bool
deriving DecidableEq

/-- C `struct state`: the entire state of one simulation instance.  The four
card sets are lists (`numCards` is the length) and `numRunes` is the length
of `runes`.  The two seed words are 32-bit unsigned values. -/
structure State where
  dmgDone : Int
  hp : Int
  maxHp : Int
  round : Int
  demon : Card
  deck : List Card
  hand : List Card
  field : List Card
  grave : List Card
  runes : List Rune
  seedW : Nat
  seedZ : Nat
deriving DecidableEq

/-- The configuration globals of sim.c that the battle engine reads:
the round ceiling `maxRounds` and the `-avgconcentrate` policy flag. -/
structure Config where
  maxRounds : Int
  avgConcentrate : Bool
deriving DecidableEq

/-- C `FIRST_DEMON_ROUND`. -/
def FIRST_DEMON_ROUND : Int := 5

/-- C `FIRST_PLAYER_ROUND`. -/
def FIRST_PLAYER_ROUND : Int := 6

/-- C `MAX_CARDS_IN_HAND`. -/
def MAX_CARDS_IN_HAND : Nat := 5

/-- C `MAX_ATTR`. -/
def MAX_ATTR : Nat := 40

/-- C `MAX_CARDS_IN_SET`. -/
def MAX_CARDS_IN_SET : Nat := 20

/-- C `InitCard`: reset the battle-state block from the template block and
rebuild the attribute list from the base attributes, dropping `ATTR_NONE`
entries (the C loop copies `baseAttr[i]` whenever its type is not
`ATTR_NONE`, in order; an earlier dead store to `numAttr` is overwritten). -/
def InitCard (card : Card) : Card :=
  { card with
    curTiming := card.timing
    atk := card.baseAtk
    curBaseAtk := card.baseAtk
    hp := card.baseHp
    maxHp := card.baseHp
    attr := card.baseAttr.filter (fun a => a.type ≠ .ATTR_NONE) }

/-- C `myRand`: the dual 16-bit multiply-with-carry generator.  Both seed
words are updated; the return value is `(seedZ << 16) + seedW` reduced
modulo 2^32 (the shift can overflow the 32-bit word in C). -/
def myRand (s : State) : Nat × State :=
  let w := (18000 * (s.seedW % 65536) + s.seedW / 65536) % 2 ^ 32
  let z := (36969 * (s.seedZ % 65536) + s.seedZ / 65536) % 2 ^ 32
  ((z * 65536 + w) % 2 ^ 32, { s with seedW := w, seedZ := z })

/-- C `Rnd`: a random number in `[0, range)` by modulo.  (`range` is never 0
on any reachable call; Lean's `% 0` is the identity.) -/
def Rnd (s : State) (range : Nat) : Nat × State :=
  let (r, s') := myRand s
  (r % range, s')

/-- The scan inside C `HasAttr`: the first entry of the given type yields
its level.  `none` models the `false` return, `some lvl` the `true` return
with `*pLevel = lvl`. -/
def hasAttrList : List Attr → AttrType → Option Int
  | [], _ => none
  | a :: rest, t => if a.type = t then some a.level else hasAttrList rest t

/-- C `HasAttr` on a card. -/
def HasAttr (c : Card) (t : AttrType) : Option Int := hasAttrList c.attr t

/-- C `AddAttr`: append the attribute.  On attribute-capacity overflow the C
program aborts (`exit(1)`), a fatal configuration error outside the battle
semantics; the embedding appends unconditionally. -/
def AddAttr (c : Card) (a : Attr) : Card := { c with attr := c.attr ++ [a] }

/-- The removal loop of C `RemoveAttr` on the attribute list: with a
concrete level, the first entry matching both type and level is removed and
the scan returns; with level `-1`, every entry of the type is removed.
Remaining entries keep their relative order (the C code shifts left). -/
def removeAttrList : List Attr → AttrType → Int → List Attr
  | [], _, _ => []
  | a :: rest, t, lvl =>
    if a.type = t ∧ (a.level = lvl ∨ lvl = -1) then
      if lvl = -1 then removeAttrList rest t lvl else rest
    else a :: removeAttrList rest t lvl

/-- C `RemoveAttr` on a card. -/
def RemoveAttr (c : Card) (t : AttrType) (lvl : Int) : Card :=
  { c with attr := removeAttrList c.attr t lvl }

/-- C `RemoveCardFromSet`: close the gap by shifting left, i.e. erase the
element at the index. -/
def RemoveCardFromSet (cs : List Card) (n : Nat) : List Card := cs.eraseIdx n

/-- C `AddCardToSet`: append a copy at the end (capacity overflow aborts the
C program; see `AddAttr`). -/
def AddCardToSet (cs : List Card) (c : Card) : List Card := cs ++ [c]

/-- C `AddCardToSetRandomly`: insert a copy at a uniformly random position
`r` in `[0, numCards]`; the C code shifts the cards at `r` and beyond one
slot to the right and writes the new card at `r`. -/
def AddCardToSetRandomly (s : State) (cs : List Card) (c : Card) :
    List Card × State :=
  let (r, s') := Rnd s (cs.length + 1)
  (cs.take r ++ c :: cs.drop r, s')

/-- Apply `f` to the element at index `i`, leaving the rest unchanged (a C
write through a pointer into an array slot). -/
def listModify (f : α → α) : Nat → List α → List α
  | _, [] => []
  | 0, a :: rest => f a :: rest
  | n + 1, a :: rest => a :: listModify f n rest

/-- Map over a list together with the element index, starting at `i0`. -/
def mapWithIdxFrom (f : Nat → α → α) : Nat → List α → List α
  | _, [] => []
  | i, a :: rest => f i a :: mapWithIdxFrom f (i + 1) rest

/-- Update the field card at index `i` (C mutates `state->field.cards[i]`
through a pointer). -/
def modifyField (s : State) (i : Nat) (f : Card → Card) : State :=
  { s with field := listModify f i s.field }

/-- Read the field card at index `i` (in-range on every reachable C read;
out of range yields the dead placeholder). -/
def fieldGet (s : State) (i : Nat) : Card := s.field[i]?.getD DeadCard

/-- C `RemoveDeadCards`: delete every field card carrying the Dead
attribute, keeping the order of the others (the C loop erases in place and
re-checks the same index). -/
def RemoveDeadCards (s : State) : State :=
  { s with field := s.field.filter (fun c => (HasAttr c .ATTR_DEAD).isNone) }

/-- The per-card body of C `RemoveBuffFromField`, applied to every field
card (other than the source) that carries the buff attribute: hp-type buffs
lower `maxHp` and clamp `hp` to it; attack-type buffs lower `atk` and
`curBaseAtk`, flooring both at zero; any other attribute is only removed. -/
def removeBuffFromCard (c2 : Card) (buff : AttrType) (level : Int) : Card :=
  if (HasAttr c2 buff).isSome then
    match buff with
    | .ATTR_TUNDRA_HP_BUFF | .ATTR_FOREST_HP_BUFF
    | .ATTR_MTN_HP_BUFF | .ATTR_SWAMP_HP_BUFF =>
      let c2 := RemoveAttr c2 buff level
      let c2 := { c2 with maxHp := c2.maxHp - level }
      if c2.hp > c2.maxHp then { c2 with hp := c2.maxHp } else c2
    | .ATTR_TUNDRA_ATK_BUFF | .ATTR_FOREST_ATK_BUFF
    | .ATTR_MTN_ATK_BUFF | .ATTR_SWAMP_ATK_BUFF =>
      let c2 := RemoveAttr c2 buff level
      let c2 := { c2 with atk := c2.atk - level, curBaseAtk := c2.curBaseAtk - level }
      let c2 := if c2.atk < 0 then { c2 with atk := 0 } else c2
      if c2.curBaseAtk < 0 then { c2 with curBaseAtk := 0 } else c2
    | _ => RemoveAttr c2 buff level
  else c2

/-- C `RemoveBuffFromField`: remove a buff from all field cards except the
card that originated it (the C code skips it by pointer comparison; here the
source is identified by its field index). -/
def RemoveBuffFromField (s : State) (src : Nat) (buff : AttrType) (level : Int) :
    State :=
  { s with
    field := mapWithIdxFrom
      (fun i c2 => if i = src then c2 else removeBuffFromCard c2 buff level)
      0 s.field }

/-- C `AddBuffToCard`: hp-type buffs raise `hp` and `maxHp`; attack-type
buffs raise `atk` and `curBaseAtk`; in every case the attribute entry is
appended.  (The C `src` argument is only used for debug printing.) -/
def AddBuffToCard (target : Card) (buff : AttrType) (level : Int) : Card :=
  match buff with
  | .ATTR_TUNDRA_HP_BUFF | .ATTR_FOREST_HP_BUFF
  | .ATTR_MTN_HP_BUFF | .ATTR_SWAMP_HP_BUFF =>
    AddAttr { target with hp := target.hp + level, maxHp := target.maxHp + level }
      ⟨buff, level⟩
  | .ATTR_TUNDRA_ATK_BUFF | .ATTR_FOREST_ATK_BUFF
  | .ATTR_MTN_ATK_BUFF | .ATTR_SWAMP_ATK_BUFF =>
    AddAttr { target with atk := target.atk + level,
                          curBaseAtk := target.curBaseAtk + level }
      ⟨buff, level⟩
  | _ => AddAttr target ⟨buff, level⟩

/-- C `AddBuffToField`: add a buff to every field card of the given class
(all cards when the class is `ATTR_NONE`), except the originating card.  The
C code skips the originator by pointer comparison; `src = some i` identifies
it by field index, and `src = none` models the case where the originating
pointer does not alias any live slot (see `CardPlayedToField`), so that no
card is skipped. -/
def AddBuffToField (s : State) (src : Option Nat) (cls : AttrType) (buff : AttrType)
    (level : Int) : State :=
  { s with
    field := mapWithIdxFrom
      (fun i c2 =>
        if src = some i then c2
        else if cls = .ATTR_NONE ∨ (HasAttr c2 cls).isSome then
          AddBuffToCard c2 buff level
        else c2)
      0 s.field }

/-- C `SimPrayer`: heal the hero by `heal`, capped at `maxHp`, only while
the hero is alive and damaged. -/
def SimPrayer (s : State) (heal : Int) : State :=
  if s.hp > 0 ∧ s.hp < s.maxHp then
    { s with hp := s.hp + min heal (s.maxHp - s.hp) }
  else s

/-- The loop of C `SimReincarnate`: move up to `n` cards from the front of
the graveyard to the end of the deck, stopping early when the graveyard is
exhausted. -/
def simReincarnateLoop : Nat → State → State
  | 0, s => s
  | n + 1, s =>
    match s.grave with
    | [] => s
    | c2 :: rest =>
      simReincarnateLoop n { s with grave := rest, deck := AddCardToSet s.deck c2 }

/-- C `SimReincarnate` (`level` is the number of cards to reincarnate; a
non-positive level runs the loop zero times). -/
def SimReincarnate (s : State) (level : Int) : State :=
  simReincarnateLoop level.toNat s

/-- C `HealOneCard`: no effect on lacerated or immune cards; otherwise heal
an alive, damaged card up to its `maxHp`. -/
def HealOneCard (c : Card) (heal : Int) : Card :=
  if (HasAttr c .ATTR_LACERATE_BUFF).isSome ∨ (HasAttr c .ATTR_IMMUNITY).isSome then
    c
  else if c.hp > 0 ∧ c.hp < c.maxHp then
    { c with hp := c.hp + min heal (c.maxHp - c.hp) }
  else c

/-- C `SimRegenerate`: heal every field card. -/
def SimRegenerate (s : State) (heal : Int) : State :=
  { s with field := s.field.map (fun c => HealOneCard c heal) }

/-- C liveness test `c->hp > 0`. -/
def isAlive (c : Card) : Bool := decide (0 < c.hp)

/-- The second scan shared by C `PickAliveCardFromSet` and
`PickReanimatableCard`: walk the set and return the index of the `r`-th
entry (0-based) satisfying the predicate. -/
def nthMatchIdx (p : Card → Bool) : List Card → Nat → Nat → Option Nat
  | [], _, _ => none
  | c :: rest, i, r =>
    if p c then
      if r = 0 then some i else nthMatchIdx p rest (i + 1) (r - 1)
    else nthMatchIdx p rest (i + 1) r

/-- C `PickAliveCardFromSet`: pick a uniformly random live card of the set;
`none` when the set is empty or has no live card (in those cases the random
stream is not advanced). -/
def PickAliveCardFromSet (s : State) (cs : List Card) : Option Nat × State :=
  if cs.length = 0 then (none, s)
  else
    let count := (cs.filter isAlive).length
    if count = 0 then (none, s)
    else
      let (r, s') := Rnd s count
      (nthMatchIdx isAlive cs 0 r, s')

/-- The reanimation eligibility test of C `PickReanimatableCard`: cards with
Reanimate, Desperation-Reanimate or Immunity cannot be reanimated. -/
def canReanimate (c : Card) : Bool :=
  !((HasAttr c .ATTR_REANIMATE).isSome || (HasAttr c .ATTR_D_REANIMATE).isSome ||
    (HasAttr c .ATTR_IMMUNITY).isSome)

/-- C `PickReanimatableCard`: pick a uniformly random reanimatable card of
the graveyard, or `none` (again without advancing the random stream). -/
def PickReanimatableCard (s : State) : Option Nat × State :=
  if s.grave.length = 0 then (none, s)
  else
    let count := (s.grave.filter canReanimate).length
    if count = 0 then (none, s)
    else
      let (r, s') := Rnd s count
      (nthMatchIdx canReanimate s.grave 0 r, s')

/-- The value compared by C `FindLowestHpCard`: damage taken when looking
for the most damaged card, current hp when looking for the lowest-hp card. -/
def flhcValue (mostDamaged : Bool) (c : Card) : Int :=
  if mostDamaged then c.maxHp - c.hp else c.hp

/-- The first scan of C `FindLowestHpCard`: compute the lowest value
(initialised to the unset sentinel `-1`), how many cards share it, and the
index where it was first established.  As in C, the `value == lowest`
tie-count branch does not re-check liveness. -/
def flhcScan (mostDamaged : Bool) :
    List Card → Nat → Int → Nat → Option Nat → Int × Nat × Option Nat
  | [], _, lowest, numLowest, lowIdx => (lowest, numLowest, lowIdx)
  | c :: rest, i, lowest, numLowest, lowIdx =>
    let value := flhcValue mostDamaged c
    let isLowest :=
      if mostDamaged then isAlive c && (decide (lowest = -1) || decide (value > lowest))
      else isAlive c && (decide (lowest = -1) || decide (value < lowest))
    if isLowest then flhcScan mostDamaged rest (i + 1) value 1 (some i)
    else if value = lowest then
      flhcScan mostDamaged rest (i + 1) lowest (numLowest + 1) lowIdx
    else flhcScan mostDamaged rest (i + 1) lowest numLowest lowIdx

/-- C `FindLowestHpCard`.  With zero or one candidate the answer is direct.
With a tie, `r` is drawn (uniformly for most-damaged, the fixed value
`numLowest - 1` otherwise) and the C tie-break loop then reads the stale
pointer `c` left over from the first scan, which points at the LAST card of
the set: the compared `value` is recomputed from that same last card on
every iteration and the matching `return c` returns that pointer.  Hence if
the last card's value equals `lowest` every iteration matches, `r` (which is
below the set length) reaches 0 inside the loop and the result is the last
card; otherwise no iteration matches and the loop falls through to `lowC`. -/
def FindLowestHpCard (s : State) (cs : List Card) (mostDamaged : Bool) :
    Option Nat × State :=
  let (lowest, numLowest, lowIdx) := flhcScan mostDamaged cs 0 (-1) 0 none
  if numLowest = 0 then (none, s)
  else if numLowest = 1 then (lowIdx, s)
  else
    let (_r, s') := if mostDamaged then Rnd s numLowest else (numLowest - 1, s)
    match cs.getLast? with
    | none => (lowIdx, s')
    | some last =>
      if flhcValue mostDamaged last = lowest then (some (cs.length - 1), s')
      else (lowIdx, s')

/-- C `SimHealing`: heal the most damaged field card, if any. -/
def SimHealing (s : State) (heal : Int) : State :=
  let (r, s') := FindLowestHpCard s s.field true
  match r with
  | none => s'
  | some i => modifyField s' i (fun c => HealOneCard c heal)

/-- The attribute loop of C `ReducePhysDmg`, in list order: Parry and
Stonewall subtract flooring at zero; Ice Shield and Arctic Freeze cap the
incoming amount at their level. -/
def reducePhysDmgLoop : List Attr → Int → Int
  | [], dmg => dmg
  | a :: rest, dmg =>
    let dmg :=
      match a.type with
      | .ATTR_PARRY | .ATTR_STONEWALL =>
        let d := dmg - a.level
        if d < 0 then 0 else d
      | .ATTR_ICE_SHIELD | .ATTR_ARCTIC_FREEZE =>
        if dmg > a.level then a.level else dmg
      | _ => dmg
    reducePhysDmgLoop rest dmg

/-- C `ReducePhysDmg`. -/
def ReducePhysDmg (c : Card) (dmg : Int) : Int := reducePhysDmgLoop c.attr dmg

/-- C `SimDemonLacerate`: add the lacerate debuff unless already present. -/
def SimDemonLacerate (c : Card) : Card :=
  if (HasAttr c .ATTR_LACERATE_BUFF).isSome then c
  else AddAttr c ⟨.ATTR_LACERATE_BUFF, 0⟩

/-- The first pass of C `PickNCards`: the indices of the live cards of the
set, in ascending order (`i0` is the index of the head of the list). -/
def aliveIndicesFrom : Nat → List Card → List Nat
  | _, [] => []
  | i, c :: rest =>
    if isAlive c then i :: aliveIndicesFrom (i + 1) rest
    else aliveIndicesFrom (i + 1) rest

/-- Exchange the elements at positions `i` and `j` (the three-assignment
swap of the C code); out-of-range positions leave the list unchanged. -/
def listSwap (l : List Nat) (i j : Nat) : List Nat :=
  match l[i]?, l[j]? with
  | some a, some b => (l.set i b).set j a
  | _, _ => l

/-- The random-swap pass of C `PickNCards`: for each `i` below `n`, draw
`r` in `[0, numAlive - 1 - i)` and, when non-zero, swap positions `i` and
`i + r`. -/
def pickSwapLoop (numAlive n : Nat) : Nat → List Nat → State → List Nat × State
  | i, ret, s =>
    if i < n then
      let (r, s') := Rnd s (numAlive - 1 - i)
      let ret' := if r ≠ 0 then listSwap ret i (i + r) else ret
      pickSwapLoop numAlive n (i + 1) ret' s'
    else (ret, s)
termination_by i => n - i

/-- The inner scan of the C selection sort in `PickNCards`: find the least
element of the remaining suffix and the position where it sits.  `j` is the
position of the head of `l` relative to the element being placed. -/
def selFindMin : List Nat → Nat → Nat → Nat → Nat × Nat
  | [], lowest, lowestIndex, _ => (lowest, lowestIndex)
  | x :: rest, lowest, lowestIndex, j =>
    if x < lowest then selFindMin rest x j (j + 1)
    else selFindMin rest lowest lowestIndex (j + 1)

/-- The selection sort of C `PickNCards` on the first `n` slots of `ret`
(applied below to the prefix being sorted).  Each pass finds the least
element of the suffix and swaps it to the front; the C code skips the swap
when the front already holds the least value.  When a swap does happen,
`selFindMin` was updated at least once, so the reported position holds the
reported least value and the swap is exactly "least to the front, old front
to that position". -/
def selSort : List Nat → List Nat
  | [] => []
  | x :: rest =>
    let m := selFindMin rest x 0 1
    if x ≠ m.1 then m.1 :: selSort (rest.set (m.2 - 1) x)
    else x :: selSort rest
termination_by l => l.length
decreasing_by
  all_goals simp [List.length_set]

/-- C `PickNCards`: collect the live indices, cap `n` at their number, and
if a strict subset is requested randomly select and then sort the first `n`
slots.  Returns the C return value (the number picked, as the C `int`),
the index array, and the advanced state.  The caller reads the first `n`
entries of the array. -/
def PickNCards (s : State) (cs : List Card) (n : Int) : Int × List Nat × State :=
  let ret := aliveIndicesFrom 0 cs
  let numAlive := ret.length
  let n := min n (numAlive : Int)
  if n = (numAlive : Int) then (n, ret, s)
  else
    let nn := n.toNat
    let (ret', s') := pickSwapLoop numAlive nn 0 ret s
    (n, selSort (ret'.take nn) ++ ret'.drop nn, s')

/-- The per-pick loop of C `SimDemonTrap`: for each picked index, roll, and
apply the trap debuff unless the card is immune or evasive or the roll
fails (the roll is consumed in every case). -/
def simDemonTrapLoop : List Nat → Nat → State → State
  | _, 0, s => s
  | [], _, s => s
  | idx :: rest, k + 1, s =>
    let (r, s) := Rnd s 100
    let c := fieldGet s idx
    let s :=
      if (HasAttr c .ATTR_IMMUNITY).isSome then s
      else if (HasAttr c .ATTR_EVASION).isSome then s
      else if r < 65 then modifyField s idx (fun c => AddAttr c ⟨.ATTR_TRAP_BUFF, 0⟩)
      else s
    simDemonTrapLoop rest k s

/-- C `SimDemonTrap`. -/
def SimDemonTrap (s : State) (numToTrap : Int) : State :=
  let (numTrapped, trapped, s) := PickNCards s s.field numToTrap
  if numTrapped = 0 then s
  else simDemonTrapLoop trapped numTrapped.toNat s

/-- The attribute loop of C `HandleBuffsFromCardPlayed`: broadcast the class
buffs of the newly played card to the rest of the field.  The originating
card's attribute list is not modified by the broadcasts (`AddBuffToField`
skips the source), so the loop runs over the list captured at entry. -/
def handleBuffsLoop (src : Option Nat) : List Attr → State → State
  | [], s => s
  | a :: rest, s =>
    let s :=
      match a.type with
      | .ATTR_TUNDRA_HP =>
        AddBuffToField s src .ATTR_TUNDRA .ATTR_TUNDRA_HP_BUFF a.level
      | .ATTR_FOREST_HP =>
        AddBuffToField s src .ATTR_FOREST .ATTR_FOREST_HP_BUFF a.level
      | .ATTR_MTN_HP =>
        AddBuffToField s src .ATTR_MTN .ATTR_MTN_HP_BUFF a.level
      | .ATTR_SWAMP_HP =>
        AddBuffToField s src .ATTR_SWAMP .ATTR_SWAMP_HP_BUFF a.level
      | .ATTR_TUNDRA_ATK =>
        AddBuffToField s src .ATTR_TUNDRA .ATTR_TUNDRA_ATK_BUFF a.level
      | .ATTR_FOREST_ATK =>
        AddBuffToField s src .ATTR_FOREST .ATTR_FOREST_ATK_BUFF a.level
      | .ATTR_MTN_ATK =>
        AddBuffToField s src .ATTR_MTN .ATTR_MTN_ATK_BUFF a.level
      | .ATTR_SWAMP_ATK =>
        AddBuffToField s src .ATTR_SWAMP .ATTR_SWAMP_ATK_BUFF a.level
      | _ => s
    handleBuffsLoop src rest s

/-- C `HandleBuffsFromCardPlayed` for the card value `c` (located at `src`,
or at no live slot when `src = none`). -/
def HandleBuffsFromCardPlayed (s : State) (src : Option Nat) (c : Card) : State :=
  handleBuffsLoop src c.attr s

/-- The buff-receiving loop of C `CardPlayedToField` (live-pointer case):
the new card at index `i` receives the hp/attack class buffs of every other
field card of its class.  Only slot `i` is written, so the field length is
constant; the loop index runs to the field length, which is at most
`MAX_CARDS_IN_SET` in any state the C program can reach. -/
def receiveBuffsLoop (attrHp attrHpBuff attrAtk attrAtkBuff : AttrType) (i : Nat) :
    Nat → State → State
  | j, s =>
    if j < s.field.length ∧ j < MAX_CARDS_IN_SET then
      if j = i then receiveBuffsLoop attrHp attrHpBuff attrAtk attrAtkBuff i (j + 1) s
      else
        let c2 := fieldGet s j
        let s :=
          match HasAttr c2 attrHp with
          | some level => modifyField s i (fun c => AddBuffToCard c attrHpBuff level)
          | none => s
        let s :=
          match HasAttr c2 attrAtk with
          | some level => modifyField s i (fun c => AddBuffToCard c attrAtkBuff level)
          | none => s
        receiveBuffsLoop attrHp attrHpBuff attrAtk attrAtkBuff i (j + 1) s
    else s
termination_by j => MAX_CARDS_IN_SET - j
decreasing_by
  all_goals simp_all [MAX_CARDS_IN_SET]
  all_goals omega

/-- The class selection at the end of C `CardPlayedToField`: the first
matching class attribute of the new card selects the
(class, hp-ability, hp-buff, atk-ability, atk-buff) attribute family. -/
def cardClassTuple (c : Card) :
    AttrType × AttrType × AttrType × AttrType × AttrType :=
  if (HasAttr c .ATTR_TUNDRA).isSome then
    (.ATTR_TUNDRA, .ATTR_TUNDRA_HP, .ATTR_TUNDRA_HP_BUFF,
     .ATTR_TUNDRA_ATK, .ATTR_TUNDRA_ATK_BUFF)
  else if (HasAttr c .ATTR_FOREST).isSome then
    (.ATTR_FOREST, .ATTR_FOREST_HP, .ATTR_FOREST_HP_BUFF,
     .ATTR_FOREST_ATK, .ATTR_FOREST_ATK_BUFF)
  else if (HasAttr c .ATTR_MTN).isSome then
    (.ATTR_MTN, .ATTR_MTN_HP, .ATTR_MTN_HP_BUFF,
     .ATTR_MTN_ATK, .ATTR_MTN_ATK_BUFF)
  else if (HasAttr c .ATTR_SWAMP).isSome then
    (.ATTR_SWAMP, .ATTR_SWAMP_HP, .ATTR_SWAMP_HP_BUFF,
     .ATTR_SWAMP_ATK, .ATTR_SWAMP_ATK_BUFF)
  else (.ATTR_NONE, .ATTR_NONE, .ATTR_NONE, .ATTR_NONE, .ATTR_NONE)

/-- The destination of the reset copy of a card leaving the field in C
`RemoveCard` (graveyard, or hand / deck on a successful resurrection). -/
inductive RCDest where
  | grave
  | deck
  | hand
deriving DecidableEq

/-- The obstinacy stage of C `CardPlayedToField`: the hero pays the
obstinacy level in hit points. -/
def cptfObstinacy (s : State) (i : Nat) : State :=
  (HasAttr (fieldGet s i) .ATTR_OBSTINACY).elim s
    (fun level => { s with hp := s.hp - level })

/-- The backstab stage of C `CardPlayedToField`: a transient attack bonus,
recorded for removal at the end of the player phase. -/
def cptfBackstab (s : State) (i : Nat) : State :=
  (HasAttr (fieldGet s i) .ATTR_BACKSTAB).elim s
    (fun level => modifyField s i
      (fun c => AddAttr { c with atk := c.atk + level } ⟨.ATTR_BACKSTAB_BUFF, level⟩))

/-- The quick-strike prayer stage of C `CardPlayedToField`. -/
def cptfQSPrayer (s : State) (i : Nat) : State :=
  (HasAttr (fieldGet s i) .ATTR_QS_PRAYER).elim s
    (fun level => SimPrayer s level)

/-- The quick-strike regenerate stage of C `CardPlayedToField`. -/
def cptfQSRegenerate (s : State) (i : Nat) : State :=
  (HasAttr (fieldGet s i) .ATTR_QS_REGENERATE).elim s
    (fun level => SimRegenerate s level)

/-- The quick-strike reincarnate stage of C `CardPlayedToField`. -/
def cptfQSReincarnate (s : State) (i : Nat) : State :=
  (HasAttr (fieldGet s i) .ATTR_QS_REINCARNATE).elim s
    (fun level => SimReincarnate s level)

/-- The sacrifice stage of C `CardPlayedToField`: consume a random other
card (unless immune), growing the new card by the sacrifice percentage;
on success the slain card is removed and the dead placeholders compacted
(at which point the C pointer to the new card goes stale; the frozen value
is returned in the first component). -/
def cptfSacrifice (removeCard : State → Nat → Bool → State)
    (s : State) (i : Nat) : Option Card × State :=
  match HasAttr (fieldGet s i) .ATTR_SACRIFICE with
  | some level =>
    if 1 < s.field.length then
      let (r, s) := Rnd s (s.field.length - 1)
      let c2 := fieldGet s r
      if (HasAttr c2 .ATTR_IMMUNITY).isSome then ((none : Option Card), s)
      else
        let c := fieldGet s i
        let atkIncrease := (c.atk * level).tdiv 100
        let hpIncrease := (c.hp * level).tdiv 100
        let s := modifyField s i (fun c =>
          { c with
            atk := c.atk + atkIncrease
            curBaseAtk := c.curBaseAtk + atkIncrease
            hp := c.hp + hpIncrease
            maxHp := c.maxHp + hpIncrease })
        let s := modifyField s r (fun c2 => { c2 with hp := 0 })
        let s := removeCard s r true
        let cv := fieldGet s i
        let s := RemoveDeadCards s
        (some cv, s)
    else ((none : Option Card), s)
  | none => ((none : Option Card), s)

/-- The buff-exchange tail of C `CardPlayedToField`: receive the class
buffs already on the field (skipped through the stale pointer after a
successful sacrifice) and broadcast this card's own. -/
def cptfFinish (p : Option Card × State) (i : Nat) : State :=
  let staleInfo := p.1
  let s := p.2
  let cNow := staleInfo.elim (fieldGet s i) (fun v => v)
  let t := cardClassTuple cNow
  let s :=
    if t.1 ≠ .ATTR_NONE then
      staleInfo.elim (receiveBuffsLoop t.2.1 t.2.2.1 t.2.2.2.1 t.2.2.2.2 i 0 s)
        (fun _ => s)
    else s
  let cNow2 := staleInfo.elim (fieldGet s i) (fun v => v)
  let src := staleInfo.elim (some i) (fun _ => (none : Option Nat))
  HandleBuffsFromCardPlayed s src cNow2

/-- The body of C `CardPlayedToField` for one application, with the
`RemoveCard` of the enclosing fuel level passed in (the recursion is tied
in `CardPlayedToField` below): obstinacy, backstab, the quick-strike
abilities, sacrifice, then the buff exchange. -/
def cardPlayedToFieldBody (removeCard : State → Nat → Bool → State)
    (s : State) (i : Nat) : State :=
  cptfFinish (cptfSacrifice removeCard
    (cptfQSReincarnate (cptfQSRegenerate (cptfQSPrayer
      (cptfBackstab (cptfObstinacy s i) i) i) i) i) i) i

/-- The graveyard-exit roll shared by the Dirt and Resurrection stages of C
`RemoveCard`: with probability `level` percent the dying card is rescued to
the hand (to the deck when the hand is full); otherwise the prior
destination stands. -/
def rcDestRoll (o : Option Int) (dflt : RCDest) (t : State) : RCDest × State :=
  match o with
  | some level =>
    let (r, s') := Rnd t 100
    if (r : Int) < level then
      (if MAX_CARDS_IN_HAND ≤ s'.hand.length then RCDest.deck else RCDest.hand,
       s')
    else (dflt, s')
  | none => (dflt, t)

/-- The final placement of the template-reset copy in C `RemoveCard`. -/
def rcPlaceCopy (dest : RCDest) (copy : Card) (s : State) : State :=
  match dest with
  | .grave => { s with grave := AddCardToSet s.grave copy }
  | .deck => { s with deck := AddCardToSet s.deck copy }
  | .hand => { s with hand := AddCardToSet s.hand copy }

mutual

/-- C `RemoveCard` on the field card at index `idx`: mark it dead (hp 0,
Dead attribute), strip the buffs it sourced and fire desperation abilities
(both driven by its attribute list), roll Dirt/Resurrection when headed for
the graveyard, append a template-reset copy to the destination set, and
overwrite the field slot with the dead placeholder.  The C attribute loop
reads the dying card's list in place; the list is stable during the loop in
every case except re-entrant nested sacrifices (see the header note), so
the loop runs over the list captured after the Dead attribute is added. -/
def RemoveCard : Nat → State → Nat → Bool → State
  | 0, s, _, _ => s
  | fuel + 1, s, idx, sendToGraveyard =>
    let s := modifyField s idx (fun c => AddAttr { c with hp := 0 } DeadAttr)
    let dying := fieldGet s idx
    let s := removeCardAttrLoop fuel s idx sendToGraveyard dying.attr
    let copy := InitCard (fieldGet s idx)
    let dying2 := fieldGet s idx
    if sendToGraveyard then
      let (dest, s) := rcDestRoll (HasAttr dying2 .ATTR_DIRT) RCDest.grave s
      let (dest, s) := rcDestRoll (HasAttr dying2 .ATTR_RESURRECTION) dest s
      modifyField (rcPlaceCopy dest copy s) idx (fun _ => DeadCard)
    else
      let (newDeck, s) := AddCardToSetRandomly s s.deck copy
      let s := { s with deck := newDeck }
      modifyField s idx (fun _ => DeadCard)

/-- The attribute loop of C `RemoveCard`: class hp/attack abilities strip
the matching buff from the rest of the field; desperation abilities fire
only when the card is headed for the graveyard. -/
def removeCardAttrLoop : Nat → State → Nat → Bool → List Attr → State
  | _, s, _, _, [] => s
  | fuel, s, idx, toGrave, a :: rest =>
    let s :=
      match a.type with
      | .ATTR_TUNDRA_HP => RemoveBuffFromField s idx .ATTR_TUNDRA_HP_BUFF a.level
      | .ATTR_FOREST_HP => RemoveBuffFromField s idx .ATTR_FOREST_HP_BUFF a.level
      | .ATTR_MTN_HP => RemoveBuffFromField s idx .ATTR_MTN_HP_BUFF a.level
      | .ATTR_SWAMP_HP => RemoveBuffFromField s idx .ATTR_SWAMP_HP_BUFF a.level
      | .ATTR_TUNDRA_ATK => RemoveBuffFromField s idx .ATTR_TUNDRA_ATK_BUFF a.level
      | .ATTR_FOREST_ATK => RemoveBuffFromField s idx .ATTR_FOREST_ATK_BUFF a.level
      | .ATTR_MTN_ATK => RemoveBuffFromField s idx .ATTR_MTN_ATK_BUFF a.level
      | .ATTR_SWAMP_ATK => RemoveBuffFromField s idx .ATTR_SWAMP_ATK_BUFF a.level
      | .ATTR_D_PRAYER => if toGrave then SimPrayer s a.level else s
      | .ATTR_D_REANIMATE => if toGrave then SimReanimate fuel s else s
      | .ATTR_D_REINCARNATE => if toGrave then SimReincarnate s a.level else s
      | _ => s
    removeCardAttrLoop fuel s idx toGrave rest

/-- C `SimReanimate`: move a random reanimatable card from the graveyard to
the end of the field with cooldown 0 and reanimation sickness, then run the
played-to-field triggers for it. -/
def SimReanimate : Nat → State → State
  | 0, s => s
  | fuel + 1, s =>
    let (r, s) := PickReanimatableCard s
    match r with
    | none => s
    | some ri =>
      let c2 := s.grave[ri]?.getD DeadCard
      let s := { s with grave := RemoveCardFromSet s.grave ri }
      let c2 := { c2 with curTiming := 0 }
      let s := { s with field := AddCardToSet s.field c2 }
      let newIdx := s.field.length - 1
      let s := modifyField s newIdx (fun c => AddAttr c ⟨.ATTR_REANIM_SICKNESS, 0⟩)
      CardPlayedToField fuel s newIdx

/-- C `CardPlayedToField` for the new card at field index `i` (always the
last slot at call time): obstinacy, backstab, quick-strike abilities,
sacrifice, then receive the class buffs already on the field and broadcast
this card's own.  A successful sacrifice ends with `RemoveDeadCards`, which
shifts the new card to a lower slot while the C pointer keeps addressing
the old slot beyond the live range: from that point the pointed-to value is
frozen (`staleInfo`), writes through the pointer are lost, and the buff
broadcast skips no live card. -/
def CardPlayedToField : Nat → State → Nat → State
  | 0, s, _ => s
  | fuel + 1, s, i =>
    cardPlayedToFieldBody (fun t r b => RemoveCard fuel t r b) s i

end

/-- The guard-absorption loop of C `DamagePlayer`: scan the field left to
right; every Guard card absorbs up to its remaining hp, dying (to the
graveyard) when drained.  Returns the unabsorbed remainder. -/
def damagePlayerLoop (fuel : Nat) : Nat → Int → State → Int × State
  | i, dmg, s =>
    if i < s.field.length ∧ i < MAX_CARDS_IN_SET then
      let c := fieldGet s i
      if (HasAttr c .ATTR_GUARD).isSome then
        let cardDmg := min dmg c.hp
        if 0 < cardDmg then
          let s := modifyField s i (fun c => { c with hp := c.hp - cardDmg })
          let s := if (fieldGet s i).hp ≤ 0 then RemoveCard fuel s i true else s
          damagePlayerLoop fuel (i + 1) (dmg - cardDmg) s
        else damagePlayerLoop fuel (i + 1) dmg s
      else damagePlayerLoop fuel (i + 1) dmg s
    else (dmg, s)
termination_by i => MAX_CARDS_IN_SET - i
decreasing_by
  all_goals simp_all [MAX_CARDS_IN_SET]
  all_goals omega

/-- C `DamagePlayer`: offer the hit to the guards, then subtract whatever
is left from the hero's hit points (which may go negative). -/
def DamagePlayer (fuel : Nat) (s : State) (dmg : Int) : State :=
  let (dmg, s) := damagePlayerLoop fuel 0 dmg s
  { s with hp := s.hp - dmg }

/-- The on-damage trigger loop of C `DamageCard`, over the victim's
attribute list read in place (index `ai`): Craze/Tsunami raise attack,
Counterattack/Retaliation/Thunder Shield/Fire Forge reflect damage to the
demon, Wicked Leech steals attack from the demon. -/
def damageCardTriggerLoop (cardIdx : Nat) : Nat → State → State
  | ai, s =>
    let c := fieldGet s cardIdx
    if ai < c.attr.length ∧ ai < MAX_ATTR then
      let a := c.attr[ai]?.getD DeadAttr
      let level := a.level
      let s :=
        match a.type with
        | .ATTR_CRAZE | .ATTR_TSUNAMI =>
          modifyField s cardIdx (fun c =>
            { c with atk := c.atk + level, curBaseAtk := c.curBaseAtk + level })
        | .ATTR_COUNTERATTACK | .ATTR_RETALIATION
        | .ATTR_THUNDER_SHIELD | .ATTR_FIRE_FORGE =>
          { s with dmgDone := s.dmgDone + level,
                   demon := { s.demon with hp := s.demon.hp - level } }
        | .ATTR_WICKED_LEECH =>
          let atkLoss := (s.demon.curBaseAtk * level).tdiv 100
          let s := { s with demon :=
            { s.demon with curBaseAtk := s.demon.curBaseAtk - atkLoss,
                           atk := s.demon.atk - atkLoss } }
          modifyField s cardIdx (fun c =>
            { c with atk := c.atk + atkLoss, curBaseAtk := c.curBaseAtk + atkLoss })
        | _ => s
      damageCardTriggerLoop cardIdx (ai + 1) s
    else s
termination_by ai => MAX_ATTR - ai
decreasing_by
  all_goals simp_all [MAX_ATTR]
  all_goals omega

/-- The dodge roll pattern of C `DamageCard` (Nimble Soul and Dodge): roll
only when the attribute is present, succeeding below the level. -/
def dodgeRoll (o : Option Int) (t : State) : Bool × State :=
  match o with
  | some level =>
    let (r, s') := Rnd t 100
    (decide ((r : Int) < level), s')
  | none => (false, t)

/-- C `DamageCard` on the field card at index `i`: dodge rolls (Nimble Soul
then Dodge), physical reduction, hp decrement clamped at zero (a zero net
hit suppresses everything), damage triggers, death relocation, and the
demon's lacerate on a surviving victim.  Returns the damage dealt (used by
chain attack) and the new state. -/
def DamageCard (fuel : Nat) (s : State) (i : Nat) (dmg : Int) : Int × State :=
  let c := fieldGet s i
  let (dodged1, s) := dodgeRoll (HasAttr c .ATTR_NIMBLE_SOUL) s
  if dodged1 then (0, s)
  else
    let (dodged2, s) := dodgeRoll (HasAttr (fieldGet s i) .ATTR_DODGE) s
    if dodged2 then (0, s)
    else
      let dmg := ReducePhysDmg (fieldGet s i) dmg
      if dmg ≤ 0 then (0, s)
      else
        let s := modifyField s i (fun c => { c with hp := c.hp - dmg })
        let s := modifyField s i (fun c => if c.hp ≤ 0 then { c with hp := 0 } else c)
        let s := damageCardTriggerLoop i 0 s
        let s := if (fieldGet s i).hp = 0 then RemoveCard fuel s i true else s
        let s :=
          if 0 < (fieldGet s i).hp ∧ (HasAttr s.demon .ATTR_LACERATE).isSome then
            modifyField s i SimDemonLacerate
          else s
        (dmg, s)

/-- The chain-attack loop of C `SimDemonAttack`: re-apply the scaled hit to
every other living same-named card (the name was captured before the first
hit, the field is re-read each step because the hits can relocate cards). -/
def chainAttackLoop (fuel : Nat) (cardName : String) (newDmg : Int) :
    Nat → State → State
  | i, s =>
    if i < s.field.length ∧ i < MAX_CARDS_IN_SET then
      let c2 := fieldGet s i
      let s :=
        if (HasAttr c2 .ATTR_DEAD).isNone ∧ 0 < c2.hp ∧ cardName = c2.name then
          (DamageCard fuel s i newDmg).2
        else s
      chainAttackLoop fuel cardName newDmg (i + 1) s
    else s
termination_by i => MAX_CARDS_IN_SET - i
decreasing_by
  all_goals simp_all [MAX_CARDS_IN_SET]
  all_goals omega

/-- C `SimDemonAttack`: hit the leftmost card if it is present and not a
dead placeholder (extending by chain attack), otherwise hit the hero. -/
def SimDemonAttack (fuel : Nat) (s : State) (dmg : Int) : State :=
  if 0 < s.field.length then
    let c := fieldGet s 0
    let cardName := c.name
    if (HasAttr c .ATTR_DEAD).isNone then
      let (newDmg, s) := DamageCard fuel s 0 dmg
      if 0 < newDmg then
        match HasAttr s.demon .ATTR_CHAIN_ATTACK with
        | some level =>
          let newDmg := (newDmg * level).tdiv 100
          chainAttackLoop fuel cardName newDmg 1 s
        | none => s
      else s
    else DamagePlayer fuel s dmg
  else DamagePlayer fuel s dmg

/-- The Fire God broadcast of C `SimDemon`: inflict the demon's Fire God
attribute on every living, non-immune field card not already afflicted. -/
def simDemonFireGodLoop (attrVal : Attr) : Nat → State → State
  | j, s =>
    if j < s.field.length ∧ j < MAX_CARDS_IN_SET then
      let c := fieldGet s j
      let s :=
        if c.hp ≤ 0 then s
        else if (HasAttr c .ATTR_IMMUNITY).isSome then s
        else if (HasAttr c .ATTR_FIRE_GOD).isNone then
          modifyField s j (fun c => AddAttr c attrVal)
        else s
      simDemonFireGodLoop attrVal (j + 1) s
    else s
termination_by j => MAX_CARDS_IN_SET - j
decreasing_by
  all_goals simp_all [MAX_CARDS_IN_SET]
  all_goals omega

/-- The Toxic Clouds resolution of C `SimDemon`: walk the field left to
right; dead cards are skipped, the first living card with Immunity breaks
the whole loop, and every other living card takes up to `level` damage
(dying to the graveyard at zero) and is afflicted with the Toxic Clouds
attribute if it survives without one. -/
def simDemonToxicLoop (fuel : Nat) (attrVal : Attr) : Nat → State → State
  | j, s =>
    if j < s.field.length ∧ j < MAX_CARDS_IN_SET then
      let c := fieldGet s j
      if c.hp ≤ 0 then simDemonToxicLoop fuel attrVal (j + 1) s
      else if (HasAttr c .ATTR_IMMUNITY).isSome then s
      else
        let dmg := min attrVal.level c.hp
        let s := modifyField s j (fun c => { c with hp := c.hp - dmg })
        let s :=
          if (fieldGet s j).hp ≤ 0 then RemoveCard fuel s j true
          else if (HasAttr (fieldGet s j) .ATTR_TOXIC_CLOUDS).isNone then
            modifyField s j (fun c => AddAttr c attrVal)
          else s
        simDemonToxicLoop fuel attrVal (j + 1) s
    else s
termination_by j => MAX_CARDS_IN_SET - j
decreasing_by
  all_goals simp_all [MAX_CARDS_IN_SET]
  all_goals omega

/-- The demon ability loop of C `SimDemon`, over the demon's attribute list
(read in place; the abilities never modify it), stopping early once the
hero's hp is gone. -/
def simDemonAttrLoop (fuel : Nat) : Nat → State → State
  | i, s =>
    let d := s.demon
    if i < d.attr.length ∧ i < MAX_ATTR then
      if s.hp ≤ 0 then s
      else
        let a := d.attr[i]?.getD DeadAttr
        let s :=
          match a.type with
          | .ATTR_CURSE => DamagePlayer fuel s a.level
          | .ATTR_DAMNATION =>
            let dmg := a.level * (s.field.length : Int)
            if 0 < dmg then DamagePlayer fuel s dmg else s
          | .ATTR_EXILE =>
            if 0 < s.field.length then
              let c := fieldGet s 0
              if 0 < c.hp then
                if (HasAttr c .ATTR_RESISTANCE).isNone ∧
                    (HasAttr c .ATTR_IMMUNITY).isNone then
                  RemoveCard fuel s 0 false
                else s
              else s
            else s
          | .ATTR_SNIPE =>
            let (ci, s) := FindLowestHpCard s s.field false
            match ci with
            | none => s
            | some ci =>
              let c := fieldGet s ci
              let dmg := min a.level c.hp
              let s := modifyField s ci (fun c => { c with hp := c.hp - dmg })
              if (fieldGet s ci).hp = 0 then RemoveCard fuel s ci true else s
          | .ATTR_MANA_CORRUPT =>
            let (ri, s) := PickAliveCardFromSet s s.field
            match ri with
            | none => s
            | some ri =>
              let c := fieldGet s ri
              let dmg :=
                if (HasAttr c .ATTR_REFLECTION).isSome ∨
                    (HasAttr c .ATTR_IMMUNITY).isSome then a.level * 3
                else a.level
              let dmg := min dmg c.hp
              let s := modifyField s ri (fun c => { c with hp := c.hp - dmg })
              if (fieldGet s ri).hp = 0 then RemoveCard fuel s ri true else s
          | .ATTR_DESTROY =>
            let (ri, s) := PickAliveCardFromSet s s.field
            match ri with
            | none => s
            | some ri =>
              let c := fieldGet s ri
              if (HasAttr c .ATTR_RESISTANCE).isNone ∧
                  (HasAttr c .ATTR_IMMUNITY).isNone then
                let s := modifyField s ri (fun c => { c with hp := 0 })
                RemoveCard fuel s ri true
              else s
          | .ATTR_FIRE_GOD => simDemonFireGodLoop a 0 s
          | .ATTR_TOXIC_CLOUDS => simDemonToxicLoop fuel a 0 s
          | .ATTR_TRAP => SimDemonTrap s a.level
          | _ => s
        simDemonAttrLoop fuel (i + 1) s
    else s
termination_by i => MAX_ATTR - i
decreasing_by
  all_goals simp_all [MAX_ATTR]
  all_goals omega

/-- C `SimDemon`: nothing before round 5; unavoidable chip damage from
round 51 on; the demon's ability list; its physical attack (with Hot Chase
bonus) while the hero lives; and dead-placeholder compaction at the end. -/
def SimDemon (fuel : Nat) (s : State) : State :=
  if s.round < FIRST_DEMON_ROUND then s
  else
    let s :=
      if 51 ≤ s.round then
        let dmg := ((s.round - 51).tdiv 2) * 60 + 80
        let dmg := min dmg s.hp
        { s with hp := s.hp - dmg }
      else s
    let s := simDemonAttrLoop fuel 0 s
    let s :=
      if 0 < s.hp then
        let d := s.demon
        let atk := d.atk
        let atk :=
          match HasAttr d .ATTR_HOT_CHASE with
          | some level =>
            let level := level * (s.grave.length : Int)
            if 0 < level then atk + level else atk
          | none => atk
        SimDemonAttack fuel s atk
      else s
    RemoveDeadCards s

/-- C `DecreaseTimers`: decrement every positive cooldown in the hand. -/
def DecreaseTimers (s : State) : State :=
  { s with hand := s.hand.map (fun c =>
      if 0 < c.curTiming then { c with curTiming := c.curTiming - 1 } else c) }

/-- C `PlayCardsFromDeck`: deal the last deck card to the hand unless the
hand is full. -/
def PlayCardsFromDeck (s : State) : State :=
  if 0 < s.deck.length ∧ MAX_CARDS_IN_HAND ≤ s.hand.length then s
  else if 0 < s.deck.length then
    let c := s.deck[s.deck.length - 1]?.getD DeadCard
    { s with hand := AddCardToSet s.hand c,
             deck := RemoveCardFromSet s.deck (s.deck.length - 1) }
  else s

/-- The loop of C `PlayCardsFromHand`: each hand card at cooldown 0 moves to
the end of the field and fires its played-to-field triggers; removal re-runs
the same hand index.  The fuel bounds the number of plays (resurrections
during a play can append to the hand, so the hand length alone is not a
measure; in C the loop is bounded by the capacities and the fact that
template cooldowns are positive). -/
def playCardsFromHandLoop : Nat → Nat → State → State
  | 0, _, s => s
  | fuel + 1, i, s =>
    if i < s.hand.length then
      let c := s.hand[i]?.getD DeadCard
      if c.curTiming ≤ 0 then
        let s := { s with hand := RemoveCardFromSet s.hand i }
        let s := { s with field := AddCardToSet s.field c }
        let s := CardPlayedToField fuel s (s.field.length - 1)
        playCardsFromHandLoop fuel i s
      else playCardsFromHandLoop fuel (i + 1) s
    else s

/-- C `PlayCardsFromHand`. -/
def PlayCardsFromHand (fuel : Nat) (s : State) : State :=
  playCardsFromHandLoop fuel 0 s

/-- The scan of C `SimAdvancedStrike`: the first hand card with the highest
cooldown. -/
def sasScan : List Card → Nat → Int → Option Nat → Int × Option Nat
  | [], _, highTiming, highIndex => (highTiming, highIndex)
  | c :: rest, i, highTiming, highIndex =>
    if highTiming < c.curTiming then sasScan rest (i + 1) c.curTiming (some i)
    else sasScan rest (i + 1) highTiming highIndex

/-- C `SimAdvancedStrike`: lower the highest positive cooldown in the hand
by one. -/
def SimAdvancedStrike (s : State) : State :=
  let r := sasScan s.hand 0 (-1) none
  match r.2 with
  | none => s
  | some hi =>
    let c := s.hand[hi]?.getD DeadCard
    if 0 < c.curTiming then
      { s with hand := listModify (fun c => { c with curTiming := c.curTiming - 1 })
                         hi s.hand }
    else s

/-- The Revival pass of C `SimPlayerAttack`: raise both the hit amount and
the base-attack figure used by percentage abilities. -/
def spaRevivalLoop : List Attr → Int → Int → Int × Int
  | [], dmg, baseAtk => (dmg, baseAtk)
  | a :: rest, dmg, baseAtk =>
    match a.type with
    | .ATTR_REVIVAL => spaRevivalLoop rest (dmg + a.level) (baseAtk + a.level)
    | _ => spaRevivalLoop rest dmg baseAtk

/-- The pre-attack pass of C `SimPlayerAttack`: Vendetta (per grave card),
Warpath/Lore (percent of base attack) and the 50%-chance Concentrate /
Frost Bite boosts (deterministic half-boost under the average policy). -/
def spaPreAttackLoop (cfg : Config) (baseAtk : Int) :
    List Attr → Int → State → Int × State
  | [], dmg, s => (dmg, s)
  | a :: rest, dmg, s =>
    let level := a.level
    match a.type with
    | .ATTR_VENDETTA =>
      let increase := (s.grave.length : Int) * level
      if 0 < increase then spaPreAttackLoop cfg baseAtk rest (dmg + increase) s
      else spaPreAttackLoop cfg baseAtk rest dmg s
    | .ATTR_WARPATH | .ATTR_LORE =>
      spaPreAttackLoop cfg baseAtk rest (dmg + (baseAtk * level).tdiv 100) s
    | .ATTR_CONCENTRATE | .ATTR_FROST_BITE =>
      if cfg.avgConcentrate then
        spaPreAttackLoop cfg baseAtk rest (dmg + (baseAtk * level).tdiv 200) s
      else
        let (r, s) := Rnd s 100
        if r < 50 then
          spaPreAttackLoop cfg baseAtk rest (dmg + (baseAtk * level).tdiv 100) s
        else spaPreAttackLoop cfg baseAtk rest dmg s
    | _ => spaPreAttackLoop cfg baseAtk rest dmg s

/-- The post-attack pass of C `SimPlayerAttack` on the front card (read in
place, since the heals change its hp as the pass runs): Bloodsucker and Red
Valley heal a fraction of the damage dealt, Bloodthirsty raises attack. -/
def spaPostAttackLoop (dmg : Int) : Nat → State → State
  | ai, s =>
    let c := fieldGet s 0
    if ai < c.attr.length ∧ ai < MAX_ATTR then
      let a := c.attr[ai]?.getD DeadAttr
      let level := a.level
      let s :=
        match a.type with
        | .ATTR_BLOODSUCKER | .ATTR_RED_VALLEY =>
          let increase := (dmg * level).tdiv 100
          let increase := min increase (c.maxHp - c.hp)
          if 0 < c.hp ∧ 0 < increase then
            modifyField s 0 (fun c => { c with hp := c.hp + increase })
          else s
        | .ATTR_BLOODTHIRSTY =>
          modifyField s 0 (fun c =>
            { c with atk := c.atk + level, curBaseAtk := c.curBaseAtk + level })
        | _ => s
      spaPostAttackLoop dmg (ai + 1) s
    else s
termination_by ai => MAX_ATTR - ai
decreasing_by
  all_goals simp_all [MAX_ATTR]
  all_goals omega

/-- The counter loop of C `SimPlayerAttack`: the demon counters the first
one (Counterattack) or two (Retaliation) field cards; Dexterity can dodge
each counter. -/
def spaCounterLoop (fuel : Nat) (numToCounter : Nat) (level : Int) :
    Nat → State → State
  | i, s =>
    if i < numToCounter then
      if s.field.length ≤ i then s
      else
        let c2 := fieldGet s i
        if c2.hp ≤ 0 then spaCounterLoop fuel numToCounter level (i + 1) s
        else
          let (dodge, s) :=
            match HasAttr c2 .ATTR_DEXTERITY with
            | some attributeLevel =>
              let (r, s') := Rnd s 100
              (decide ((r : Int) < attributeLevel), s')
            | none => (false, s)
          if dodge then spaCounterLoop fuel numToCounter level (i + 1) s
          else
            let c2 := fieldGet s i
            let dmg := min level c2.hp
            let s := modifyField s i (fun c => { c with hp := c.hp - dmg })
            let s := if (fieldGet s i).hp ≤ 0 then RemoveCard fuel s i true else s
            spaCounterLoop fuel numToCounter level (i + 1) s
    else s
termination_by i => numToCounter - i

/-- The Wicked Leech tail of C `SimPlayerAttack`: the demon steals a
fraction of the front card's base attack (the card's attack floored at
zero). -/
def spaWickedLeech (s : State) : State :=
  match HasAttr s.demon .ATTR_WICKED_LEECH with
  | some level =>
    let c := fieldGet s 0
    let atkLoss := (c.curBaseAtk * level).tdiv 100
    let s := modifyField s 0 (fun c =>
      let c := { c with atk := c.atk - atkLoss, curBaseAtk := c.curBaseAtk - atkLoss }
      if c.atk < 0 then { c with atk := 0 } else c)
    { s with demon := { s.demon with curBaseAtk := s.demon.curBaseAtk + atkLoss,
                                     atk := s.demon.atk + atkLoss } }
  | none => s

/-- C `SimPlayerAttack`: the front card's physical attack against the demon
(nothing before round 6), with pre-attack boosts, the demon's physical
reduction, post-attack boosts, the demon's counter, and Wicked Leech. -/
def SimPlayerAttack (cfg : Config) (fuel : Nat) (s : State) : State :=
  if s.field.length = 0 then s
  else if s.round < FIRST_PLAYER_ROUND then s
  else
    let c := fieldGet s 0
    let baseAtk := c.curBaseAtk
    let dmg := c.atk
    let (dmg, baseAtk) := spaRevivalLoop c.attr dmg baseAtk
    let (dmg, s) := spaPreAttackLoop cfg baseAtk c.attr dmg s
    let dmg := ReducePhysDmg s.demon dmg
    let s := { s with dmgDone := s.dmgDone + dmg,
                      demon := { s.demon with hp := s.demon.hp - dmg } }
    if dmg ≤ 0 then s
    else
      let s := spaPostAttackLoop dmg 0 s
      let nc :=
        match HasAttr s.demon .ATTR_RETALIATION with
        | some l => (2, l)
        | none =>
          match HasAttr s.demon .ATTR_COUNTERATTACK with
          | some l => (1, l)
          | none => (0, 0)
      let s := spaCounterLoop fuel nc.1 nc.2 0 s
      if (fieldGet s 0).hp ≤ 0 then s
      else spaWickedLeech s

/-- The main ability loop of C `SimPlayerCard` on the card at `cardNum`,
read in place (Mania can kill the card mid-loop, replacing the slot by the
dead placeholder and so ending the loop). -/
def spcMainLoop (cfg : Config) (fuel : Nat) (cardNum : Nat) : Nat → State → State
  | ai, s =>
    let c := fieldGet s cardNum
    if ai < c.attr.length ∧ ai < MAX_ATTR then
      let a := c.attr[ai]?.getD DeadAttr
      let level := a.level
      let s :=
        match a.type with
        | .ATTR_ADVANCED_STRIKE => SimAdvancedStrike s
        | .ATTR_REINCARNATE => SimReincarnate s level
        | .ATTR_REANIMATE => SimReanimate fuel s
        | .ATTR_REGENERATE => SimRegenerate s level
        | .ATTR_HEALING => SimHealing s level
        | .ATTR_PRAYER => SimPrayer s level
        | .ATTR_SNIPE | .ATTR_MANA_CORRUPT | .ATTR_FLYING_STONE =>
          if FIRST_PLAYER_ROUND ≤ s.round then
            let level := if a.type = .ATTR_MANA_CORRUPT then level * 3 else level
            { s with dmgDone := s.dmgDone + level,
                     demon := { s.demon with hp := s.demon.hp - level } }
          else s
        | .ATTR_BITE => s
        | .ATTR_MANIA =>
          let s := modifyField s cardNum (fun c =>
            let c := { c with hp := c.hp - level, atk := c.atk + level,
                              curBaseAtk := c.curBaseAtk + level }
            if c.hp < 0 then { c with hp := 0 } else c)
          if (fieldGet s cardNum).hp = 0 then RemoveCard fuel s cardNum true else s
        | _ => s
      spcMainLoop cfg fuel cardNum (ai + 1) s
    else s
termination_by ai => MAX_ATTR - ai
decreasing_by
  all_goals simp_all [MAX_ATTR]
  all_goals omega

/-- The post-attack damaging-status loop of C `SimPlayerCard`: Fire God and
Toxic Clouds burn the card (Toxic Clouds is removed as it fires), with
death relocation at zero hp. -/
def spcStatusLoop (fuel : Nat) (cardNum : Nat) : Nat → State → State
  | ai, s =>
    let c := fieldGet s cardNum
    if ai < c.attr.length ∧ ai < MAX_ATTR then
      let a := c.attr[ai]?.getD DeadAttr
      let s :=
        match a.type with
        | .ATTR_FIRE_GOD | .ATTR_TOXIC_CLOUDS =>
          let level := min a.level c.hp
          if 0 ≤ level then
            let s := modifyField s cardNum (fun c => { c with hp := c.hp - level })
            let s :=
              if a.type = .ATTR_TOXIC_CLOUDS then
                modifyField s cardNum (fun c => RemoveAttr c .ATTR_TOXIC_CLOUDS (-1))
              else s
            if (fieldGet s cardNum).hp ≤ 0 then RemoveCard fuel s cardNum true else s
          else s
        | _ => s
      spcStatusLoop fuel cardNum (ai + 1) s
    else s
termination_by ai => MAX_ATTR - ai
decreasing_by
  all_goals simp_all [MAX_ATTR]
  all_goals omega

/-- The healing loop of C `SimPlayerCard`: Rejuvenate / Blood Stone heal the
card up to its maximum, suppressed while trapped or lacerated. -/
def spcHealLoop (trapped : Bool) (cardNum : Nat) : Nat → State → State
  | ai, s =>
    let c := fieldGet s cardNum
    if ai < c.attr.length ∧ ai < MAX_ATTR then
      let a := c.attr[ai]?.getD DeadAttr
      let s :=
        match a.type with
        | .ATTR_REJUVENATE | .ATTR_BLOOD_STONE =>
          if trapped then s
          else if (HasAttr c .ATTR_LACERATE_BUFF).isSome then s
          else
            let level := min a.level (c.maxHp - c.hp)
            if 0 < level then
              modifyField s cardNum (fun c => { c with hp := c.hp + level })
            else s
        | _ => s
      spcHealLoop trapped cardNum (ai + 1) s
    else s
termination_by ai => MAX_ATTR - ai
decreasing_by
  all_goals simp_all [MAX_ATTR]
  all_goals omega

/-- C `SimPlayerCard`: skip dead slots; reanimation sickness and traps
consume the turn; otherwise the ability loop, the front card's physical
attack, and the damaging / healing status passes. -/
def SimPlayerCard (cfg : Config) (fuel : Nat) (s : State) (cardNum : Nat) : State :=
  let c := fieldGet s cardNum
  if c.hp ≤ 0 then s
  else if (HasAttr c .ATTR_REANIM_SICKNESS).isSome then
    modifyField s cardNum (fun c => RemoveAttr c .ATTR_REANIM_SICKNESS (-1))
  else if (HasAttr c .ATTR_TRAP_BUFF).isSome then
    let s := modifyField s cardNum (fun c => RemoveAttr c .ATTR_TRAP_BUFF (-1))
    let s := spcStatusLoop fuel cardNum 0 s
    if (fieldGet s cardNum).hp ≤ 0 then s
    else spcHealLoop true cardNum 0 s
  else
    let s := spcMainLoop cfg fuel cardNum 0 s
    let s :=
      if cardNum = 0 then
        if 0 < (fieldGet s 0).hp then SimPlayerAttack cfg fuel s else s
      else s
    if (fieldGet s cardNum).hp ≤ 0 then s
    else
      let s := spcStatusLoop fuel cardNum 0 s
      if (fieldGet s cardNum).hp ≤ 0 then s
      else spcHealLoop false cardNum 0 s

/-- C `MAX_RUNES`. -/
def MAX_RUNES : Nat := 4

/-- The all-zero `Rune` (only used as an out-of-range read default; C never
reads out of range). -/
def NullRune : Rune := ⟨"", ⟨.ATTR_NONE, 0⟩, 0, 0, false⟩

/-- C `countCardsWithAttr`. -/
def countCardsWithAttr (cs : List Card) (t : AttrType) : Nat :=
  (cs.filter (fun c => (HasAttr c t).isSome)).length

/-- C `addRuneBuffToField`: append the rune's attribute to every field
card. -/
def addRuneBuffToField (s : State) (attr : Attr) : State :=
  { s with field := s.field.map (fun c => AddAttr c attr) }

/-- C `removeRuneBuffFromField`: remove every entry of the rune's attribute
type from every field card. -/
def removeRuneBuffFromField (s : State) (t : AttrType) : State :=
  { s with field := s.field.map (fun c => RemoveAttr c t (-1)) }

/-- The Spring Breeze deactivation loop of C `HandleRunes`: for each field
card carrying the attribute, remove it, lower `maxHp` by the rune level and
clamp `hp`. -/
def springBreezeEndLoop (level : Int) : Nat → State → State
  | j, s =>
    if j < s.field.length ∧ j < MAX_CARDS_IN_SET then
      let c := fieldGet s j
      let s :=
        if (HasAttr c .ATTR_SPRING_BREEZE).isNone then s
        else
          let s := modifyField s j (fun c => RemoveAttr c .ATTR_SPRING_BREEZE (-1))
          let s := modifyField s j (fun c => { c with maxHp := c.maxHp - level })
          modifyField s j (fun c => if c.hp > c.maxHp then { c with hp := c.maxHp } else c)
      springBreezeEndLoop level (j + 1) s
    else s
termination_by j => MAX_CARDS_IN_SET - j
decreasing_by
  all_goals simp_all [MAX_CARDS_IN_SET]
  all_goals omega

/-- The Spring Breeze activation loop of C `HandleRunes`: every field card
gains `level` hp and max hp. -/
def springBreezeStartLoop (level : Int) : Nat → State → State
  | j, s =>
    if j < s.field.length ∧ j < MAX_CARDS_IN_SET then
      let s := modifyField s j (fun c =>
        { c with hp := c.hp + level, maxHp := c.maxHp + level })
      springBreezeStartLoop level (j + 1) s
    else s
termination_by j => MAX_CARDS_IN_SET - j
decreasing_by
  all_goals simp_all [MAX_CARDS_IN_SET]
  all_goals omega

/-- The deactivation pass of C `HandleRunes`: every rune whose
`usedThisRound` flag is set has the flag cleared and its standing effect
reversed (field-wide buff removal, or the Spring Breeze max-hp rollback). -/
def handleRunesDeactLoop : Nat → State → State
  | i, s =>
    if i < s.runes.length ∧ i < MAX_RUNES then
      let rune := s.runes[i]?.getD NullRune
      if !rune.usedThisRound then handleRunesDeactLoop (i + 1) s
      else
        let s := { s with
          runes := listModify (fun r => { r with usedThisRound := false }) i s.runes }
        let s :=
          match rune.attr.type with
          | .ATTR_ARCTIC_FREEZE | .ATTR_BLOOD_STONE | .ATTR_FROST_BITE
          | .ATTR_RED_VALLEY | .ATTR_LORE | .ATTR_REVIVAL | .ATTR_FIRE_FORGE
          | .ATTR_STONEWALL | .ATTR_THUNDER_SHIELD | .ATTR_NIMBLE_SOUL
          | .ATTR_DIRT | .ATTR_FLYING_STONE | .ATTR_TSUNAMI =>
            removeRuneBuffFromField s rune.attr.type
          | .ATTR_SPRING_BREEZE => springBreezeEndLoop rune.attr.level 0 s
          | _ => s
        handleRunesDeactLoop (i + 1) s
    else s
termination_by i => MAX_RUNES - i
decreasing_by
  all_goals simp_all [MAX_RUNES]
  all_goals omega

/-- Rune activation bookkeeping shared by the buff-granting runes: apply the
field-wide buff, consume a charge, and mark the rune for deactivation next
round. -/
def runeActivateBuff (s : State) (i : Nat) (attr : Attr) : State :=
  let s := addRuneBuffToField s attr
  let f := fun (r : Rune) =>
    { r with chargesUsed := r.chargesUsed + 1, usedThisRound := true }
  { s with runes := listModify f i s.runes }

/-- Consume one charge of the rune at index `i` without marking it active
(the instant-effect runes Clear Spring and Leaf). -/
def runeConsumeCharge (s : State) (i : Nat) : State :=
  let f := fun (r : Rune) => { r with chargesUsed := r.chargesUsed + 1 }
  { s with runes := listModify f i s.runes }

/-- The damaged-card test of the Clear Spring activation in C
`HandleRunes`. -/
def hasDamagedField (s : State) : Bool :=
  s.field.any (fun c => decide (c.hp ≠ 0) && decide (c.hp < c.maxHp))

/-- The activation pass of C `HandleRunes`: every rune with charges left
evaluates its predicate (class counts over field / grave / hand, the round
number for Leaf, the hero hp fraction for Tsunami) and on success applies
its effect and consumes a charge; buff-granting runes are marked active. -/
def handleRunesActLoop : Nat → State → State
  | i, s =>
    if i < s.runes.length ∧ i < MAX_RUNES then
      let rune := s.runes[i]?.getD NullRune
      if rune.maxCharges ≤ rune.chargesUsed then handleRunesActLoop (i + 1) s
      else
        let s :=
          match rune.attr.type with
          | .ATTR_ARCTIC_FREEZE =>
            if 2 < countCardsWithAttr s.grave .ATTR_TUNDRA then
              runeActivateBuff s i rune.attr
            else s
          | .ATTR_BLOOD_STONE =>
            if 1 < countCardsWithAttr s.field .ATTR_MTN then
              runeActivateBuff s i rune.attr
            else s
          | .ATTR_CLEAR_SPRING =>
            if 1 < countCardsWithAttr s.field .ATTR_TUNDRA then
              if !hasDamagedField s then s
              else runeConsumeCharge (SimRegenerate s rune.attr.level) i
            else s
          | .ATTR_FROST_BITE =>
            if 3 < countCardsWithAttr s.grave .ATTR_TUNDRA then
              runeActivateBuff s i rune.attr
            else s
          | .ATTR_RED_VALLEY =>
            if 1 < countCardsWithAttr s.field .ATTR_SWAMP then
              runeActivateBuff s i rune.attr
            else s
          | .ATTR_LORE =>
            if 2 < countCardsWithAttr s.grave .ATTR_MTN then
              runeActivateBuff s i rune.attr
            else s
          | .ATTR_LEAF =>
            if 14 < s.round then
              runeConsumeCharge
                { s with dmgDone := s.dmgDone + rune.attr.level,
                         demon := { s.demon with hp := s.demon.hp - rune.attr.level } }
                i
            else s
          | .ATTR_REVIVAL =>
            if 1 < countCardsWithAttr s.grave .ATTR_FOREST then
              runeActivateBuff s i rune.attr
            else s
          | .ATTR_FIRE_FORGE =>
            if 1 < countCardsWithAttr s.grave .ATTR_MTN then
              runeActivateBuff s i rune.attr
            else s
          | .ATTR_STONEWALL =>
            if 1 < countCardsWithAttr s.field .ATTR_SWAMP then
              runeActivateBuff s i rune.attr
            else s
          | .ATTR_THUNDER_SHIELD =>
            if 1 < countCardsWithAttr s.field .ATTR_FOREST then
              runeActivateBuff s i rune.attr
            else s
          | .ATTR_NIMBLE_SOUL =>
            if 2 < countCardsWithAttr s.grave .ATTR_FOREST then
              runeActivateBuff s i rune.attr
            else s
          | .ATTR_DIRT =>
            if 1 < countCardsWithAttr s.grave .ATTR_SWAMP then
              runeActivateBuff s i rune.attr
            else s
          | .ATTR_FLYING_STONE =>
            if 2 < countCardsWithAttr s.grave .ATTR_SWAMP then
              runeActivateBuff s i rune.attr
            else s
          | .ATTR_TSUNAMI =>
            if s.hp < s.maxHp.tdiv 2 then runeActivateBuff s i rune.attr
            else s
          | .ATTR_SPRING_BREEZE =>
            if 1 < countCardsWithAttr s.hand .ATTR_FOREST ∧ 0 < s.field.length then
              springBreezeStartLoop rune.attr.level 0 (runeActivateBuff s i rune.attr)
            else s
          | _ => s
        handleRunesActLoop (i + 1) s
    else s
termination_by i => MAX_RUNES - i
decreasing_by
  all_goals simp_all [MAX_RUNES]
  all_goals omega

/-- C `HandleRunes`: deactivate last round's runes, then evaluate
activations. -/
def HandleRunes (s : State) : State :=
  handleRunesActLoop 0 (handleRunesDeactLoop 0 s)

/-- The per-card loop of C `SimPlayer` (the field can grow mid-loop when a
card's ability reanimates another). -/
def simPlayerCardLoop (cfg : Config) (fuel : Nat) : Nat → State → State
  | i, s =>
    if i < s.field.length ∧ i < MAX_CARDS_IN_SET then
      simPlayerCardLoop cfg fuel (i + 1) (SimPlayerCard cfg fuel s i)
    else s
termination_by i => MAX_CARDS_IN_SET - i
decreasing_by
  all_goals simp_all [MAX_CARDS_IN_SET]
  all_goals omega

/-- The backstab-strip loop of C `SimPlayer`: remove the transient backstab
attack bonus at the end of the player phase. -/
def backstabStripLoop : Nat → State → State
  | i, s =>
    if i < s.field.length ∧ i < MAX_CARDS_IN_SET then
      let c := fieldGet s i
      let s :=
        match HasAttr c .ATTR_BACKSTAB_BUFF with
        | some level =>
          let s := modifyField s i (fun c => RemoveAttr c .ATTR_BACKSTAB_BUFF (-1))
          modifyField s i (fun c => { c with atk := c.atk - level })
        | none => s
      backstabStripLoop (i + 1) s
    else s
termination_by i => MAX_CARDS_IN_SET - i
decreasing_by
  all_goals simp_all [MAX_CARDS_IN_SET]
  all_goals omega

/-- C `SimPlayer`: runes, each field card's turn, backstab stripping, and
dead-placeholder compaction. -/
def SimPlayer (cfg : Config) (fuel : Nat) (s : State) : State :=
  let s := HandleRunes s
  let s := simPlayerCardLoop cfg fuel 0 s
  let s := backstabStripLoop 0 s
  RemoveDeadCards s

/-- The `while` loop of C `Simulate`.  The loop continues while the hero
lives, at least one of field / deck / hand is non-empty, and the round is
within the ceiling; even rounds are player rounds and odd rounds demon
rounds, and an obstinacy death during card play breaks out before the
player phase (and before the round increment).  The body never changes
`round` except for the increment here, so the recursion is driven by a
round counter; `roundFuel` makes that measure structural and is chosen by
`Simulate` large enough to cover every iteration (proved in the theorems
below). -/
def SimulateLoop (cfg : Config) (fuel : Nat) (localRoundX : Int) :
    Nat → State → Bool → State × Bool
  | 0, s, hit => (s, hit)
  | roundFuel + 1, s, hit =>
    if 0 < s.hp ∧ (s.field.length ≠ 0 ∨ s.deck.length ≠ 0 ∨ s.hand.length ≠ 0) ∧
        s.round ≤ cfg.maxRounds then
      let hit := hit || decide (s.round = localRoundX)
      let s := DecreaseTimers s
      if s.round % 2 = 0 then
        let s := PlayCardsFromDeck s
        let s := PlayCardsFromHand fuel s
        if s.hp ≤ 0 then (s, hit)
        else
          let s := SimPlayer cfg fuel s
          SimulateLoop cfg fuel localRoundX roundFuel { s with round := s.round + 1 } hit
      else
        let s := SimDemon fuel s
        SimulateLoop cfg fuel localRoundX roundFuel { s with round := s.round + 1 } hit
    else (s, hit)

/-- C `Simulate`: run the battle loop from the current state, then
decrement the round counter once to reflect the last completed round.  The
second component is the `*hitRoundX` flag. -/
def Simulate (cfg : Config) (fuel : Nat) (s : State) (localRoundX : Int) :
    State × Bool :=
  let r := SimulateLoop cfg fuel localRoundX
             ((cfg.maxRounds + 1 - s.round).toNat + 1) s false
  ({ r.1 with round := r.1.round - 1 }, r.2)

/-!  ## Helper lemmas about the list primitives  -/

theorem listModify_length (f : α → α) (n : Nat) (l : List α) :
    (listModify f n l).length = l.length := by
  induction l generalizing n with
  | nil => cases n <;> rfl
  | cons a rest ih => cases n <;> simp [listModify, ih]

theorem listModify_get_self (f : α → α) (n : Nat) (l : List α) :
    (listModify f n l)[n]? = (l[n]?).map f := by
  induction l generalizing n with
  | nil => simp [listModify]
  | cons a rest ih => cases n <;> simp [listModify, ih]

theorem listModify_get_other (f : α → α) (n m : Nat) (l : List α) (h : m ≠ n) :
    (listModify f n l)[m]? = l[m]? := by
  induction l generalizing n m with
  | nil => simp [listModify]
  | cons a rest ih =>
    cases n with
    | zero => cases m with
      | zero => exact absurd rfl h
      | succ m => simp [listModify]
    | succ n => cases m with
      | zero => simp [listModify]
      | succ m => simp [listModify, ih n m (by omega)]

theorem mapWithIdxFrom_length (f : Nat → α → α) (i : Nat) (l : List α) :
    (mapWithIdxFrom f i l).length = l.length := by
  induction l generalizing i with
  | nil => rfl
  | cons a rest ih => simp [mapWithIdxFrom, ih]

theorem mapWithIdxFrom_get (f : Nat → α → α) (i m : Nat) (l : List α) :
    (mapWithIdxFrom f i l)[m]? = (l[m]?).map (f (i + m)) := by
  induction l generalizing i m with
  | nil => simp [mapWithIdxFrom]
  | cons a rest ih =>
    cases m with
    | zero => simp [mapWithIdxFrom]
    | succ m =>
      simp only [mapWithIdxFrom, List.getElem?_cons_succ, ih]
      have : i + 1 + m = i + (m + 1) := by omega
      rw [this]

/-!  ## C4: the Reset operation  -/

/-- C4: after `InitCard`, the battle-state block equals the template block
(`hp = maxHp = baseHp`, `atk = curBaseAtk = baseAtk`, `curTiming = timing`)
and the mutable attribute list is the base attribute list with the sentinel
`ATTR_NONE` entries filtered out, in the same relative order. -/
theorem C4_initCard_resets (card : Card) :
    (InitCard card).hp = card.baseHp ∧
    (InitCard card).maxHp = card.baseHp ∧
    (InitCard card).hp = (InitCard card).maxHp ∧
    (InitCard card).atk = card.baseAtk ∧
    (InitCard card).curBaseAtk = card.baseAtk ∧
    (InitCard card).curTiming = card.timing ∧
    (InitCard card).attr = card.baseAttr.filter (fun a => a.type ≠ .ATTR_NONE) := by
  simp [InitCard]

/-!  ## C5: attribute removal  -/

theorem hasAttrList_eq_none_iff (l : List Attr) (t : AttrType) :
    hasAttrList l t = none ↔ ∀ a ∈ l, a.type ≠ t := by
  induction l with
  | nil => simp [hasAttrList]
  | cons a rest ih =>
    by_cases h : a.type = t <;> simp [hasAttrList, h, ih]

theorem removeAttrList_all (l : List Attr) (t : AttrType) :
    removeAttrList l t (-1) = l.filter (fun a => a.type ≠ t) := by
  induction l with
  | nil => rfl
  | cons a rest ih =>
    by_cases h : a.type = t <;> simp [removeAttrList, h, ih]

theorem removeAttrList_not_found (l : List Attr) (t : AttrType) (lvl : Int)
    (h : ∀ a ∈ l, ¬(a.type = t ∧ a.level = lvl)) (hl : lvl ≠ -1) :
    removeAttrList l t lvl = l := by
  induction l with
  | nil => rfl
  | cons a rest ih =>
    have ha := h a (by simp)
    have : ¬(a.type = t ∧ (a.level = lvl ∨ lvl = -1)) := by tauto
    rw [removeAttrList, if_neg this, ih (fun b hb => h b (by simp [hb]))]

theorem removeAttrList_first (l₁ l₂ : List Attr) (a : Attr) (t : AttrType) (lvl : Int)
    (ha : a.type = t ∧ a.level = lvl)
    (h₁ : ∀ b ∈ l₁, ¬(b.type = t ∧ b.level = lvl)) (hl : lvl ≠ -1) :
    removeAttrList (l₁ ++ a :: l₂) t lvl = l₁ ++ l₂ := by
  induction l₁ with
  | nil =>
    have hc : a.type = t ∧ (a.level = lvl ∨ lvl = -1) := ⟨ha.1, Or.inl ha.2⟩
    simp only [List.nil_append, removeAttrList, if_pos hc, if_neg hl]
  | cons b rest ih =>
    have hb := h₁ b (by simp)
    have hc : ¬(b.type = t ∧ (b.level = lvl ∨ lvl = -1)) := by tauto
    simp only [List.cons_append, removeAttrList, if_neg hc, List.append_eq]
    rw [ih (fun x hx => h₁ x (by simp [hx]))]

/-- C5: `RemoveAttr` with a concrete magnitude removes exactly the first
entry matching both the kind and that magnitude (leaving the list unchanged
when there is none), preserving the relative order of the remaining
entries; afterwards `HasAttr` for the kind returns found exactly when some
entry of the kind remains.  `RemoveAttr` with the ANY magnitude `-1`
removes every entry of the kind, after which `HasAttr` always reports the
kind absent. -/
theorem C5_removeAttr_hasAttr (c : Card) (t : AttrType) (lvl : Int) :
    (lvl ≠ -1 →
      ((∀ a ∈ c.attr, ¬(a.type = t ∧ a.level = lvl)) →
        (RemoveAttr c t lvl).attr = c.attr) ∧
      (∀ l₁ a l₂, c.attr = l₁ ++ a :: l₂ → a.type = t → a.level = lvl →
        (∀ b ∈ l₁, ¬(b.type = t ∧ b.level = lvl)) →
        (RemoveAttr c t lvl).attr = l₁ ++ l₂)) ∧
    (lvl = -1 →
      (RemoveAttr c t lvl).attr = c.attr.filter (fun a => a.type ≠ t) ∧
      HasAttr (RemoveAttr c t lvl) t = none) ∧
    (HasAttr (RemoveAttr c t lvl) t = none ↔
      ∀ a ∈ (RemoveAttr c t lvl).attr, a.type ≠ t) := by
  refine ⟨fun hl => ⟨fun hnone => ?_, fun l₁ a l₂ hsplit hat hal h₁ => ?_⟩,
          fun hl => ?_, ?_⟩
  · simp [RemoveAttr, removeAttrList_not_found c.attr t lvl hnone hl]
  · simp [RemoveAttr, hsplit, removeAttrList_first l₁ l₂ a t lvl ⟨hat, hal⟩ h₁ hl]
  · subst hl
    constructor
    · simp [RemoveAttr, removeAttrList_all]
    · rw [HasAttr, hasAttrList_eq_none_iff]
      intro a ha
      simp only [RemoveAttr, removeAttrList_all, List.mem_filter] at ha
      simpa using ha.2
  · exact hasAttrList_eq_none_iff _ t

/-- A concrete card used to witness C5: two Dodge entries of different
magnitudes around a Parry entry. -/
def c5card : Card where
  name := "w"
  cost := 1
  timing := 1
  baseAtk := 1
  baseHp := 1
  baseAttr := []
  curTiming := 1
  atk := 1
  curBaseAtk := 1
  hp := 1
  maxHp := 1
  attr := [⟨.ATTR_DODGE, 10⟩, ⟨.ATTR_DODGE, 20⟩, ⟨.ATTR_PARRY, 5⟩, ⟨.ATTR_DODGE, 20⟩]

/-- Witness for C5 at a concrete card: removing Dodge magnitude 20 from
the list [Dodge 10, Dodge 20, Parry 5, Dodge 20] deletes exactly the second
entry, and removing Dodge with ANY deletes all three Dodge entries and
makes `HasAttr` report Dodge absent. -/
theorem C5_removeAttr_hasAttr_witness :
    (RemoveAttr c5card .ATTR_DODGE 20).attr =
      [⟨.ATTR_DODGE, 10⟩, ⟨.ATTR_PARRY, 5⟩, ⟨.ATTR_DODGE, 20⟩] ∧
    (RemoveAttr c5card .ATTR_DODGE (-1)).attr = [⟨.ATTR_PARRY, 5⟩] ∧
    HasAttr (RemoveAttr c5card .ATTR_DODGE (-1)) .ATTR_DODGE = none := by
  refine ⟨?_, ?_, ?_⟩
  · exact ((C5_removeAttr_hasAttr c5card .ATTR_DODGE 20).1 (by decide)).2
      [⟨.ATTR_DODGE, 10⟩] ⟨.ATTR_DODGE, 20⟩
      [⟨.ATTR_PARRY, 5⟩, ⟨.ATTR_DODGE, 20⟩] rfl rfl rfl (by decide)
  · exact ((C5_removeAttr_hasAttr c5card .ATTR_DODGE (-1)).2.1 rfl).1.trans (by decide)
  · exact ((C5_removeAttr_hasAttr c5card .ATTR_DODGE (-1)).2.1 rfl).2

/-!  ## C8: the class-buff round trip  -/

theorem hasAttrList_append_matching (l : List Attr) (a : Attr) (t : AttrType)
    (h : a.type = t) : (hasAttrList (l ++ [a]) t).isSome := by
  induction l with
  | nil => simp [hasAttrList, h]
  | cons b rest ih =>
    by_cases hb : b.type = t <;> simp [hasAttrList, hb, ih]

/-- Every branch of `AddBuffToCard` appends the buff entry. -/
theorem AddBuffToCard_attr (c : Card) (buff : AttrType) (M : Int) :
    (AddBuffToCard c buff M).attr = c.attr ++ [⟨buff, M⟩] := by
  cases buff <;> simp [AddBuffToCard, AddAttr]

/-- The per-card round trip: adding any buff of magnitude `M` and then
removing a buff of the same kind and magnitude restores `atk`,
`curBaseAtk` and `maxHp`, provided the attack figures were non-negative
(the removal floors them at zero). -/
theorem removeBuff_addBuff_card (c : Card) (buff : AttrType) (M : Int)
    (hatk : 0 ≤ c.atk) (hcba : 0 ≤ c.curBaseAtk) :
    (removeBuffFromCard (AddBuffToCard c buff M) buff M).atk = c.atk ∧
    (removeBuffFromCard (AddBuffToCard c buff M) buff M).curBaseAtk = c.curBaseAtk ∧
    (removeBuffFromCard (AddBuffToCard c buff M) buff M).maxHp = c.maxHp := by
  have hsome : (HasAttr (AddBuffToCard c buff M) buff).isSome := by
    rw [HasAttr, AddBuffToCard_attr]
    exact hasAttrList_append_matching c.attr ⟨buff, M⟩ buff rfl
  cases buff <;>
    simp_all [removeBuffFromCard, AddBuffToCard, AddAttr, RemoveAttr, HasAttr] <;>
    split_ifs <;> simp_all <;> omega

/-- The amended C8: for every field card affected by the buff broadcast
(any card other than the source whose class matches, or every other card
when the class is unspecified) whose attack and current base attack are
non-negative, applying a buff of magnitude M via `AddBuffToField` and
reversing it via `RemoveBuffFromField` with the same magnitude restores the
card's attack, current base attack and maximum hit points exactly. -/
theorem C8_buff_round_trip (s : State) (src j : Nat) (cls buff : AttrType) (M : Int)
    (hj : j ≠ src) (hlen : j < s.field.length)
    (haff : cls = .ATTR_NONE ∨ (HasAttr (fieldGet s j) cls).isSome)
    (hatk : 0 ≤ (fieldGet s j).atk) (hcba : 0 ≤ (fieldGet s j).curBaseAtk) :
    (fieldGet (RemoveBuffFromField (AddBuffToField s (some src) cls buff M)
        src buff M) j).atk = (fieldGet s j).atk ∧
    (fieldGet (RemoveBuffFromField (AddBuffToField s (some src) cls buff M)
        src buff M) j).curBaseAtk = (fieldGet s j).curBaseAtk ∧
    (fieldGet (RemoveBuffFromField (AddBuffToField s (some src) cls buff M)
        src buff M) j).maxHp = (fieldGet s j).maxHp := by
  have hc : ∃ c, s.field[j]? = some c := by
    rcases List.getElem?_eq_some_iff.mpr ⟨hlen, rfl⟩ with h
    exact ⟨_, h⟩
  rcases hc with ⟨c, hc⟩
  have hcf : fieldGet s j = c := by simp [fieldGet, hc]
  have hget :
      (fieldGet (RemoveBuffFromField (AddBuffToField s (some src) cls buff M)
          src buff M) j) =
        removeBuffFromCard (AddBuffToCard c buff M) buff M := by
    have h1 : ¬(some src = some j) := by simpa using fun h => hj h.symm
    simp only [fieldGet, RemoveBuffFromField, AddBuffToField, mapWithIdxFrom_get,
      Nat.zero_add, hc, Option.map_some, Option.map_some', Option.getD_some,
      if_neg h1, if_neg hj]
    rw [hcf] at haff
    rw [if_pos haff]
  rw [hcf] at hatk hcba
  rw [hget, hcf]
  exact removeBuff_addBuff_card c buff M hatk hcba

/-- A compact card constructor for the concrete states used by the
witnesses and counterexamples below. -/
def wCard (atkv cbav hpv mhpv : Int) (attrs : List Attr) : Card where
  name := "c"
  cost := 1
  timing := 1
  baseAtk := 1
  baseHp := 1
  baseAttr := []
  curTiming := 1
  atk := atkv
  curBaseAtk := cbav
  hp := hpv
  maxHp := mhpv
  attr := attrs

/-- A compact state constructor around a given field. -/
def wState (fieldCards : List Card) : State where
  dmgDone := 0
  hp := 100
  maxHp := 100
  round := 1
  demon := wCard 10 10 1000 1000 []
  deck := []
  hand := []
  field := fieldCards
  grave := []
  runes := []
  seedW := 1
  seedZ := 2

/-- Counterexample to C8 as stated: the claim asks only that the affected
card's attack be non-negative, but the reversal also floors the current
base attack at zero.  A forest card with attack 0 and current base attack
-1 receives a forest attack buff of magnitude 5 from the card at slot 0 and
has it removed again: its current base attack ends at 0, not -1. -/
theorem C8_counterexample :
    0 ≤ (fieldGet (wState [wCard 3 3 5 5 [⟨.ATTR_FOREST, 0⟩],
        wCard 0 (-1) 5 5 [⟨.ATTR_FOREST, 0⟩]]) 1).atk ∧
    (fieldGet (RemoveBuffFromField
        (AddBuffToField (wState [wCard 3 3 5 5 [⟨.ATTR_FOREST, 0⟩],
            wCard 0 (-1) 5 5 [⟨.ATTR_FOREST, 0⟩]])
          (some 0) .ATTR_FOREST .ATTR_FOREST_ATK_BUFF 5)
        0 .ATTR_FOREST_ATK_BUFF 5) 1).curBaseAtk ≠
      (fieldGet (wState [wCard 3 3 5 5 [⟨.ATTR_FOREST, 0⟩],
          wCard 0 (-1) 5 5 [⟨.ATTR_FOREST, 0⟩]]) 1).curBaseAtk := by
  constructor
  · decide
  · decide

/-- Witness for the amended C8 at a concrete two-card field: the forest
card at slot 1 (attack 3, base attack 3, max hp 5) has its figures restored
exactly by the add/remove round trip of a forest attack buff of
magnitude 5. -/
theorem C8_buff_round_trip_witness :
    (fieldGet (RemoveBuffFromField
        (AddBuffToField (wState [wCard 2 2 9 9 [],
            wCard 3 3 5 5 [⟨.ATTR_FOREST, 0⟩]]) (some 0)
          .ATTR_FOREST .ATTR_FOREST_ATK_BUFF 5)
        0 .ATTR_FOREST_ATK_BUFF 5) 1).atk =
      (fieldGet (wState [wCard 2 2 9 9 [], wCard 3 3 5 5 [⟨.ATTR_FOREST, 0⟩]]) 1).atk ∧
    (fieldGet (RemoveBuffFromField
        (AddBuffToField (wState [wCard 2 2 9 9 [],
            wCard 3 3 5 5 [⟨.ATTR_FOREST, 0⟩]]) (some 0)
          .ATTR_FOREST .ATTR_FOREST_ATK_BUFF 5)
        0 .ATTR_FOREST_ATK_BUFF 5) 1).curBaseAtk =
      (fieldGet (wState [wCard 2 2 9 9 [],
          wCard 3 3 5 5 [⟨.ATTR_FOREST, 0⟩]]) 1).curBaseAtk ∧
    (fieldGet (RemoveBuffFromField
        (AddBuffToField (wState [wCard 2 2 9 9 [],
            wCard 3 3 5 5 [⟨.ATTR_FOREST, 0⟩]]) (some 0)
          .ATTR_FOREST .ATTR_FOREST_ATK_BUFF 5)
        0 .ATTR_FOREST_ATK_BUFF 5) 1).maxHp =
      (fieldGet (wState [wCard 2 2 9 9 [],
          wCard 3 3 5 5 [⟨.ATTR_FOREST, 0⟩]]) 1).maxHp :=
  C8_buff_round_trip (wState [wCard 2 2 9 9 [], wCard 3 3 5 5 [⟨.ATTR_FOREST, 0⟩]])
    0 1 .ATTR_FOREST .ATTR_FOREST_ATK_BUFF 5
    (by decide) (by decide) (by decide) (by decide) (by decide)

/-!  ## State helper lemmas  -/

theorem modifyField_field_length (s : State) (i : Nat) (f : Card → Card) :
    (modifyField s i f).field.length = s.field.length := by
  simp [modifyField, listModify_length]

theorem fieldGet_modifyField_self (s : State) (i : Nat) (f : Card → Card)
    (h : i < s.field.length) :
    fieldGet (modifyField s i f) i = f (fieldGet s i) := by
  have : ∃ c, s.field[i]? = some c := by
    exact ⟨_, List.getElem?_eq_some_iff.mpr ⟨h, rfl⟩⟩
  rcases this with ⟨c, hc⟩
  simp [fieldGet, modifyField, listModify_get_self, hc]

theorem fieldGet_modifyField_other (s : State) (i j : Nat) (f : Card → Card)
    (h : j ≠ i) :
    fieldGet (modifyField s i f) j = fieldGet s j := by
  simp [fieldGet, modifyField, listModify_get_other _ _ _ _ h]

theorem listModify_const_listModify (x : α) (f : α → α) (n : Nat) (l : List α) :
    listModify (fun _ => x) n (listModify f n l) = listModify (fun _ => x) n l := by
  induction l generalizing n with
  | nil => cases n <;> rfl
  | cons a rest ih => cases n <;> simp [listModify, ih]

/-!  ## C7: guard absorption in DamagePlayer  -/

/-- The attribute types that make `RemoveCard` touch anything besides the
dying card's slot and the graveyard: the eight class force/guard abilities
(which strip buffs from the rest of the field), the three desperation
abilities, and the two resurrection chances. -/
def rcSpecialTypes : List AttrType :=
  [.ATTR_TUNDRA_HP, .ATTR_FOREST_HP, .ATTR_MTN_HP, .ATTR_SWAMP_HP,
   .ATTR_TUNDRA_ATK, .ATTR_FOREST_ATK, .ATTR_MTN_ATK, .ATTR_SWAMP_ATK,
   .ATTR_D_PRAYER, .ATTR_D_REANIMATE, .ATTR_D_REINCARNATE,
   .ATTR_DIRT, .ATTR_RESURRECTION]

theorem removeCardAttrLoop_benign (fuel : Nat) (s : State) (idx : Nat) (g : Bool) :
    ∀ l, (∀ a ∈ l, a.type ∉ rcSpecialTypes) → removeCardAttrLoop fuel s idx g l = s
  | [], _ => by rw [removeCardAttrLoop]
  | a :: rest, h => by
    rw [removeCardAttrLoop]
    have ha := h a (by simp)
    have hrest :=
      removeCardAttrLoop_benign fuel s idx g rest (fun b hb => h b (by simp [hb]))
    cases hat : a.type <;> simp_all [rcSpecialTypes]

/-- `RemoveCard` (to the graveyard) on a card with no class-buff,
desperation or resurrection attribute only overwrites the card's slot with
the dead placeholder and appends the template-reset copy to the
graveyard. -/
theorem RemoveCard_benign (fuel : Nat) (s : State) (idx : Nat)
    (hidx : idx < s.field.length)
    (hb : ∀ a ∈ (fieldGet s idx).attr, a.type ∉ rcSpecialTypes) :
    RemoveCard (fuel + 1) s idx true =
      { s with field := listModify (fun _ => DeadCard) idx s.field,
               grave := s.grave ++ [InitCard (fieldGet s idx)] } := by
  rw [RemoveCard]
  have hdy : fieldGet (modifyField s idx (fun c => AddAttr { c with hp := 0 } DeadAttr))
      idx = AddAttr { fieldGet s idx with hp := 0 } DeadAttr :=
    fieldGet_modifyField_self s idx _ hidx
  rw [hdy]
  have hattrs : ∀ a ∈ (AddAttr { fieldGet s idx with hp := 0 } DeadAttr).attr,
      a.type ∉ rcSpecialTypes := by
    intro a ha
    simp only [AddAttr, List.mem_append, List.mem_singleton] at ha
    rcases ha with ha | ha
    · exact hb a ha
    · subst ha
      decide
  rw [removeCardAttrLoop_benign fuel _ idx true _ hattrs]
  rw [hdy]
  have hnd : HasAttr (AddAttr { fieldGet s idx with hp := 0 } DeadAttr)
      .ATTR_DIRT = none := by
    rw [HasAttr, hasAttrList_eq_none_iff]
    intro a ha
    have := hattrs a ha
    simp only [rcSpecialTypes] at this
    intro heq
    exact this (by simp [heq])
  have hnr : HasAttr (AddAttr { fieldGet s idx with hp := 0 } DeadAttr)
      .ATTR_RESURRECTION = none := by
    rw [HasAttr, hasAttrList_eq_none_iff]
    intro a ha
    have := hattrs a ha
    simp only [rcSpecialTypes] at this
    intro heq
    exact this (by simp [heq])
  rw [hnd, hnr]
  have hinit : InitCard (AddAttr { fieldGet s idx with hp := 0 } DeadAttr) =
      InitCard (fieldGet s idx) := by
    simp [InitCard, AddAttr]
  simp only [hinit]
  simp [modifyField, AddCardToSet, listModify_const_listModify, rcDestRoll,
    rcPlaceCopy]

theorem damagePlayerLoop_skip (fuel : Nat) :
    ∀ d i dmg s,
      (∀ j, i ≤ j → j < i + d → (HasAttr (fieldGet s j) .ATTR_GUARD).isNone) →
      i + d ≤ s.field.length → i + d ≤ MAX_CARDS_IN_SET →
      damagePlayerLoop fuel i dmg s = damagePlayerLoop fuel (i + d) dmg s
  | 0, i, dmg, s, _, _, _ => by simp
  | d + 1, i, dmg, s, h, hl, hm => by
    have hm20 : i + (d + 1) ≤ 20 := hm
    rw [damagePlayerLoop]
    rw [if_pos (show i < s.field.length ∧ i < MAX_CARDS_IN_SET from
      ⟨by omega, show i < 20 by omega⟩)]
    have hgi := h i (le_refl i) (by omega)
    rw [Option.isNone_iff_eq_none] at hgi
    rw [if_neg (by simp [hgi])]
    have ih := damagePlayerLoop_skip fuel d (i + 1) dmg s
      (fun j h1 h2 => h j (by omega) (by omega)) (by omega)
      (show i + 1 + d ≤ 20 by omega)
    have heq : i + 1 + d = i + (d + 1) := by omega
    rw [heq] at ih
    exact ih

theorem damagePlayerLoop_no_guard (fuel : Nat) :
    ∀ d i dmg s, s.field.length ≤ i + d →
      (∀ j, i ≤ j → j < s.field.length → (HasAttr (fieldGet s j) .ATTR_GUARD).isNone) →
      damagePlayerLoop fuel i dmg s = (dmg, s)
  | 0, i, dmg, s, hd, h => by
    rw [damagePlayerLoop]
    rw [if_neg (by omega)]
  | d + 1, i, dmg, s, hd, h => by
    rw [damagePlayerLoop]
    by_cases hi : i < s.field.length ∧ i < MAX_CARDS_IN_SET
    · rw [if_pos hi]
      have hgi := h i (le_refl i) hi.1
      rw [Option.isNone_iff_eq_none] at hgi
      rw [if_neg (by simp [hgi])]
      exact damagePlayerLoop_no_guard fuel d (i + 1) dmg s (by omega)
        (fun j h1 h2 => h j (by omega) h2)
    · rw [if_neg hi]

/-- C7 (with the guard death handled by a plain relocation): when the field
holds exactly one Guard card, at slot `g` with `G > 0` hit points and no
class-buff / desperation / resurrection attribute, an incoming hit of
`D ≥ 0` subtracts exactly `max 0 (D - G)` from the hero's hit points; the
guard's slot afterwards holds `max 0 (G - D)` hit points, and when the
guard is drained (`G ≤ D`) its template-reset copy is appended to the
graveyard (otherwise the graveyard is untouched). -/
theorem C7_guard_absorption (s : State) (fuel g : Nat) (D : Int)
    (hflen : s.field.length ≤ MAX_CARDS_IN_SET)
    (hg : g < s.field.length)
    (hguard : (HasAttr (fieldGet s g) .ATTR_GUARD).isSome)
    (honly : ∀ j, j < s.field.length → j ≠ g →
      (HasAttr (fieldGet s j) .ATTR_GUARD).isNone)
    (hG : 0 < (fieldGet s g).hp)
    (hD : 0 ≤ D)
    (hbenign : ∀ a ∈ (fieldGet s g).attr, a.type ∉ rcSpecialTypes) :
    (DamagePlayer (fuel + 1) s D).hp = s.hp - max 0 (D - (fieldGet s g).hp) ∧
    (fieldGet (DamagePlayer (fuel + 1) s D) g).hp = max 0 ((fieldGet s g).hp - D) ∧
    ((fieldGet s g).hp ≤ D →
      (DamagePlayer (fuel + 1) s D).grave = s.grave ++ [InitCard (fieldGet s g)]) ∧
    (D < (fieldGet s g).hp → (DamagePlayer (fuel + 1) s D).grave = s.grave) := by
  have hlen20 : s.field.length ≤ 20 := hflen
  unfold DamagePlayer
  rw [show (0 : Nat) = 0 + 0 by rfl, damagePlayerLoop_skip (fuel + 1) g (0 + 0) D s
    (fun j h1 h2 => honly j (by omega) (by omega)) (by omega) (show 0 + 0 + g ≤ 20 by omega)]
  rw [show 0 + 0 + g = g by omega]
  rw [damagePlayerLoop]
  rw [if_pos (show g < s.field.length ∧ g < MAX_CARDS_IN_SET from
    ⟨hg, show g < 20 by omega⟩)]
  rw [if_pos hguard]
  rcases lt_or_le 0 (min D (fieldGet s g).hp) with hpos | hnpos
  · rw [if_pos hpos]
    dsimp only []
    have hmod : fieldGet (modifyField s g
        (fun c => { c with hp := c.hp - min D (fieldGet s g).hp })) g =
        { fieldGet s g with hp := (fieldGet s g).hp - min D (fieldGet s g).hp } :=
      fieldGet_modifyField_self s g _ hg
    rcases le_or_lt (fieldGet s g).hp D with hGD | hDG
    · -- the guard is drained and dies
      have hmin : min D (fieldGet s g).hp = (fieldGet s g).hp := min_eq_right hGD
      rw [hmin] at hmod ⊢
      rw [hmod]
      rw [if_pos (show ({ fieldGet s g with
          hp := (fieldGet s g).hp - (fieldGet s g).hp } : Card).hp ≤ 0 by simp)]
      have hlen' : g < (modifyField s g
          (fun c => { c with hp := c.hp - (fieldGet s g).hp })).field.length := by
        rw [modifyField_field_length]; exact hg
      have hben' : ∀ a ∈ (fieldGet (modifyField s g
          (fun c => { c with hp := c.hp - (fieldGet s g).hp })) g).attr,
          a.type ∉ rcSpecialTypes := by
        rw [hmod]; exact hbenign
      rw [RemoveCard_benign fuel _ g hlen' hben']
      rw [hmod]
      have hinit : InitCard { fieldGet s g with
          hp := (fieldGet s g).hp - (fieldGet s g).hp } = InitCard (fieldGet s g) := by
        simp [InitCard]
      set s2 : State :=
        { modifyField s g (fun c => { c with hp := c.hp - (fieldGet s g).hp }) with
          field := listModify (fun _ => DeadCard) g
            (modifyField s g (fun c => { c with hp := c.hp - (fieldGet s g).hp })).field,
          grave := (modifyField s g
            (fun c => { c with hp := c.hp - (fieldGet s g).hp })).grave ++
            [InitCard { fieldGet s g with
              hp := (fieldGet s g).hp - (fieldGet s g).hp }] } with hs2
      have hs2len : s2.field.length = s.field.length := by
        rw [hs2]; simp [listModify_length, modifyField_field_length, modifyField]
      have hs2get : ∀ j, j ≠ g → fieldGet s2 j = fieldGet s j := by
        intro j hj
        rw [hs2]
        simp only [fieldGet, modifyField]
        rw [listModify_get_other _ _ _ _ hj, listModify_get_other _ _ _ _ hj]
      rw [damagePlayerLoop_no_guard (fuel + 1) (s.field.length - g) (g + 1) _ s2
        (by omega) (fun j h1 h2 => by
          rw [hs2get j (by omega)]
          exact honly j (by rw [hs2len] at h2; exact h2) (by omega))]
      dsimp only []
      refine ⟨?_, ?_, ?_, ?_⟩
      · simp only [modifyField]
        rw [max_eq_right (by omega)]
      · rw [max_eq_left (by omega)]
        simp only [fieldGet, modifyField, listModify_get_self]
        obtain ⟨c, hc⟩ : ∃ c, s.field[g]? = some c :=
          ⟨_, List.getElem?_eq_some_iff.mpr ⟨hg, rfl⟩⟩
        simp [hc, DeadCard]
      · intro _
        simp [modifyField, InitCard]
      · intro hcon
        omega
    · -- the guard survives; no damage reaches the hero
      have hmin : min D (fieldGet s g).hp = D := min_eq_left (by omega)
      rw [hmin] at hmod ⊢
      rw [hmod]
      rw [if_neg (show ¬(({ fieldGet s g with
          hp := (fieldGet s g).hp - D } : Card).hp ≤ 0) by simp; omega)]
      set s2 : State :=
        modifyField s g (fun c => { c with hp := c.hp - D }) with hs2
      have hs2len : s2.field.length = s.field.length := modifyField_field_length s g _
      have hs2get : ∀ j, j ≠ g → fieldGet s2 j = fieldGet s j := fun j hj =>
        fieldGet_modifyField_other s g j _ hj
      rw [damagePlayerLoop_no_guard (fuel + 1) (s.field.length - g) (g + 1) _ s2
        (by omega) (fun j h1 h2 => by
          rw [hs2get j (by omega)]
          exact honly j (by rw [hs2len] at h2; exact h2) (by omega))]
      dsimp only []
      refine ⟨?_, ?_, ?_, ?_⟩
      · rw [max_eq_left (by omega)]
        try rw [hs2]
        try simp only [modifyField]
        try omega
      · rw [max_eq_right (by omega)]
        have h2 := hmod
        simp only [fieldGet] at h2 ⊢
        rw [h2]
        try simp
      · intro hcon
        omega
      · intro _
        simp [hs2, modifyField]
  · -- a zero hit is not absorbed at all
    rw [if_neg (show ¬(0 < min D (fieldGet s g).hp) from hnpos.not_lt)]
    rw [damagePlayerLoop_no_guard (fuel + 1) (s.field.length - g) (g + 1) D s
      (by omega) (fun j h1 h2 => honly j h2 (by omega))]
    have hD0 : D = 0 := by
      rcases le_or_lt D (fieldGet s g).hp with h | h
      · have := min_eq_left h
        omega
      · have := min_eq_right (le_of_lt h)
        omega
    subst hD0
    dsimp only []
    refine ⟨?_, ?_, ?_, ?_⟩
    · rw [max_eq_left (by omega)]
    · rw [max_eq_right (by omega)]
      show (fieldGet s g).hp = (fieldGet s g).hp - 0
      omega
    · intro hcon
      omega
    · intro _
      rfl

/-- A concrete state for the C7 witness: a non-guard card in front of a
Guard card with 50 hit points. -/
def c7s : State := wState [wCard 4 4 30 30 [], wCard 2 2 50 50 [⟨.ATTR_GUARD, 0⟩]]

/-- Witness for C7: a hit of 70 against the 50-hp guard at slot 1 forwards
20 to the hero, zeroes the guard's slot, and moves its reset copy to the
graveyard. -/
theorem C7_guard_absorption_witness :
    (DamagePlayer (0 + 1) c7s 70).hp = c7s.hp - max 0 (70 - (fieldGet c7s 1).hp) ∧
    (fieldGet (DamagePlayer (0 + 1) c7s 70) 1).hp = max 0 ((fieldGet c7s 1).hp - 70) ∧
    ((fieldGet c7s 1).hp ≤ 70 →
      (DamagePlayer (0 + 1) c7s 70).grave = c7s.grave ++ [InitCard (fieldGet c7s 1)]) ∧
    (70 < (fieldGet c7s 1).hp → (DamagePlayer (0 + 1) c7s 70).grave = c7s.grave) :=
  C7_guard_absorption c7s 0 1 70 (by decide) (by decide) (by decide) (by decide)
    (by decide) (by decide) (by decide)

/-!  ## C10: the Toxic Clouds resolution  -/

theorem simDemonToxicLoop_spec (fuel : Nat) (attrVal : Attr) (s : State) (k : Nat)
    (hlen : s.field.length ≤ MAX_CARDS_IN_SET)
    (hk : k < s.field.length)
    (hkAlive : 0 < (fieldGet s k).hp)
    (hkImm : (HasAttr (fieldGet s k) .ATTR_IMMUNITY).isSome)
    (hfirst : ∀ j, j < k → 0 < (fieldGet s j).hp →
      (HasAttr (fieldGet s j) .ATTR_IMMUNITY).isNone)
    (hlvl : 0 ≤ attrVal.level)
    (hsurv : ∀ j, j < k → 0 < (fieldGet s j).hp → attrVal.level < (fieldGet s j).hp) :
    ∀ d i t, k = i + d →
      t.field.length = s.field.length →
      (∀ j, i ≤ j → fieldGet t j = fieldGet s j) →
      ((∀ j, j < i → fieldGet (simDemonToxicLoop fuel attrVal i t) j = fieldGet t j) ∧
       (∀ j, k ≤ j → fieldGet (simDemonToxicLoop fuel attrVal i t) j = fieldGet s j) ∧
       (∀ j, i ≤ j → j < k →
         fieldGet (simDemonToxicLoop fuel attrVal i t) j =
           (if 0 < (fieldGet s j).hp then
             (if (HasAttr { fieldGet s j with
                  hp := (fieldGet s j).hp - attrVal.level } .ATTR_TOXIC_CLOUDS).isNone
              then AddAttr { fieldGet s j with
                  hp := (fieldGet s j).hp - attrVal.level } attrVal
              else { fieldGet s j with hp := (fieldGet s j).hp - attrVal.level })
            else fieldGet s j)) ∧
      (simDemonToxicLoop fuel attrVal i t).hp = t.hp ∧
      (simDemonToxicLoop fuel attrVal i t).grave = t.grave)
  | 0, i, t, hd, htlen, hagree => by
    have hik : i = k := by omega
    subst hik
    rw [simDemonToxicLoop]
    rw [if_pos (show i < t.field.length ∧ i < MAX_CARDS_IN_SET by
      constructor
      · omega
      · show i < 20
        have : s.field.length ≤ 20 := hlen
        omega)]
    rw [hagree i (le_refl i)]
    rw [if_neg (by omega)]
    rw [if_pos hkImm]
    refine ⟨fun j _ => rfl, fun j hj => ?_, fun j h1 h2 => by omega, rfl, rfl⟩
    exact hagree j (by omega)
  | d + 1, i, t, hd, htlen, hagree => by
    have hik : i < k := by omega
    rw [simDemonToxicLoop]
    rw [if_pos (show i < t.field.length ∧ i < MAX_CARDS_IN_SET by
      constructor
      · omega
      · show i < 20
        have : s.field.length ≤ 20 := hlen
        omega)]
    rw [hagree i (le_refl i)]
    by_cases halive : 0 < (fieldGet s i).hp
    · rw [if_neg (by omega)]
      have himm := hfirst i hik halive
      rw [Option.isNone_iff_eq_none] at himm
      rw [if_neg (by simp [himm])]
      have hmin : min attrVal.level (fieldGet s i).hp = attrVal.level :=
        min_eq_left (le_of_lt (hsurv i hik halive))
      rw [hmin]
      dsimp only []
      have hilt : i < t.field.length := by omega
      have hval : fieldGet (modifyField t i
          (fun c => { c with hp := c.hp - attrVal.level })) i =
          { fieldGet s i with hp := (fieldGet s i).hp - attrVal.level } := by
        rw [fieldGet_modifyField_self t i _ hilt, hagree i (le_refl i)]
      rw [hval]
      rw [if_neg (show ¬(({ fieldGet s i with
          hp := (fieldGet s i).hp - attrVal.level } : Card).hp ≤ 0) by
        have hs := hsurv i hik halive
        simp
        omega)]
      -- the card survives; did it already carry the debuff?
      by_cases htox : (HasAttr { fieldGet s i with
          hp := (fieldGet s i).hp - attrVal.level } .ATTR_TOXIC_CLOUDS).isNone
      · rw [if_pos htox]
        have hmod2len : (modifyField (modifyField t i
            (fun c => { c with hp := c.hp - attrVal.level })) i
            (fun c => AddAttr c attrVal)).field.length = s.field.length := by
          rw [modifyField_field_length, modifyField_field_length]
          exact htlen
        have hmod2get : ∀ j, i + 1 ≤ j →
            fieldGet (modifyField (modifyField t i
              (fun c => { c with hp := c.hp - attrVal.level })) i
              (fun c => AddAttr c attrVal)) j = fieldGet s j := by
          intro j hj
          rw [fieldGet_modifyField_other _ _ _ _ (by omega),
              fieldGet_modifyField_other _ _ _ _ (by omega)]
          exact hagree j (by omega)
        obtain ⟨ih1, ih2, ih3, ih4, ih5⟩ := simDemonToxicLoop_spec fuel attrVal s k
          hlen hk hkAlive hkImm hfirst hlvl hsurv d (i + 1) _ (by omega) hmod2len hmod2get
        refine ⟨?_, ih2, ?_, ?_, ?_⟩
        · intro j hj
          rw [ih1 j (by omega)]
          rw [fieldGet_modifyField_other _ _ _ _ (by omega),
              fieldGet_modifyField_other _ _ _ _ (by omega)]
        · intro j h1 h2
          rcases Nat.eq_or_lt_of_le h1 with h1 | h1
          · cases h1
            rw [ih1 i (by omega)]
            rw [fieldGet_modifyField_self _ _ _ (by rw [modifyField_field_length]; omega)]
            rw [hval]
            rw [if_pos halive, if_pos htox]
          · exact ih3 j (by omega) h2
        · rw [ih4]
          simp [modifyField]
        · rw [ih5]
          simp [modifyField]
      · rw [if_neg htox]
        have hmod1len : (modifyField t i
            (fun c => { c with hp := c.hp - attrVal.level })).field.length =
            s.field.length := by
          rw [modifyField_field_length]
          exact htlen
        have hmod1get : ∀ j, i + 1 ≤ j →
            fieldGet (modifyField t i
              (fun c => { c with hp := c.hp - attrVal.level })) j = fieldGet s j := by
          intro j hj
          rw [fieldGet_modifyField_other _ _ _ _ (by omega)]
          exact hagree j (by omega)
        obtain ⟨ih1, ih2, ih3, ih4, ih5⟩ := simDemonToxicLoop_spec fuel attrVal s k
          hlen hk hkAlive hkImm hfirst hlvl hsurv d (i + 1) _ (by omega) hmod1len hmod1get
        refine ⟨?_, ih2, ?_, ?_, ?_⟩
        · intro j hj
          rw [ih1 j (by omega)]
          rw [fieldGet_modifyField_other _ _ _ _ (by omega)]
        · intro j h1 h2
          rcases Nat.eq_or_lt_of_le h1 with h1 | h1
          · cases h1
            rw [ih1 i (by omega)]
            rw [hval]
            rw [if_pos halive, if_neg htox]
          · exact ih3 j (by omega) h2
        · rw [ih4]
          simp [modifyField]
        · rw [ih5]
          simp [modifyField]
    · rw [if_pos (by omega)]
      obtain ⟨ih1, ih2, ih3, ih4, ih5⟩ := simDemonToxicLoop_spec fuel attrVal s k
        hlen hk hkAlive hkImm hfirst hlvl hsurv d (i + 1) t (by omega) htlen
        (fun j hj => hagree j (by omega))
      refine ⟨fun j hj => ih1 j (by omega), ih2, ?_, ih4, ih5⟩
      intro j h1 h2
      rcases Nat.eq_or_lt_of_le h1 with h1 | h1
      · cases h1
        rw [ih1 i (by omega)]
        rw [if_neg halive]
        exact hagree i (le_refl i)
      · exact ih3 j (by omega) h2

/-- C10: in the demon's Toxic Clouds resolution (`simDemonToxicLoop`
starting at slot 0, as invoked by `SimDemon`), let `k` be the first slot
holding a living card with Immunity.  Provided every living card before it
survives the tick (its hp exceeds the non-negative cloud level), the
resolution stops at `k`: every card from slot `k` on (including the immune
card) is completely untouched, every dead placeholder before `k` is
skipped unchanged, and every living card before `k` takes exactly the
cloud damage and receives the Toxic Clouds attribute unless it already has
one; the hero's hp and the graveyard are untouched. -/
theorem C10_toxic_stops_at_immunity (fuel : Nat) (attrVal : Attr) (s : State) (k : Nat)
    (hlen : s.field.length ≤ MAX_CARDS_IN_SET)
    (hk : k < s.field.length)
    (hkAlive : 0 < (fieldGet s k).hp)
    (hkImm : (HasAttr (fieldGet s k) .ATTR_IMMUNITY).isSome)
    (hfirst : ∀ j, j < k → 0 < (fieldGet s j).hp →
      (HasAttr (fieldGet s j) .ATTR_IMMUNITY).isNone)
    (hlvl : 0 ≤ attrVal.level)
    (hsurv : ∀ j, j < k → 0 < (fieldGet s j).hp → attrVal.level < (fieldGet s j).hp) :
    (∀ j, k ≤ j → fieldGet (simDemonToxicLoop fuel attrVal 0 s) j = fieldGet s j) ∧
    (∀ j, j < k →
      fieldGet (simDemonToxicLoop fuel attrVal 0 s) j =
        (if 0 < (fieldGet s j).hp then
          (if (HasAttr { fieldGet s j with
               hp := (fieldGet s j).hp - attrVal.level } .ATTR_TOXIC_CLOUDS).isNone
           then AddAttr { fieldGet s j with
               hp := (fieldGet s j).hp - attrVal.level } attrVal
           else { fieldGet s j with hp := (fieldGet s j).hp - attrVal.level })
         else fieldGet s j)) ∧
    (simDemonToxicLoop fuel attrVal 0 s).hp = s.hp ∧
    (simDemonToxicLoop fuel attrVal 0 s).grave = s.grave := by
  obtain ⟨h1, h2, h3, h4, h5⟩ := simDemonToxicLoop_spec fuel attrVal s k
    hlen hk hkAlive hkImm hfirst hlvl hsurv k 0 s (by omega) rfl (fun j _ => rfl)
  exact ⟨h2, fun j hj => h3 j (by omega) hj, h4, h5⟩

/-- The concrete field for the C10 witness: a dead placeholder, a living
card with 10 hp, a living immune card, and a living card behind it. -/
def c10s : State :=
  wState [wCard 1 1 0 5 [], wCard 1 1 10 10 [],
          wCard 1 1 8 8 [⟨.ATTR_IMMUNITY, 0⟩], wCard 1 1 7 7 []]

/-- Witness for C10 at level-3 toxic clouds on `c10s` (first living immune
card at slot 2): slot 3 behind the immune card is untouched, slot 0 (dead)
is untouched, slot 1 takes 3 damage and gains the debuff, and the hero's
hp and the graveyard are untouched. -/
theorem C10_toxic_stops_at_immunity_witness :
    fieldGet (simDemonToxicLoop 5 ⟨.ATTR_TOXIC_CLOUDS, 3⟩ 0 c10s) 3 =
      fieldGet c10s 3 ∧
    fieldGet (simDemonToxicLoop 5 ⟨.ATTR_TOXIC_CLOUDS, 3⟩ 0 c10s) 0 =
      (if 0 < (fieldGet c10s 0).hp then
        (if (HasAttr { fieldGet c10s 0 with
             hp := (fieldGet c10s 0).hp - (3 : Int) } .ATTR_TOXIC_CLOUDS).isNone
         then AddAttr { fieldGet c10s 0 with
             hp := (fieldGet c10s 0).hp - (3 : Int) } ⟨.ATTR_TOXIC_CLOUDS, 3⟩
         else { fieldGet c10s 0 with hp := (fieldGet c10s 0).hp - (3 : Int) })
       else fieldGet c10s 0) ∧
    fieldGet (simDemonToxicLoop 5 ⟨.ATTR_TOXIC_CLOUDS, 3⟩ 0 c10s) 1 =
      (if 0 < (fieldGet c10s 1).hp then
        (if (HasAttr { fieldGet c10s 1 with
             hp := (fieldGet c10s 1).hp - (3 : Int) } .ATTR_TOXIC_CLOUDS).isNone
         then AddAttr { fieldGet c10s 1 with
             hp := (fieldGet c10s 1).hp - (3 : Int) } ⟨.ATTR_TOXIC_CLOUDS, 3⟩
         else { fieldGet c10s 1 with hp := (fieldGet c10s 1).hp - (3 : Int) })
       else fieldGet c10s 1) ∧
    (simDemonToxicLoop 5 ⟨.ATTR_TOXIC_CLOUDS, 3⟩ 0 c10s).hp = c10s.hp ∧
    (simDemonToxicLoop 5 ⟨.ATTR_TOXIC_CLOUDS, 3⟩ 0 c10s).grave = c10s.grave := by
  obtain ⟨h1, h2, h3, h4⟩ := C10_toxic_stops_at_immunity 5 ⟨.ATTR_TOXIC_CLOUDS, 3⟩
    c10s 2 (by decide) (by decide) (by decide) (by decide) (by decide) (by decide)
    (by decide)
  exact ⟨h1 3 (by omega), h2 0 (by omega), h2 1 (by omega), h3, h4⟩

/-!  ## C9: rune charges  -/

theorem addRuneBuffToField_runes (s : State) (a : Attr) :
    (addRuneBuffToField s a).runes = s.runes := rfl

theorem SimRegenerate_runes (s : State) (heal : Int) :
    (SimRegenerate s heal).runes = s.runes := rfl

theorem springBreezeStartLoop_runes (lvl : Int) :
    ∀ d j s, MAX_CARDS_IN_SET ≤ j + d →
      (springBreezeStartLoop lvl j s).runes = s.runes
  | 0, j, s, hd => by
    rw [springBreezeStartLoop]
    rw [if_neg (by
      rintro ⟨-, h2⟩
      have : (20 : Nat) ≤ j := hd
      have h2' : j < 20 := h2
      omega)]
  | d + 1, j, s, hd => by
    rw [springBreezeStartLoop]
    by_cases hc : j < s.field.length ∧ j < MAX_CARDS_IN_SET
    · rw [if_pos hc]
      rw [springBreezeStartLoop_runes lvl d (j + 1) _ (by omega)]
      rfl
    · rw [if_neg hc]

theorem springBreezeEndLoop_runes (lvl : Int) :
    ∀ d j s, MAX_CARDS_IN_SET ≤ j + d →
      (springBreezeEndLoop lvl j s).runes = s.runes
  | 0, j, s, hd => by
    rw [springBreezeEndLoop]
    rw [if_neg (by
      rintro ⟨-, h2⟩
      have : (20 : Nat) ≤ j := hd
      have h2' : j < 20 := h2
      omega)]
  | d + 1, j, s, hd => by
    rw [springBreezeEndLoop]
    by_cases hc : j < s.field.length ∧ j < MAX_CARDS_IN_SET
    · rw [if_pos hc]
      rw [springBreezeEndLoop_runes lvl d (j + 1) _ (by omega)]
      by_cases h2 : (HasAttr (fieldGet s j) .ATTR_SPRING_BREEZE).isNone
      · rw [if_pos h2]
      · rw [if_neg h2]
        rfl
    · rw [if_neg hc]

theorem removeRuneBuffFromField_runes (s : State) (t : AttrType) :
    (removeRuneBuffFromField s t).runes = s.runes := rfl

/-- One step of the activation pass on a rune with charges left: the step
hands a state to the rest of the pass in which every other rune is
untouched and the rune itself either did not activate, or consumed exactly
one charge (with the active mark for the buff-granting runes). -/
theorem actStep_runes (t : State) (i : Nat) (hlt : i < t.runes.length)
    (hlt4 : i < MAX_RUNES)
    (hnex : ¬((t.runes[i]?.getD NullRune).maxCharges ≤
      (t.runes[i]?.getD NullRune).chargesUsed)) :
    ∃ t', handleRunesActLoop i t = handleRunesActLoop (i + 1) t' ∧
      t'.runes.length = t.runes.length ∧
      (∀ m, m ≠ i → t'.runes[m]? = t.runes[m]?) ∧
      (t'.runes[i]? = t.runes[i]? ∨
       t'.runes[i]? = (t.runes[i]?).map
         (fun r => { r with chargesUsed := r.chargesUsed + 1, usedThisRound := true }) ∨
       t'.runes[i]? = (t.runes[i]?).map
         (fun r => { r with chargesUsed := r.chargesUsed + 1 })) := by
  rw [handleRunesActLoop]
  rw [if_pos ⟨hlt, hlt4⟩]
  rw [if_neg (by simpa using hnex)]
  refine ⟨_, rfl, ?_, ?_, ?_⟩
  · cases hrt : (t.runes[i]?.getD NullRune).attr.type <;>
      simp only [hrt] <;>
      (try split_ifs) <;>
      simp [runeActivateBuff, runeConsumeCharge, addRuneBuffToField,
        springBreezeStartLoop_runes _ 20 0 _ (by decide), SimRegenerate,
        listModify_length]
  · intro m hm
    cases hrt : (t.runes[i]?.getD NullRune).attr.type <;>
      simp only [hrt] <;>
      (try split_ifs) <;>
      simp [runeActivateBuff, runeConsumeCharge, addRuneBuffToField,
        springBreezeStartLoop_runes _ 20 0 _ (by decide), SimRegenerate,
        listModify_get_other _ _ _ _ hm]
  · have hmk : ∃ r, t.runes[i]? = some r :=
      ⟨_, List.getElem?_eq_some_iff.mpr ⟨hlt, rfl⟩⟩
    rcases hmk with ⟨r, hr⟩
    cases hrt : (t.runes[i]?.getD NullRune).attr.type <;>
      simp only [hrt] <;>
      (try split_ifs) <;>
      simp [runeActivateBuff, runeConsumeCharge, addRuneBuffToField,
        springBreezeStartLoop_runes _ 20 0 _ (by decide), SimRegenerate,
        listModify_get_self, hr]

/-- The activation pass characterised per rune slot: slots below the start
index are untouched, and every slot either keeps its rune record exactly or
consumes exactly one charge, which requires charges left beforehand. -/
theorem handleRunesActLoop_charges :
    ∀ (d i : Nat) (s : State), MAX_RUNES ≤ i + d →
      (handleRunesActLoop i s).runes.length = s.runes.length ∧
      (∀ m : Nat, m < i → (handleRunesActLoop i s).runes[m]? = s.runes[m]?) ∧
      (∀ m : Nat, (handleRunesActLoop i s).runes[m]? = s.runes[m]? ∨
        ∃ rr : Rune, s.runes[m]? = some rr ∧ rr.chargesUsed < rr.maxCharges ∧
          ((handleRunesActLoop i s).runes[m]? =
            some { rr with chargesUsed := rr.chargesUsed + 1,
                           usedThisRound := true } ∨
           (handleRunesActLoop i s).runes[m]? =
            some { rr with chargesUsed := rr.chargesUsed + 1 }))
  | 0, i, s, hd => by
    rw [handleRunesActLoop, if_neg (by
      rintro ⟨-, h2⟩
      have h4 : (4 : Nat) ≤ i := hd
      have h2' : i < 4 := h2
      omega)]
    exact ⟨rfl, fun m _ => rfl, fun m => Or.inl rfl⟩
  | d + 1, i, s, hd => by
    by_cases hc : i < s.runes.length ∧ i < MAX_RUNES
    · by_cases hex : (s.runes[i]?.getD NullRune).maxCharges ≤
        (s.runes[i]?.getD NullRune).chargesUsed
      · rw [handleRunesActLoop, if_pos hc, if_pos (by simpa using hex)]
        obtain ⟨h1, h2, h3⟩ := handleRunesActLoop_charges d (i + 1) s (by omega)
        exact ⟨h1, fun m hm => h2 m (by omega), h3⟩
      · obtain ⟨t', heq, hlen, hoth, hself⟩ := actStep_runes s i hc.1 hc.2 hex
        obtain ⟨h1, h2, h3⟩ := handleRunesActLoop_charges d (i + 1) t' (by omega)
        rw [heq]
        refine ⟨h1.trans hlen, ?_, ?_⟩
        · intro m hm
          rw [h2 m (by omega), hoth m (by omega)]
        · intro m
          by_cases hmi : m = i
          · subst hmi
            have hri : (handleRunesActLoop (m + 1) t').runes[m]? = t'.runes[m]? :=
              h2 m (by omega)
            obtain ⟨r, hr⟩ : ∃ r, s.runes[m]? = some r :=
              ⟨_, List.getElem?_eq_some_iff.mpr ⟨hc.1, rfl⟩⟩
            have hcl : r.chargesUsed < r.maxCharges := by
              rw [hr] at hex
              simp only [Option.getD_some] at hex
              exact lt_of_not_le hex
            rcases hself with hsa | hsb | hsc
            · exact Or.inl (hri.trans hsa)
            · exact Or.inr ⟨r, hr, hcl, Or.inl (by rw [hri, hsb, hr]; rfl)⟩
            · exact Or.inr ⟨r, hr, hcl, Or.inr (by rw [hri, hsc, hr]; rfl)⟩
          · have hsm : t'.runes[m]? = s.runes[m]? := hoth m hmi
            rcases h3 m with h | ⟨rr, hrr, hclr, hforms⟩
            · exact Or.inl (h.trans hsm)
            · exact Or.inr ⟨rr, hsm ▸ hrr, hclr, hforms⟩
    · rw [handleRunesActLoop, if_neg hc]
      exact ⟨rfl, fun m _ => rfl, fun m => Or.inl rfl⟩

/-- The deactivation pass only clears `usedThisRound` flags: each rune slot
is unchanged or has its flag cleared, so charges are never touched by it. -/
theorem handleRunesDeactLoop_charges :
    ∀ (d i : Nat) (s : State), MAX_RUNES ≤ i + d →
      (handleRunesDeactLoop i s).runes.length = s.runes.length ∧
      (∀ m : Nat, (handleRunesDeactLoop i s).runes[m]? = s.runes[m]? ∨
        (handleRunesDeactLoop i s).runes[m]? =
          (s.runes[m]?).map (fun r => { r with usedThisRound := false }))
  | 0, i, s, hd => by
    rw [handleRunesDeactLoop, if_neg (by
      rintro ⟨-, h2⟩
      have h4 : (4 : Nat) ≤ i := hd
      have h2' : i < 4 := h2
      omega)]
    exact ⟨rfl, fun m => Or.inl rfl⟩
  | d + 1, i, s, hd => by
    by_cases hc : i < s.runes.length ∧ i < MAX_RUNES
    · by_cases hu : !(s.runes[i]?.getD NullRune).usedThisRound
      · rw [handleRunesDeactLoop, if_pos hc, if_pos (by simpa using hu)]
        exact handleRunesDeactLoop_charges d (i + 1) s (by omega)
      · rw [handleRunesDeactLoop, if_pos hc, if_neg (by simpa using hu)]
        have key : ∀ t : State,
            t.runes = listModify (fun r => { r with usedThisRound := false })
              i s.runes →
            (handleRunesDeactLoop (i + 1) t).runes.length = s.runes.length ∧
            (∀ m : Nat,
              (handleRunesDeactLoop (i + 1) t).runes[m]? = s.runes[m]? ∨
              (handleRunesDeactLoop (i + 1) t).runes[m]? =
                (s.runes[m]?).map (fun r => { r with usedThisRound := false })) := by
          intro t ht
          obtain ⟨h1, h2⟩ := handleRunesDeactLoop_charges d (i + 1) t (by omega)
          refine ⟨by rw [h1, ht, listModify_length], ?_⟩
          intro m
          by_cases hmi : m = i
          · subst hmi
            rcases h2 m with h | h
            · right
              rw [h, ht, listModify_get_self]
            · right
              rw [h, ht, listModify_get_self]
              cases s.runes[m]? <;> rfl
          · rcases h2 m with h | h
            · left
              rw [h, ht, listModify_get_other _ _ _ _ hmi]
            · right
              rw [h, ht, listModify_get_other _ _ _ _ hmi]
        refine key _ ?_
        cases hrt : (s.runes[i]?.getD NullRune).attr.type <;>
          simp only [hrt] <;>
          simp [removeRuneBuffFromField_runes,
            springBreezeEndLoop_runes _ 20 0 _ (by decide)]
    · rw [handleRunesDeactLoop, if_neg hc]
      exact ⟨rfl, fun m => Or.inl rfl⟩

/-- C9 (corrected): across `HandleRunes` every rune keeps its `maxCharges`;
a rune's `chargesUsed` either stays unchanged or — only possible when the
rune still had charges left — grows by exactly one (one activation per
round); consequently `chargesUsed ≤ maxCharges` is an invariant.  The
original claim's "an exhausted rune is a silent no-op" is false: the
deactivation pass still clears an exhausted rune's `usedThisRound` flag
and strips its standing field buff (see the counterexample). -/
theorem C9_charge_gating (s : State)
    (hinv : ∀ r ∈ s.runes, r.chargesUsed ≤ r.maxCharges) :
    (HandleRunes s).runes.length = s.runes.length ∧
    (∀ m : Nat, m < s.runes.length →
      ((HandleRunes s).runes[m]?.getD NullRune).maxCharges =
        (s.runes[m]?.getD NullRune).maxCharges ∧
      (((HandleRunes s).runes[m]?.getD NullRune).chargesUsed =
          (s.runes[m]?.getD NullRune).chargesUsed ∨
        ((s.runes[m]?.getD NullRune).chargesUsed <
            (s.runes[m]?.getD NullRune).maxCharges ∧
          ((HandleRunes s).runes[m]?.getD NullRune).chargesUsed =
            (s.runes[m]?.getD NullRune).chargesUsed + 1))) ∧
    (∀ r ∈ (HandleRunes s).runes, r.chargesUsed ≤ r.maxCharges) := by
  obtain ⟨hd1, hd2⟩ := handleRunesDeactLoop_charges 4 0 s (by decide)
  obtain ⟨ha1, -, ha3⟩ :=
    handleRunesActLoop_charges 4 0 (handleRunesDeactLoop 0 s) (by decide)
  have hmc : ∀ m : Nat,
      ((handleRunesDeactLoop 0 s).runes[m]?.getD NullRune).maxCharges =
        (s.runes[m]?.getD NullRune).maxCharges ∧
      ((handleRunesDeactLoop 0 s).runes[m]?.getD NullRune).chargesUsed =
        (s.runes[m]?.getD NullRune).chargesUsed := by
    intro m
    rcases hd2 m with h | h
    · rw [h]; exact ⟨rfl, rfl⟩
    · rw [h]; cases s.runes[m]? <;> exact ⟨rfl, rfl⟩
  have hper : ∀ m : Nat,
      ((HandleRunes s).runes[m]?.getD NullRune).maxCharges =
        (s.runes[m]?.getD NullRune).maxCharges ∧
      (((HandleRunes s).runes[m]?.getD NullRune).chargesUsed =
          (s.runes[m]?.getD NullRune).chargesUsed ∨
        ((s.runes[m]?.getD NullRune).chargesUsed <
            (s.runes[m]?.getD NullRune).maxCharges ∧
          ((HandleRunes s).runes[m]?.getD NullRune).chargesUsed =
            (s.runes[m]?.getD NullRune).chargesUsed + 1)) := by
    intro m
    obtain ⟨hm1, hm2⟩ := hmc m
    rcases ha3 m with h | ⟨rr, hrr, hcl, hform⟩
    · rw [HandleRunes, h, hm1, hm2]
      exact ⟨rfl, Or.inl rfl⟩
    · have hmax : (s.runes[m]?.getD NullRune).maxCharges = rr.maxCharges := by
        rw [← hm1, hrr]
        rfl
      have hused : (s.runes[m]?.getD NullRune).chargesUsed = rr.chargesUsed := by
        rw [← hm2, hrr]
        rfl
      rcases hform with h | h <;>
        · rw [HandleRunes, h, hmax, hused]
          exact ⟨rfl, Or.inr ⟨hcl, rfl⟩⟩
  refine ⟨(by rw [HandleRunes]; exact ha1.trans hd1), fun m _ => hper m, ?_⟩
  intro r hr
  obtain ⟨m, hm⟩ := List.mem_iff_getElem?.mp hr
  have hmlt : m < s.runes.length := by
    have : m < (HandleRunes s).runes.length := (List.getElem?_eq_some_iff.mp hm).1
    rw [HandleRunes, ha1, hd1] at this
    exact this
  obtain ⟨r0, hr0⟩ : ∃ r0 : Rune, s.runes[m]? = some r0 :=
    ⟨_, List.getElem?_eq_some_iff.mpr ⟨hmlt, rfl⟩⟩
  have hr0mem : r0 ∈ s.runes := List.mem_iff_getElem?.mpr ⟨m, hr0⟩
  have hinv0 := hinv r0 hr0mem
  obtain ⟨hm1, hm2⟩ := hper m
  rw [hm, hr0] at hm1 hm2
  simp only [Option.getD_some] at hm1 hm2
  rcases hm2 with h | ⟨hlt, h⟩
  · rw [h, hm1]; exact hinv0
  · rw [h, hm1]; omega

/-- A state whose only rune is exhausted (all charges used) but still
flagged active from the previous round. -/
def c9cexS : State :=
  { wState [] with
    runes := [{ name := "r", attr := ⟨.ATTR_ARCTIC_FREEZE, 1⟩,
                maxCharges := 1, chargesUsed := 1, usedThisRound := true }] }

/-- Counterexample to C9 as stated: a rune whose charges are exhausted is
not a silent no-op of `HandleRunes` — the deactivation pass still clears
its `usedThisRound` flag (and strips its standing buff), so the rune's
state changes even though it has no charges left. -/
theorem C9_counterexample :
    (c9cexS.runes[0]?.getD NullRune).maxCharges ≤
      (c9cexS.runes[0]?.getD NullRune).chargesUsed ∧
    HandleRunes c9cexS ≠ c9cexS := by
  refine ⟨by decide, ?_⟩
  have h : HandleRunes c9cexS = { c9cexS with
      runes := [{ name := "r", attr := ⟨.ATTR_ARCTIC_FREEZE, 1⟩,
                  maxCharges := 1, chargesUsed := 1, usedThisRound := false }] } := by
    simp [HandleRunes, handleRunesDeactLoop, handleRunesActLoop,
      removeRuneBuffFromField, listModify, c9cexS, wState, wCard, NullRune,
      MAX_RUNES]
  rw [h]
  intro hq
  simp [c9cexS, wState, wCard] at hq

/-- A state whose only rune still has charges left, for the C9 witness. -/
def c9wS : State :=
  { wState [] with
    runes := [{ name := "r", attr := ⟨.ATTR_LEAF, 1⟩,
                maxCharges := 2, chargesUsed := 0, usedThisRound := false }] }

/-- Witness for C9 on `c9wS`: its rune inventory satisfies the charge
invariant, so the per-slot charge accounting holds across `HandleRunes`. -/
theorem C9_charge_gating_witness :
    (∀ r ∈ c9wS.runes, r.chargesUsed ≤ r.maxCharges) ∧
    ((HandleRunes c9wS).runes.length = c9wS.runes.length ∧
    (∀ m : Nat, m < c9wS.runes.length →
      ((HandleRunes c9wS).runes[m]?.getD NullRune).maxCharges =
        (c9wS.runes[m]?.getD NullRune).maxCharges ∧
      (((HandleRunes c9wS).runes[m]?.getD NullRune).chargesUsed =
          (c9wS.runes[m]?.getD NullRune).chargesUsed ∨
        ((c9wS.runes[m]?.getD NullRune).chargesUsed <
            (c9wS.runes[m]?.getD NullRune).maxCharges ∧
          ((HandleRunes c9wS).runes[m]?.getD NullRune).chargesUsed =
            (c9wS.runes[m]?.getD NullRune).chargesUsed + 1))) ∧
    (∀ r ∈ (HandleRunes c9wS).runes, r.chargesUsed ≤ r.maxCharges)) :=
  ⟨by decide, C9_charge_gating c9wS (by decide)⟩

/-- Every index collected by the first pass of `PickNCards` points at a
live card of the set (and sits at or above the starting offset). -/
theorem aliveIndicesFrom_mem :
    ∀ (l : List Card) (i0 x : Nat), x ∈ aliveIndicesFrom i0 l →
      i0 ≤ x ∧ ∃ c : Card, l[x - i0]? = some c ∧ 0 < c.hp
  | [], i0, x, hx => by simp [aliveIndicesFrom] at hx
  | c :: rest, i0, x, hx => by
    rw [aliveIndicesFrom] at hx
    by_cases hc : isAlive c
    · rw [if_pos hc] at hx
      rcases List.mem_cons.mp hx with h | h
      · subst h
        refine ⟨le_refl x, c, ?_, by simpa [isAlive] using hc⟩
        simp
      · obtain ⟨h1, cc, h2, h3⟩ := aliveIndicesFrom_mem rest (i0 + 1) x h
        refine ⟨by omega, cc, ?_, h3⟩
        have hxs : x - i0 = (x - (i0 + 1)) + 1 := by omega
        rw [hxs]
        simpa using h2
    · rw [if_neg hc] at hx
      obtain ⟨h1, cc, h2, h3⟩ := aliveIndicesFrom_mem rest (i0 + 1) x hx
      refine ⟨by omega, cc, ?_, h3⟩
      have hxs : x - i0 = (x - (i0 + 1)) + 1 := by omega
      rw [hxs]
      simpa using h2

/-- The live-index list of `PickNCards` is strictly ascending. -/
theorem aliveIndicesFrom_sorted :
    ∀ (l : List Card) (i0 : Nat),
      List.Sorted (· < ·) (aliveIndicesFrom i0 l)
  | [], i0 => by simp [aliveIndicesFrom]
  | c :: rest, i0 => by
    rw [aliveIndicesFrom]
    by_cases hc : isAlive c
    · rw [if_pos hc]
      refine List.sorted_cons.mpr ⟨?_, aliveIndicesFrom_sorted rest (i0 + 1)⟩
      intro b hb
      have := (aliveIndicesFrom_mem rest (i0 + 1) b hb).1
      omega
    · rw [if_neg hc]
      exact aliveIndicesFrom_sorted rest (i0 + 1)

/-- Bookkeeping for the three-assignment swap: overwriting position `i`
trades one occurrence of the old value for the new one. -/
theorem count_listSet [DecidableEq α] :
    ∀ (l : List α) (i : Nat) (a b x : α), l[i]? = some a →
      (l.set i b).count x + (if x = a then 1 else 0) =
        l.count x + (if x = b then 1 else 0)
  | [], i, a, b, x, h => by simp at h
  | y :: rest, 0, a, b, x, h => by
    simp only [List.getElem?_cons_zero, Option.some.injEq] at h
    subst h
    simp only [List.set_cons_zero, List.count_cons]
    split_ifs <;> simp_all
  | y :: rest, i + 1, a, b, x, h => by
    simp only [List.getElem?_cons_succ] at h
    have := count_listSet rest i a b x h
    simp only [List.set_cons_succ, List.count_cons]
    split_ifs at this ⊢ <;> simp_all

/-- The `listSwap` of `pickSwapLoop` is a permutation of its input. -/
theorem listSwap_perm (l : List Nat) (i j : Nat) : (listSwap l i j).Perm l := by
  rw [listSwap]
  cases hi : l[i]? with
  | none => exact List.Perm.refl l
  | some a =>
    cases hj : l[j]? with
    | none => exact List.Perm.refl l
    | some b =>
      show ((l.set i b).set j a).Perm l
      refine List.perm_iff_count.mpr ?_
      intro x
      have hji : (l.set i b)[j]? = some b := by
        by_cases hij : j = i
        · subst hij
          exact List.getElem?_set_self ((List.getElem?_eq_some_iff.mp hj).1)
        · rw [List.getElem?_set_ne (fun h => hij h.symm)]
          exact hj
      have h1 := count_listSet (l.set i b) j b a x hji
      have h2 := count_listSet l i a b x hi
      split_ifs at h1 h2 <;> omega

/-- The random-swap pass of `PickNCards` permutes the index array. -/
theorem pickSwapLoop_perm (numAlive n : Nat) :
    ∀ (d i : Nat) (ret : List Nat) (s : State), n ≤ i + d →
      ((pickSwapLoop numAlive n i ret s).1).Perm ret
  | 0, i, ret, s, hd => by
    rw [pickSwapLoop, if_neg (by omega)]
  | d + 1, i, ret, s, hd => by
    rw [pickSwapLoop]
    by_cases hc : i < n
    · rw [if_pos hc]
      refine ((pickSwapLoop_perm numAlive n d (i + 1) _ _ (by omega)).trans ?_)
      split_ifs
      · exact listSwap_perm ret i _
      · exact List.Perm.refl ret
    · rw [if_neg hc]

/-- Replacing the element at a position is, up to permutation, removing it
and consing the new value. -/
theorem set_perm_cons_eraseIdx :
    ∀ (l : List α) (k : Nat) (a v : α), l[k]? = some v →
      (l.set k a).Perm (a :: l.eraseIdx k)
  | [], k, a, v, h => by simp at h
  | y :: rest, 0, a, v, h => by simp
  | y :: rest, k + 1, a, v, h => by
    simp only [List.getElem?_cons_succ] at h
    have ih := set_perm_cons_eraseIdx rest k a v h
    exact (ih.cons y).trans (List.Perm.swap a y (rest.eraseIdx k))

/-- A list is a permutation of any one of its elements consed onto the
list with that occurrence removed. -/
theorem perm_cons_eraseIdx :
    ∀ (l : List α) (k : Nat) (v : α), l[k]? = some v →
      l.Perm (v :: l.eraseIdx k)
  | [], k, v, h => by simp at h
  | y :: rest, 0, v, h => by
    simp only [List.getElem?_cons_zero, Option.some.injEq] at h
    subst h
    simp
  | y :: rest, k + 1, v, h => by
    simp only [List.getElem?_cons_succ] at h
    have ih := perm_cons_eraseIdx rest k v h
    exact (ih.cons y).trans (List.Perm.swap v y (rest.eraseIdx k))

/-- The inner scan of the selection sort: the reported value is the least
of the accumulator and the scanned suffix, and whenever it differs from
the accumulator it sits in the suffix at the reported (absolute)
position. -/
theorem selFindMin_spec :
    ∀ (l : List Nat) (lowest li j : Nat),
      ((selFindMin l lowest li j).1 = lowest ∧
          (selFindMin l lowest li j).2 = li ∨
        ∃ k : Nat, l[k]? = some (selFindMin l lowest li j).1 ∧
          (selFindMin l lowest li j).2 = j + k ∧
          (selFindMin l lowest li j).1 < lowest) ∧
      (selFindMin l lowest li j).1 ≤ lowest ∧
      ∀ y ∈ l, (selFindMin l lowest li j).1 ≤ y
  | [], lowest, li, j => by
    refine ⟨Or.inl ⟨rfl, rfl⟩, le_refl _, ?_⟩
    intro y hy
    simp at hy
  | z :: rest, lowest, li, j => by
    rw [selFindMin]
    by_cases hz : z < lowest
    · rw [if_pos hz]
      obtain ⟨hpos, hle, hall⟩ := selFindMin_spec rest z j (j + 1)
      refine ⟨?_, by omega, ?_⟩
      · rcases hpos with ⟨h1, h2⟩ | ⟨k, h1, h2, h3⟩
        · exact Or.inr ⟨0, by simp [h1], by omega, by omega⟩
        · exact Or.inr ⟨k + 1, by simpa using h1, by omega, by omega⟩
      · intro y hy
        rcases List.mem_cons.mp hy with h | h
        · omega
        · exact hall y h
    · rw [if_neg hz]
      obtain ⟨hpos, hle, hall⟩ := selFindMin_spec rest lowest li (j + 1)
      refine ⟨?_, hle, ?_⟩
      · rcases hpos with ⟨h1, h2⟩ | ⟨k, h1, h2, h3⟩
        · exact Or.inl ⟨h1, h2⟩
        · exact Or.inr ⟨k + 1, by simpa using h1, by omega, h3⟩
      · intro y hy
        rcases List.mem_cons.mp hy with h | h
        · omega
        · exact hall y h

/-- The selection sort of `PickNCards` on a duplicate-free list returns a
strictly ascending permutation of it. -/
theorem selSort_spec :
    ∀ l : List Nat, l.Nodup →
      (selSort l).Perm l ∧ List.Sorted (· < ·) (selSort l)
  | [], _ => by
    rw [selSort]
    exact ⟨List.Perm.refl [], by simp⟩
  | x :: rest, hnd => by
    rw [selSort]
    obtain ⟨hpos, hle, hall⟩ := selFindMin_spec rest x 0 1
    by_cases hx : x ≠ (selFindMin rest x 0 1).1
    · rw [if_pos hx]
      rcases hpos with ⟨h1, h2⟩ | ⟨k, h1, h2, h3⟩
      · exact absurd h1.symm hx
      · have hk1 : (selFindMin rest x 0 1).2 - 1 = k := by omega
        rw [hk1]
        have hset : (rest.set k x).Perm (x :: rest.eraseIdx k) :=
          set_perm_cons_eraseIdx rest k x _ h1
        have hrest : rest.Perm ((selFindMin rest x 0 1).1 :: rest.eraseIdx k) :=
          perm_cons_eraseIdx rest k _ h1
        have hxnotin : x ∉ rest := (List.nodup_cons.mp hnd).1
        have hndrest : rest.Nodup := (List.nodup_cons.mp hnd).2
        have hnderase : (rest.eraseIdx k).Nodup :=
          List.Nodup.sublist (List.eraseIdx_sublist rest k) hndrest
        have hminnotin : (selFindMin rest x 0 1).1 ∉ rest.eraseIdx k := by
          have := hrest.nodup_iff.mp hndrest
          exact (List.nodup_cons.mp this).1
        have hndset : (rest.set k x).Nodup := by
          refine hset.nodup_iff.mpr ?_
          refine List.nodup_cons.mpr ⟨?_, hnderase⟩
          intro hmem
          exact hxnotin (List.Sublist.mem hmem (List.eraseIdx_sublist rest k))
        have hlenset : (rest.set k x).length < (x :: rest).length := by
          simp [List.length_set]
        obtain ⟨ihperm, ihsorted⟩ := selSort_spec (rest.set k x) hndset
        constructor
        · refine ((ihperm.cons _).trans ((hset.cons _).trans ?_))
          exact (List.Perm.swap x (selFindMin rest x 0 1).1
            (rest.eraseIdx k)).trans (hrest.symm.cons x)
        · refine List.sorted_cons.mpr ⟨?_, ihsorted⟩
          intro b hb
          have hbmem : b ∈ rest.set k x := ihperm.mem_iff.mp hb
          rcases List.mem_cons.mp (hset.mem_iff.mp hbmem) with h | h
          · subst h
            omega
          · have hble : (selFindMin rest x 0 1).1 ≤ b :=
              hall b (List.Sublist.mem h (List.eraseIdx_sublist rest k))
            have hbne : b ≠ (selFindMin rest x 0 1).1 := by
              intro hq
              subst hq
              exact hminnotin h
            omega
    · rw [if_neg hx]
      push_neg at hx
      have hxnotin : x ∉ rest := (List.nodup_cons.mp hnd).1
      have hndrest : rest.Nodup := (List.nodup_cons.mp hnd).2
      obtain ⟨ihperm, ihsorted⟩ := selSort_spec rest hndrest
      refine ⟨ihperm.cons x, List.sorted_cons.mpr ⟨?_, ihsorted⟩⟩
      intro b hb
      have hbmem : b ∈ rest := ihperm.mem_iff.mp hb
      have hble : x ≤ b := hx ▸ hall b hbmem
      have hbne : b ≠ x := fun hq => hxnotin (hq ▸ hbmem)
      omega
termination_by l => l.length

/-- `PickNCards` written out with projections in place of the paired
`let`s (definitional unfolding). -/
theorem PickNCards_eq (s : State) (cs : List Card) (n : Int) :
    PickNCards s cs n =
      if min n ((aliveIndicesFrom 0 cs).length : Int) =
          ((aliveIndicesFrom 0 cs).length : Int) then
        (min n ((aliveIndicesFrom 0 cs).length : Int), aliveIndicesFrom 0 cs, s)
      else
        (min n ((aliveIndicesFrom 0 cs).length : Int),
         selSort ((pickSwapLoop (aliveIndicesFrom 0 cs).length
             (min n ((aliveIndicesFrom 0 cs).length : Int)).toNat 0
             (aliveIndicesFrom 0 cs) s).1.take
           (min n ((aliveIndicesFrom 0 cs).length : Int)).toNat) ++
           (pickSwapLoop (aliveIndicesFrom 0 cs).length
             (min n ((aliveIndicesFrom 0 cs).length : Int)).toNat 0
             (aliveIndicesFrom 0 cs) s).1.drop
           (min n ((aliveIndicesFrom 0 cs).length : Int)).toNat,
         (pickSwapLoop (aliveIndicesFrom 0 cs).length
             (min n ((aliveIndicesFrom 0 cs).length : Int)).toNat 0
             (aliveIndicesFrom 0 cs) s).2) := rfl

/-- C6: `PickNCards` reports `min n numAlive` picks, and the reported
prefix of its index array consists of indices of live cards of the set,
without duplicates and in strictly ascending order. -/
theorem C6_pickNCards (s : State) (cs : List Card) (n : Int) :
    (PickNCards s cs n).1 = min n ((aliveIndicesFrom 0 cs).length : Int) ∧
    ((PickNCards s cs n).2.1.take (PickNCards s cs n).1.toNat).length =
      min n.toNat (aliveIndicesFrom 0 cs).length ∧
    (∀ i ∈ (PickNCards s cs n).2.1.take (PickNCards s cs n).1.toNat,
      ∃ c : Card, cs[i]? = some c ∧ 0 < c.hp) ∧
    ((PickNCards s cs n).2.1.take (PickNCards s cs n).1.toNat).Nodup ∧
    List.Sorted (· < ·)
      ((PickNCards s cs n).2.1.take (PickNCards s cs n).1.toNat) := by
  have hAs : List.Sorted (· < ·) (aliveIndicesFrom 0 cs) :=
    aliveIndicesFrom_sorted cs 0
  have hAnd : (aliveIndicesFrom 0 cs).Nodup :=
    List.Pairwise.imp (fun h => Nat.ne_of_lt h) hAs
  have hAmem : ∀ i ∈ aliveIndicesFrom 0 cs, ∃ c : Card, cs[i]? = some c ∧ 0 < c.hp := by
    intro i hi
    obtain ⟨-, c, hc, hhp⟩ := aliveIndicesFrom_mem cs 0 i hi
    exact ⟨c, by simpa using hc, hhp⟩
  rw [PickNCards_eq]
  by_cases hb : min n ((aliveIndicesFrom 0 cs).length : Int) =
      ((aliveIndicesFrom 0 cs).length : Int)
  · rw [if_pos hb]
    refine ⟨rfl, ?_, ?_, ?_, ?_⟩
    · simp only [hb]
      have : ((aliveIndicesFrom 0 cs).length : Int).toNat =
          (aliveIndicesFrom 0 cs).length := by omega
      rw [this, List.take_length]
      have hn : ((aliveIndicesFrom 0 cs).length : Int) ≤ n := by
        rcases min_cases n ((aliveIndicesFrom 0 cs).length : Int) with ⟨h1, h2⟩ | ⟨h1, h2⟩
        · omega
        · omega
      omega
    · intro i hi
      exact hAmem i (List.mem_of_mem_take hi)
    · exact List.Nodup.sublist (List.take_sublist _ _) hAnd
    · exact List.Pairwise.sublist (List.take_sublist _ _) hAs
  · rw [if_neg hb]
    have hmin_lt : min n ((aliveIndicesFrom 0 cs).length : Int) <
        ((aliveIndicesFrom 0 cs).length : Int) :=
      lt_of_le_of_ne (min_le_right _ _) hb
    have hmin_n : min n ((aliveIndicesFrom 0 cs).length : Int) = n := by
      rcases min_cases n ((aliveIndicesFrom 0 cs).length : Int) with ⟨h1, h2⟩ | ⟨h1, h2⟩
      · exact h1
      · omega
    have hperm : ((pickSwapLoop (aliveIndicesFrom 0 cs).length
        (min n ((aliveIndicesFrom 0 cs).length : Int)).toNat 0
        (aliveIndicesFrom 0 cs) s).1).Perm (aliveIndicesFrom 0 cs) :=
      pickSwapLoop_perm _ _ ((min n ((aliveIndicesFrom 0 cs).length : Int)).toNat)
        0 _ s (by omega)
    have hretlen : (pickSwapLoop (aliveIndicesFrom 0 cs).length
        (min n ((aliveIndicesFrom 0 cs).length : Int)).toNat 0
        (aliveIndicesFrom 0 cs) s).1.length = (aliveIndicesFrom 0 cs).length :=
      hperm.length_eq
    have hnn_le : (min n ((aliveIndicesFrom 0 cs).length : Int)).toNat ≤
        (aliveIndicesFrom 0 cs).length := by omega
    have hretnd : ((pickSwapLoop (aliveIndicesFrom 0 cs).length
        (min n ((aliveIndicesFrom 0 cs).length : Int)).toNat 0
        (aliveIndicesFrom 0 cs) s).1).Nodup := hperm.nodup_iff.mpr hAnd
    have htakelen : ((pickSwapLoop (aliveIndicesFrom 0 cs).length
        (min n ((aliveIndicesFrom 0 cs).length : Int)).toNat 0
        (aliveIndicesFrom 0 cs) s).1.take
        (min n ((aliveIndicesFrom 0 cs).length : Int)).toNat).length =
        (min n ((aliveIndicesFrom 0 cs).length : Int)).toNat := by
      rw [List.length_take]
      omega
    have htakend : ((pickSwapLoop (aliveIndicesFrom 0 cs).length
        (min n ((aliveIndicesFrom 0 cs).length : Int)).toNat 0
        (aliveIndicesFrom 0 cs) s).1.take
        (min n ((aliveIndicesFrom 0 cs).length : Int)).toNat).Nodup :=
      List.Nodup.sublist (List.take_sublist _ _) hretnd
    obtain ⟨hsortperm, hsorted⟩ := selSort_spec _ htakend
    have hsortlen : (selSort ((pickSwapLoop (aliveIndicesFrom 0 cs).length
        (min n ((aliveIndicesFrom 0 cs).length : Int)).toNat 0
        (aliveIndicesFrom 0 cs) s).1.take
        (min n ((aliveIndicesFrom 0 cs).length : Int)).toNat)).length =
        (min n ((aliveIndicesFrom 0 cs).length : Int)).toNat :=
      hsortperm.length_eq.trans htakelen
    have hpick : (selSort ((pickSwapLoop (aliveIndicesFrom 0 cs).length
          (min n ((aliveIndicesFrom 0 cs).length : Int)).toNat 0
          (aliveIndicesFrom 0 cs) s).1.take
          (min n ((aliveIndicesFrom 0 cs).length : Int)).toNat) ++
        (pickSwapLoop (aliveIndicesFrom 0 cs).length
          (min n ((aliveIndicesFrom 0 cs).length : Int)).toNat 0
          (aliveIndicesFrom 0 cs) s).1.drop
          (min n ((aliveIndicesFrom 0 cs).length : Int)).toNat).take
          (min n ((aliveIndicesFrom 0 cs).length : Int)).toNat =
        selSort ((pickSwapLoop (aliveIndicesFrom 0 cs).length
          (min n ((aliveIndicesFrom 0 cs).length : Int)).toNat 0
          (aliveIndicesFrom 0 cs) s).1.take
          (min n ((aliveIndicesFrom 0 cs).length : Int)).toNat) := by
      rw [List.take_append_of_le_length (by omega)]
      exact List.take_of_length_le (by omega)
    refine ⟨rfl, ?_, ?_, ?_, ?_⟩
    · simp only [hpick, hsortlen]
      omega
    · intro i hi
      simp only [hpick] at hi
      have h1 : i ∈ (pickSwapLoop (aliveIndicesFrom 0 cs).length
          (min n ((aliveIndicesFrom 0 cs).length : Int)).toNat 0
          (aliveIndicesFrom 0 cs) s).1 :=
        List.Sublist.mem (hsortperm.mem_iff.mp hi) (List.take_sublist _ _)
      exact hAmem i (hperm.mem_iff.mp h1)
    · simp only [hpick]
      exact hsortperm.nodup_iff.mpr htakend
    · simp only [hpick]
      exact hsorted

/-- C3: the battle state machine is deterministic given the seed — two
runs started from component-wise identical states (same seed words, same
rosters, boss, runes, round and hit points) under component-wise identical
configurations produce identical outcome records: damage done, final round
number, milestone-round flag (and in fact identical final states). -/
theorem C3_simulate_deterministic (cfg1 cfg2 : Config) (fuel : Nat)
    (s1 s2 : State) (x : Int)
    (hcfg : cfg1.maxRounds = cfg2.maxRounds ∧
      cfg1.avgConcentrate = cfg2.avgConcentrate)
    (hs : s1.dmgDone = s2.dmgDone ∧ s1.hp = s2.hp ∧ s1.maxHp = s2.maxHp ∧
      s1.round = s2.round ∧ s1.demon = s2.demon ∧ s1.deck = s2.deck ∧
      s1.hand = s2.hand ∧ s1.field = s2.field ∧ s1.grave = s2.grave ∧
      s1.runes = s2.runes ∧ s1.seedW = s2.seedW ∧ s1.seedZ = s2.seedZ) :
    (Simulate cfg1 fuel s1 x).1.dmgDone = (Simulate cfg2 fuel s2 x).1.dmgDone ∧
    (Simulate cfg1 fuel s1 x).1.round = (Simulate cfg2 fuel s2 x).1.round ∧
    (Simulate cfg1 fuel s1 x).2 = (Simulate cfg2 fuel s2 x).2 ∧
    Simulate cfg1 fuel s1 x = Simulate cfg2 fuel s2 x := by
  have h1 : s1 = s2 := by
    cases s1
    cases s2
    simp_all
  have h2 : cfg1 = cfg2 := by
    cases cfg1
    cases cfg2
    simp_all
  subst h1
  subst h2
  exact ⟨rfl, rfl, rfl, rfl⟩

/-- Witness for C3 at a concrete configuration and state. -/
theorem C3_simulate_deterministic_witness :
    ((⟨10, false⟩ : Config).maxRounds = (⟨10, false⟩ : Config).maxRounds ∧
     (⟨10, false⟩ : Config).avgConcentrate =
       (⟨10, false⟩ : Config).avgConcentrate) ∧
    Simulate ⟨10, false⟩ 1 (wState []) 3 = Simulate ⟨10, false⟩ 1 (wState []) 3 :=
  ⟨⟨rfl, rfl⟩,
   (C3_simulate_deterministic ⟨10, false⟩ ⟨10, false⟩ 1 (wState []) (wState []) 3
     ⟨rfl, rfl⟩
     ⟨rfl, rfl, rfl, rfl, rfl, rfl, rfl, rfl, rfl, rfl, rfl, rfl⟩).2.2.2⟩

/-!  ## Round preservation: no engine function changes `round`; only the
battle loop's explicit increment does.  These lemmas drive the fuel
sufficiency argument for C1.  -/

theorem Rnd_round (s : State) (n : Nat) : (Rnd s n).2.round = s.round := rfl

theorem AddCardToSetRandomly_round (s : State) (cs : List Card) (c : Card) :
    (AddCardToSetRandomly s cs c).2.round = s.round := rfl

theorem modifyField_round (s : State) (i : Nat) (f : Card → Card) :
    (modifyField s i f).round = s.round := rfl

theorem RemoveDeadCards_round (s : State) :
    (RemoveDeadCards s).round = s.round := rfl

theorem RemoveBuffFromField_round (s : State) (src : Nat) (buff : AttrType)
    (level : Int) : (RemoveBuffFromField s src buff level).round = s.round := rfl

theorem AddBuffToField_round (s : State) (src : Option Nat) (cls buff : AttrType)
    (level : Int) : (AddBuffToField s src cls buff level).round = s.round := rfl

theorem SimPrayer_round (s : State) (heal : Int) :
    (SimPrayer s heal).round = s.round := by
  rw [SimPrayer]
  split_ifs <;> rfl

theorem simReincarnateLoop_round :
    ∀ (n : Nat) (s : State), (simReincarnateLoop n s).round = s.round
  | 0, s => rfl
  | n + 1, s => by
    rw [simReincarnateLoop]
    cases hg : s.grave with
    | nil => rfl
    | cons c2 rest => rw [simReincarnateLoop_round n]

theorem SimReincarnate_round (s : State) (level : Int) :
    (SimReincarnate s level).round = s.round := simReincarnateLoop_round _ s

theorem SimRegenerate_round (s : State) (heal : Int) :
    (SimRegenerate s heal).round = s.round := rfl

theorem PickAliveCardFromSet_round (s : State) (cs : List Card) :
    (PickAliveCardFromSet s cs).2.round = s.round := by
  rw [PickAliveCardFromSet]
  dsimp only []
  split_ifs <;> rfl

theorem PickReanimatableCard_round (s : State) :
    (PickReanimatableCard s).2.round = s.round := by
  rw [PickReanimatableCard]
  dsimp only []
  split_ifs <;> rfl

theorem FindLowestHpCard_round (s : State) (cs : List Card) (md : Bool) :
    (FindLowestHpCard s cs md).2.round = s.round := by
  rw [FindLowestHpCard]
  rcases hscan : flhcScan md cs 0 (-1) 0 none with ⟨lowest, numLowest, lowIdx⟩
  dsimp only []
  split_ifs <;> try rfl
  all_goals cases cs.getLast? <;> (try dsimp only []) <;> (try split_ifs) <;> rfl

theorem SimHealing_round (s : State) (heal : Int) :
    (SimHealing s heal).round = s.round := by
  rw [SimHealing]
  rcases hfl : FindLowestHpCard s s.field true with ⟨r, s'⟩
  have h2 : s'.round = s.round := by
    have h := FindLowestHpCard_round s s.field true
    rw [hfl] at h
    exact h
  dsimp only []
  cases r with
  | none => exact h2
  | some i => rw [modifyField_round]; exact h2

theorem handleBuffsLoop_round (src : Option Nat) :
    ∀ (attrs : List Attr) (s : State), (handleBuffsLoop src attrs s).round = s.round
  | [], s => rfl
  | a :: rest, s => by
    rw [handleBuffsLoop]
    rw [handleBuffsLoop_round src rest]
    cases a.type <;> rfl

theorem HandleBuffsFromCardPlayed_round (s : State) (src : Option Nat) (c : Card) :
    (HandleBuffsFromCardPlayed s src c).round = s.round :=
  handleBuffsLoop_round src c.attr s

theorem receiveBuffsLoop_round (ah ahb aa aab : AttrType) (i : Nat) :
    ∀ (d j : Nat) (s : State), MAX_CARDS_IN_SET ≤ j + d →
      (receiveBuffsLoop ah ahb aa aab i j s).round = s.round
  | 0, j, s, hd => by
    rw [receiveBuffsLoop, if_neg (by
      rintro ⟨-, h2⟩
      have h20 : (20 : Nat) ≤ j := hd
      have h2' : j < 20 := h2
      omega)]
  | d + 1, j, s, hd => by
    rw [receiveBuffsLoop]
    by_cases hc : j < s.field.length ∧ j < MAX_CARDS_IN_SET
    · rw [if_pos hc]
      by_cases hji : j = i
      · rw [if_pos hji]
        exact receiveBuffsLoop_round ah ahb aa aab i d (j + 1) s (by omega)
      · rw [if_neg hji]
        rw [receiveBuffsLoop_round ah ahb aa aab i d (j + 1) _ (by omega)]
        cases HasAttr (fieldGet s j) ah <;> cases HasAttr (fieldGet s j) aa <;> rfl
    · rw [if_neg hc]

theorem receiveBuffsLoop_round0 (ah ahb aa aab : AttrType) (i : Nat) (s : State) :
    (receiveBuffsLoop ah ahb aa aab i 0 s).round = s.round :=
  receiveBuffsLoop_round ah ahb aa aab i 20 0 s (by decide)

/-- The attribute loop of `RemoveCard` preserves `round`, given that
`SimReanimate` at the same fuel does. -/
theorem removeCardAttrLoop_round_of (fuel : Nat)
    (hSR : ∀ s : State, (SimReanimate fuel s).round = s.round) :
    ∀ (attrs : List Attr) (s : State) (idx : Nat) (b : Bool),
      (removeCardAttrLoop fuel s idx b attrs).round = s.round
  | [], s, idx, b => by rw [removeCardAttrLoop]
  | a :: rest, s, idx, b => by
    rw [removeCardAttrLoop]
    rw [removeCardAttrLoop_round_of fuel hSR rest]
    cases a.type <;> (try split_ifs) <;>
      simp [RemoveBuffFromField_round, SimPrayer_round, SimReincarnate_round, hSR]

theorem cptfObstinacy_round (s : State) (i : Nat) :
    (cptfObstinacy s i).round = s.round := by
  rw [cptfObstinacy]
  cases HasAttr (fieldGet s i) .ATTR_OBSTINACY <;> rfl

theorem cptfBackstab_round (s : State) (i : Nat) :
    (cptfBackstab s i).round = s.round := by
  rw [cptfBackstab]
  cases HasAttr (fieldGet s i) .ATTR_BACKSTAB <;> rfl

theorem cptfQSPrayer_round (s : State) (i : Nat) :
    (cptfQSPrayer s i).round = s.round := by
  rw [cptfQSPrayer]
  cases HasAttr (fieldGet s i) .ATTR_QS_PRAYER with
  | none => rfl
  | some level => exact SimPrayer_round s level

theorem cptfQSRegenerate_round (s : State) (i : Nat) :
    (cptfQSRegenerate s i).round = s.round := by
  rw [cptfQSRegenerate]
  cases HasAttr (fieldGet s i) .ATTR_QS_REGENERATE <;> rfl

theorem cptfQSReincarnate_round (s : State) (i : Nat) :
    (cptfQSReincarnate s i).round = s.round := by
  rw [cptfQSReincarnate]
  cases HasAttr (fieldGet s i) .ATTR_QS_REINCARNATE with
  | none => rfl
  | some level => exact SimReincarnate_round s level

/-- The sacrifice stage preserves `round` whenever the supplied
`RemoveCard` instance does. -/
theorem cptfSacrifice_round (rc : State → Nat → Bool → State)
    (hrc : ∀ (t : State) (r : Nat) (b : Bool), (rc t r b).round = t.round)
    (s : State) (i : Nat) : (cptfSacrifice rc s i).2.round = s.round := by
  rw [cptfSacrifice]
  cases hs : HasAttr (fieldGet s i) .ATTR_SACRIFICE with
  | none => rfl
  | some level =>
    dsimp only []
    by_cases hf : 1 < s.field.length
    · rw [if_pos hf]
      rcases hrnd : Rnd s (s.field.length - 1) with ⟨r, srnd⟩
      have hsrnd : srnd.round = s.round := by
        have hq := Rnd_round s (s.field.length - 1)
        rw [hrnd] at hq
        exact hq
      dsimp only []
      by_cases him : (HasAttr (fieldGet srnd r) .ATTR_IMMUNITY).isSome
      · rw [if_pos him]
        exact hsrnd
      · rw [if_neg him]
        dsimp only []
        simp only [RemoveDeadCards_round, hrc, modifyField_round]
        exact hsrnd
    · rw [if_neg hf]

/-- The buff-exchange tail preserves `round`. -/
theorem cptfFinish_round (p : Option Card × State) (i : Nat) :
    (cptfFinish p i).round = p.2.round := by
  obtain ⟨info, u⟩ := p
  rw [cptfFinish]
  cases info with
  | none =>
    dsimp only [Option.elim]
    split_ifs <;>
      simp only [HandleBuffsFromCardPlayed_round, receiveBuffsLoop_round0]
  | some v =>
    dsimp only [Option.elim]
    split_ifs <;> simp only [HandleBuffsFromCardPlayed_round]

/-- One application of the `CardPlayedToField` body preserves `round`,
whenever the supplied `RemoveCard` instance does. -/
theorem cardPlayedToFieldBody_round (rc : State → Nat → Bool → State)
    (hrc : ∀ (t : State) (r : Nat) (b : Bool), (rc t r b).round = t.round)
    (s : State) (i : Nat) :
    (cardPlayedToFieldBody rc s i).round = s.round := by
  rw [cardPlayedToFieldBody]
  rw [cptfFinish_round]
  rw [cptfSacrifice_round rc hrc]
  rw [cptfQSReincarnate_round, cptfQSRegenerate_round, cptfQSPrayer_round,
    cptfBackstab_round, cptfObstinacy_round]

/-- The destination roll of `RemoveCard` draws from `Rnd`, so `round` is
untouched. -/
theorem rcDestRoll_round (o : Option Int) (dflt : RCDest) (t : State) :
    (rcDestRoll o dflt t).2.round = t.round := by
  cases o with
  | none => rfl
  | some level =>
    rw [rcDestRoll]
    rcases hrnd : Rnd t 100 with ⟨r, s'⟩
    have hs' : s'.round = t.round := by
      have hq := Rnd_round t 100
      rw [hrnd] at hq
      exact hq
    dsimp only []
    split_ifs <;> exact hs'

theorem rcPlaceCopy_round (dest : RCDest) (copy : Card) (s : State) :
    (rcPlaceCopy dest copy s).round = s.round := by
  cases dest <;> rfl

/-- The whole graveyard path of `RemoveCard` after the attribute loop:
both destination rolls and the copy placement leave `round` alone. -/
theorem rcGraveStages_round (o1 o2 : Option Int) (t : State) (idx : Nat)
    (cp : Card) :
    (modifyField
      (rcPlaceCopy
        (rcDestRoll o2 (rcDestRoll o1 RCDest.grave t).1
          (rcDestRoll o1 RCDest.grave t).2).1
        cp
        (rcDestRoll o2 (rcDestRoll o1 RCDest.grave t).1
          (rcDestRoll o1 RCDest.grave t).2).2)
      idx (fun _ => DeadCard)).round = t.round := by
  rw [modifyField_round, rcPlaceCopy_round, rcDestRoll_round, rcDestRoll_round]

set_option maxHeartbeats 4000000 in
/-- The mutually recursive ability cluster preserves `round` at every
fuel. -/
theorem cluster_round :
    ∀ fuel : Nat,
      (∀ (s : State) (idx : Nat) (b : Bool),
        (RemoveCard fuel s idx b).round = s.round) ∧
      (∀ s : State, (SimReanimate fuel s).round = s.round) ∧
      (∀ (s : State) (i : Nat), (CardPlayedToField fuel s i).round = s.round)
  | 0 => ⟨fun s idx b => by rw [RemoveCard], fun s => by rw [SimReanimate],
          fun s i => by rw [CardPlayedToField]⟩
  | fuel + 1 => by
    obtain ⟨ihRC, ihSR, ihCP⟩ := cluster_round fuel
    refine ⟨?_, ?_, ?_⟩
    · intro s idx b
      rw [RemoveCard]
      have ht2 : (removeCardAttrLoop fuel
          (modifyField s idx (fun c => AddAttr { c with hp := 0 } DeadAttr)) idx b
          (fieldGet (modifyField s idx
            (fun c => AddAttr { c with hp := 0 } DeadAttr)) idx).attr).round =
          s.round :=
        (removeCardAttrLoop_round_of fuel ihSR _ _ idx b).trans
          (modifyField_round s idx _)
      generalize hgen : removeCardAttrLoop fuel
          (modifyField s idx (fun c => AddAttr { c with hp := 0 } DeadAttr)) idx b
          (fieldGet (modifyField s idx
            (fun c => AddAttr { c with hp := 0 } DeadAttr)) idx).attr = t2 at ht2 ⊢
      cases b
      · rw [if_neg (by simp)]
        exact (AddCardToSetRandomly_round t2 t2.deck
          (InitCard (fieldGet t2 idx))).trans ht2
      · rw [if_pos rfl]
        exact (rcGraveStages_round (HasAttr (fieldGet t2 idx) .ATTR_DIRT)
          (HasAttr (fieldGet t2 idx) .ATTR_RESURRECTION) t2 idx
          (InitCard (fieldGet t2 idx))).trans ht2
    · intro s
      rw [SimReanimate]
      rcases hp : PickReanimatableCard s with ⟨r, s'⟩
      have hs' : s'.round = s.round := by
        have h := PickReanimatableCard_round s
        rw [hp] at h
        exact h
      dsimp only []
      cases r with
      | none => exact hs'
      | some ri =>
        rw [ihCP]
        exact hs'
    · intro s i
      rw [CardPlayedToField]
      exact cardPlayedToFieldBody_round _ (fun t r b => ihRC t r b) s i

theorem RemoveCard_round (fuel : Nat) (s : State) (idx : Nat) (b : Bool) :
    (RemoveCard fuel s idx b).round = s.round := (cluster_round fuel).1 s idx b

theorem SimReanimate_round (fuel : Nat) (s : State) :
    (SimReanimate fuel s).round = s.round := (cluster_round fuel).2.1 s

theorem CardPlayedToField_round (fuel : Nat) (s : State) (i : Nat) :
    (CardPlayedToField fuel s i).round = s.round := (cluster_round fuel).2.2 s i

theorem dodgeRoll_round (o : Option Int) (t : State) :
    (dodgeRoll o t).2.round = t.round := by
  cases o with
  | none => rfl
  | some level =>
    rw [dodgeRoll]
    rcases hrnd : Rnd t 100 with ⟨r, s'⟩
    have hq := Rnd_round t 100
    rw [hrnd] at hq
    exact hq

theorem damagePlayerLoop_round (fuel : Nat) :
    ∀ (d i : Nat) (dmg : Int) (s : State), MAX_CARDS_IN_SET ≤ i + d →
      ((damagePlayerLoop fuel i dmg s).2).round = s.round
  | 0, i, dmg, s, hd => by
    rw [damagePlayerLoop, if_neg (by
      rintro ⟨-, h2⟩
      have h20 : (20 : Nat) ≤ i := hd
      have h2' : i < 20 := h2
      omega)]
  | d + 1, i, dmg, s, hd => by
    rw [damagePlayerLoop]
    by_cases hc : i < s.field.length ∧ i < MAX_CARDS_IN_SET
    · rw [if_pos hc]
      by_cases hg : (HasAttr (fieldGet s i) .ATTR_GUARD).isSome
      · rw [if_pos hg]
        by_cases hdm : 0 < min dmg (fieldGet s i).hp
        · rw [if_pos hdm]
          rw [damagePlayerLoop_round fuel d (i + 1) _ _ (by omega)]
          split_ifs
          · rw [RemoveCard_round, modifyField_round]
          · rw [modifyField_round]
        · rw [if_neg hdm]
          exact damagePlayerLoop_round fuel d (i + 1) _ _ (by omega)
      · rw [if_neg hg]
        exact damagePlayerLoop_round fuel d (i + 1) _ _ (by omega)
    · rw [if_neg hc]

theorem DamagePlayer_round (fuel : Nat) (s : State) (dmg : Int) :
    (DamagePlayer fuel s dmg).round = s.round := by
  rw [DamagePlayer]
  exact damagePlayerLoop_round fuel 20 0 dmg s (by decide)

theorem damageCardTriggerLoop_round (cardIdx : Nat) :
    ∀ (d ai : Nat) (s : State), MAX_ATTR ≤ ai + d →
      (damageCardTriggerLoop cardIdx ai s).round = s.round
  | 0, ai, s, hd => by
    rw [damageCardTriggerLoop, if_neg (by
      rintro ⟨-, h2⟩
      have h40 : (40 : Nat) ≤ ai := hd
      have h2' : ai < 40 := h2
      omega)]
  | d + 1, ai, s, hd => by
    rw [damageCardTriggerLoop]
    by_cases hc : ai < (fieldGet s cardIdx).attr.length ∧ ai < MAX_ATTR
    · rw [if_pos hc]
      rw [damageCardTriggerLoop_round cardIdx d (ai + 1) _ (by omega)]
      cases ((fieldGet s cardIdx).attr[ai]?.getD DeadAttr).type <;> rfl
    · rw [if_neg hc]

theorem damageCardTriggerLoop_round0 (cardIdx : Nat) (s : State) :
    (damageCardTriggerLoop cardIdx 0 s).round = s.round :=
  damageCardTriggerLoop_round cardIdx 40 0 s (by decide)

theorem DamageCard_round (fuel : Nat) (s : State) (i : Nat) (dmg : Int) :
    ((DamageCard fuel s i dmg).2).round = s.round := by
  rw [DamageCard]
  rcases hd1 : dodgeRoll (HasAttr (fieldGet s i) .ATTR_NIMBLE_SOUL) s with ⟨b1, t1⟩
  have ht1 : t1.round = s.round := by
    have hq := dodgeRoll_round (HasAttr (fieldGet s i) .ATTR_NIMBLE_SOUL) s
    rw [hd1] at hq
    exact hq
  try dsimp only []
  cases b1
  · rw [if_neg (by decide)]
    rcases hd2 : dodgeRoll (HasAttr (fieldGet t1 i) .ATTR_DODGE) t1 with ⟨b2, t2⟩
    have ht2 : t2.round = s.round := by
      have hq := dodgeRoll_round (HasAttr (fieldGet t1 i) .ATTR_DODGE) t1
      rw [hd2] at hq
      exact hq.trans ht1
    try dsimp only []
    cases b2
    · rw [if_neg (by decide)]
      try dsimp only []
      by_cases hz : ReducePhysDmg (fieldGet t2 i) dmg ≤ 0
      · rw [if_pos hz]
        exact ht2
      · rw [if_neg hz]
        try dsimp only []
        split_ifs <;>
          simp only [RemoveCard_round, damageCardTriggerLoop_round0,
            modifyField_round] <;>
          exact ht2
    · rw [if_pos rfl]
      exact ht2
  · rw [if_pos rfl]
    exact ht1

theorem chainAttackLoop_round (fuel : Nat) (nm : String) (nd : Int) :
    ∀ (d i : Nat) (s : State), MAX_CARDS_IN_SET ≤ i + d →
      (chainAttackLoop fuel nm nd i s).round = s.round
  | 0, i, s, hd => by
    rw [chainAttackLoop, if_neg (by
      rintro ⟨-, h2⟩
      have h20 : (20 : Nat) ≤ i := hd
      have h2' : i < 20 := h2
      omega)]
  | d + 1, i, s, hd => by
    rw [chainAttackLoop]
    by_cases hc : i < s.field.length ∧ i < MAX_CARDS_IN_SET
    · rw [if_pos hc]
      rw [chainAttackLoop_round fuel nm nd d (i + 1) _ (by omega)]
      split_ifs
      · exact DamageCard_round fuel s i nd
      · rfl
    · rw [if_neg hc]

theorem SimDemonAttack_round (fuel : Nat) (s : State) (dmg : Int) :
    (SimDemonAttack fuel s dmg).round = s.round := by
  rw [SimDemonAttack]
  by_cases hf : 0 < s.field.length
  · rw [if_pos hf]
    dsimp only []
    by_cases hd : (HasAttr (fieldGet s 0) .ATTR_DEAD).isNone
    · rw [if_pos hd]
      rcases hdc : DamageCard fuel s 0 dmg with ⟨nd, t⟩
      have ht : t.round = s.round := by
        have hq := DamageCard_round fuel s 0 dmg
        rw [hdc] at hq
        exact hq
      dsimp only []
      by_cases hnd : 0 < nd
      · rw [if_pos hnd]
        cases HasAttr t.demon .ATTR_CHAIN_ATTACK with
        | none => exact ht
        | some level =>
          dsimp only []
          rw [chainAttackLoop_round fuel _ _ 20 1 t (by decide)]
          exact ht
      · rw [if_neg hnd]
        exact ht
    · rw [if_neg hd]
      rw [DamagePlayer_round]
  · rw [if_neg hf]
    rw [DamagePlayer_round]

theorem simDemonFireGodLoop_round (av : Attr) :
    ∀ (d j : Nat) (s : State), MAX_CARDS_IN_SET ≤ j + d →
      (simDemonFireGodLoop av j s).round = s.round
  | 0, j, s, hd => by
    rw [simDemonFireGodLoop, if_neg (by
      rintro ⟨-, h2⟩
      have h20 : (20 : Nat) ≤ j := hd
      have h2' : j < 20 := h2
      omega)]
  | d + 1, j, s, hd => by
    rw [simDemonFireGodLoop]
    by_cases hc : j < s.field.length ∧ j < MAX_CARDS_IN_SET
    · rw [if_pos hc]
      rw [simDemonFireGodLoop_round av d (j + 1) _ (by omega)]
      split_ifs <;> rfl
    · rw [if_neg hc]

theorem simDemonToxicLoop_round (fuel : Nat) (av : Attr) :
    ∀ (d j : Nat) (s : State), MAX_CARDS_IN_SET ≤ j + d →
      (simDemonToxicLoop fuel av j s).round = s.round
  | 0, j, s, hd => by
    rw [simDemonToxicLoop, if_neg (by
      rintro ⟨-, h2⟩
      have h20 : (20 : Nat) ≤ j := hd
      have h2' : j < 20 := h2
      omega)]
  | d + 1, j, s, hd => by
    rw [simDemonToxicLoop]
    by_cases hc : j < s.field.length ∧ j < MAX_CARDS_IN_SET
    · rw [if_pos hc]
      by_cases hhp : (fieldGet s j).hp ≤ 0
      · rw [if_pos hhp]
        exact simDemonToxicLoop_round fuel av d (j + 1) s (by omega)
      · rw [if_neg hhp]
        by_cases him : (HasAttr (fieldGet s j) .ATTR_IMMUNITY).isSome
        · rw [if_pos him]
        · rw [if_neg him]
          try dsimp only []
          rw [simDemonToxicLoop_round fuel av d (j + 1) _ (by omega)]
          split_ifs <;> simp only [RemoveCard_round, modifyField_round]
    · rw [if_neg hc]

theorem pickSwapLoop_round (numAlive n : Nat) :
    ∀ (d i : Nat) (ret : List Nat) (s : State), n ≤ i + d →
      ((pickSwapLoop numAlive n i ret s).2).round = s.round
  | 0, i, ret, s, hd => by
    rw [pickSwapLoop, if_neg (by omega)]
  | d + 1, i, ret, s, hd => by
    rw [pickSwapLoop]
    by_cases hc : i < n
    · rw [if_pos hc]
      rw [pickSwapLoop_round numAlive n d (i + 1) _ _ (by omega)]
      exact Rnd_round s _
    · rw [if_neg hc]

theorem PickNCards_round (s : State) (cs : List Card) (n : Int) :
    ((PickNCards s cs n).2.2).round = s.round := by
  rw [PickNCards_eq]
  split_ifs
  · rfl
  · exact pickSwapLoop_round _ _ ((min n ((aliveIndicesFrom 0 cs).length : Int)).toNat)
      0 _ s (by omega)

theorem simDemonTrapLoop_round :
    ∀ (l : List Nat) (k : Nat) (s : State), (simDemonTrapLoop l k s).round = s.round
  | l, 0, s => by
    rw [simDemonTrapLoop.eq_def]
    cases l <;> rfl
  | [], k + 1, s => by
    rw [simDemonTrapLoop.eq_def]
    rfl
  | idx :: rest, k + 1, s => by
    rw [simDemonTrapLoop]
    rcases hrnd : Rnd s 100 with ⟨r, s2⟩
    have hs2 : s2.round = s.round := by
      have hq := Rnd_round s 100
      rw [hrnd] at hq
      exact hq
    try dsimp only []
    rw [simDemonTrapLoop_round rest k]
    split_ifs <;> (try simp only [modifyField_round]) <;> exact hs2

theorem SimDemonTrap_round (s : State) (numToTrap : Int) :
    (SimDemonTrap s numToTrap).round = s.round := by
  rw [SimDemonTrap]
  rcases hp : PickNCards s s.field numToTrap with ⟨nt, trapped, s2⟩
  have hs2 : s2.round = s.round := by
    have hq := PickNCards_round s s.field numToTrap
    rw [hp] at hq
    exact hq
  try dsimp only []
  split_ifs
  · exact hs2
  · rw [simDemonTrapLoop_round]
    exact hs2

theorem simDemonAttrLoop_round (fuel : Nat) :
    ∀ (d i : Nat) (s : State), MAX_ATTR ≤ i + d →
      (simDemonAttrLoop fuel i s).round = s.round
  | 0, i, s, hd => by
    rw [simDemonAttrLoop, if_neg (by
      rintro ⟨-, h2⟩
      have h40 : (40 : Nat) ≤ i := hd
      have h2' : i < 40 := h2
      omega)]
  | d + 1, i, s, hd => by
    rw [simDemonAttrLoop]
    by_cases hc : i < s.demon.attr.length ∧ i < MAX_ATTR
    · rw [if_pos hc]
      by_cases hhp : s.hp ≤ 0
      · rw [if_pos hhp]
      · rw [if_neg hhp]
        try dsimp only []
        rw [simDemonAttrLoop_round fuel d (i + 1) _ (by omega)]
        cases hty : ((s.demon.attr[i]?.getD DeadAttr)).type <;> try rfl
        all_goals try dsimp only []
        -- remaining goals in constructor order: CURSE, DAMNATION, DESTROY,
        -- EXILE, FIRE_GOD, MANA_CORRUPT, SNIPE, TOXIC_CLOUDS, TRAP
        · exact DamagePlayer_round fuel s _
        · split_ifs
          · exact DamagePlayer_round fuel s _
          · rfl
        · rcases hpk : PickAliveCardFromSet s s.field with ⟨ri, s2⟩
          have hs2 : s2.round = s.round := by
            have hq := PickAliveCardFromSet_round s s.field
            rw [hpk] at hq
            exact hq
          try dsimp only []
          cases ri with
          | none => exact hs2
          | some ri =>
            try dsimp only []
            split_ifs <;>
              (try simp only [RemoveCard_round, modifyField_round]) <;>
              exact hs2
        · split_ifs <;> first | rfl | exact RemoveCard_round fuel s 0 false
        · exact simDemonFireGodLoop_round _ 20 0 s (by decide)
        · rcases hpk : PickAliveCardFromSet s s.field with ⟨ri, s2⟩
          have hs2 : s2.round = s.round := by
            have hq := PickAliveCardFromSet_round s s.field
            rw [hpk] at hq
            exact hq
          try dsimp only []
          cases ri with
          | none => exact hs2
          | some ri =>
            try dsimp only []
            split_ifs <;>
              (try simp only [RemoveCard_round, modifyField_round]) <;>
              exact hs2
        · rcases hfl : FindLowestHpCard s s.field false with ⟨ci, s2⟩
          have hs2 : s2.round = s.round := by
            have hq := FindLowestHpCard_round s s.field false
            rw [hfl] at hq
            exact hq
          try dsimp only []
          cases ci with
          | none => exact hs2
          | some ci =>
            try dsimp only []
            split_ifs <;>
              (try simp only [RemoveCard_round, modifyField_round]) <;>
              exact hs2
        · exact simDemonToxicLoop_round fuel _ 20 0 s (by decide)
        · exact SimDemonTrap_round s _
    · rw [if_neg hc]

theorem simDemonAttrLoop_round0 (fuel : Nat) (s : State) :
    (simDemonAttrLoop fuel 0 s).round = s.round :=
  simDemonAttrLoop_round fuel 40 0 s (by decide)

theorem SimDemon_round (fuel : Nat) (s : State) :
    (SimDemon fuel s).round = s.round := by
  rw [SimDemon]
  try dsimp only []
  split_ifs <;>
    first
      | rfl
      | simp only [RemoveDeadCards_round, SimDemonAttack_round,
          simDemonAttrLoop_round0]

theorem DecreaseTimers_round (s : State) : (DecreaseTimers s).round = s.round :=
  rfl

theorem PlayCardsFromDeck_round (s : State) :
    (PlayCardsFromDeck s).round = s.round := by
  rw [PlayCardsFromDeck]
  split_ifs <;> rfl

theorem playCardsFromHandLoop_round :
    ∀ (fuel i : Nat) (s : State), (playCardsFromHandLoop fuel i s).round = s.round
  | 0, i, s => by rw [playCardsFromHandLoop]
  | fuel + 1, i, s => by
    rw [playCardsFromHandLoop]
    try dsimp only []
    split_ifs
    · rw [playCardsFromHandLoop_round fuel, CardPlayedToField_round]
    · rw [playCardsFromHandLoop_round fuel]
    · rfl

theorem PlayCardsFromHand_round (fuel : Nat) (s : State) :
    (PlayCardsFromHand fuel s).round = s.round :=
  playCardsFromHandLoop_round fuel 0 s

theorem SimAdvancedStrike_round (s : State) :
    (SimAdvancedStrike s).round = s.round := by
  rw [SimAdvancedStrike]
  cases (sasScan s.hand 0 (-1) none).2 with
  | none => rfl
  | some hi =>
    try dsimp only []
    split_ifs <;> rfl

theorem spaPreAttackLoop_round (cfg : Config) (ba : Int) :
    ∀ (attrs : List Attr) (dmg : Int) (s : State),
      ((spaPreAttackLoop cfg ba attrs dmg s).2).round = s.round
  | [], dmg, s => rfl
  | a :: rest, dmg, s => by
    rw [spaPreAttackLoop]
    cases hty : a.type <;> try dsimp only [] <;>
      try exact spaPreAttackLoop_round cfg ba rest _ _
    all_goals try (split_ifs <;> exact spaPreAttackLoop_round cfg ba rest _ _)

theorem spaPostAttackLoop_round (dmg : Int) :
    ∀ (d ai : Nat) (s : State), MAX_ATTR ≤ ai + d →
      (spaPostAttackLoop dmg ai s).round = s.round
  | 0, ai, s, hd => by
    rw [spaPostAttackLoop, if_neg (by
      rintro ⟨-, h2⟩
      have h40 : (40 : Nat) ≤ ai := hd
      have h2' : ai < 40 := h2
      omega)]
  | d + 1, ai, s, hd => by
    rw [spaPostAttackLoop]
    by_cases hc : ai < (fieldGet s 0).attr.length ∧ ai < MAX_ATTR
    · rw [if_pos hc]
      rw [spaPostAttackLoop_round dmg d (ai + 1) _ (by omega)]
      cases ((fieldGet s 0).attr[ai]?.getD DeadAttr).type <;>
        try dsimp only [] <;> (try split_ifs) <;> rfl
    · rw [if_neg hc]

theorem spaPostAttackLoop_round0 (dmg : Int) (s : State) :
    (spaPostAttackLoop dmg 0 s).round = s.round :=
  spaPostAttackLoop_round dmg 40 0 s (by decide)

theorem spaCounterLoop_round (fuel ntc : Nat) (level : Int) :
    ∀ (d i : Nat) (s : State), ntc ≤ i + d →
      (spaCounterLoop fuel ntc level i s).round = s.round
  | 0, i, s, hd => by
    rw [spaCounterLoop, if_neg (by omega)]
  | d + 1, i, s, hd => by
    rw [spaCounterLoop]
    by_cases hi : i < ntc
    · rw [if_pos hi]
      by_cases hfl : s.field.length ≤ i
      · rw [if_pos hfl]
      · rw [if_neg hfl]
        try dsimp only []
        by_cases hhp : (fieldGet s i).hp ≤ 0
        · rw [if_pos hhp]
          exact spaCounterLoop_round fuel ntc level d (i + 1) s (by omega)
        · rw [if_neg hhp]
          cases hdx : HasAttr (fieldGet s i) .ATTR_DEXTERITY with
          | none =>
            try dsimp only []
            rw [if_neg (by decide)]
            try dsimp only []
            rw [spaCounterLoop_round fuel ntc level d (i + 1) _ (by omega)]
            split_ifs <;> (try simp only [RemoveCard_round, modifyField_round])
          | some lvl =>
            try dsimp only []
            rcases hrnd : Rnd s 100 with ⟨r, s2⟩
            have hs2 : s2.round = s.round := by
              have hq := Rnd_round s 100
              rw [hrnd] at hq
              exact hq
            try dsimp only []
            split_ifs <;>
              rw [spaCounterLoop_round fuel ntc level d (i + 1) _ (by omega)] <;>
              (try simp only [RemoveCard_round, modifyField_round]) <;>
              exact hs2
    · rw [if_neg hi]

theorem spaCounterLoop_round0 (fuel ntc : Nat) (level : Int) (s : State) :
    (spaCounterLoop fuel ntc level 0 s).round = s.round :=
  spaCounterLoop_round fuel ntc level ntc 0 s (by omega)

theorem spaWickedLeech_round (s : State) :
    (spaWickedLeech s).round = s.round := by
  rw [spaWickedLeech]
  cases HasAttr s.demon .ATTR_WICKED_LEECH <;> rfl

theorem SimPlayerAttack_round (cfg : Config) (fuel : Nat) (s : State) :
    (SimPlayerAttack cfg fuel s).round = s.round := by
  rw [SimPlayerAttack]
  by_cases h0 : s.field.length = 0
  · rw [if_pos h0]
  · rw [if_neg h0]
    by_cases hr : s.round < FIRST_PLAYER_ROUND
    · rw [if_pos hr]
    · rw [if_neg hr]
      try dsimp only []
      rcases hrv : spaRevivalLoop (fieldGet s 0).attr (fieldGet s 0).atk
          (fieldGet s 0).curBaseAtk with ⟨dmg1, ba1⟩
      try dsimp only []
      rcases hpre : spaPreAttackLoop cfg ba1 (fieldGet s 0).attr dmg1 s
          with ⟨dmg2, s2⟩
      have hs2 : s2.round = s.round := by
        have hq := spaPreAttackLoop_round cfg ba1 (fieldGet s 0).attr dmg1 s
        rw [hpre] at hq
        exact hq
      try dsimp only []
      by_cases hz : ReducePhysDmg s2.demon dmg2 ≤ 0
      · rw [if_pos hz]
        exact hs2
      · rw [if_neg hz]
        try dsimp only []
        split_ifs <;>
          simp only [spaWickedLeech_round, spaCounterLoop_round0,
            spaPostAttackLoop_round0] <;>
          exact hs2

theorem spcMainLoop_round (cfg : Config) (fuel : Nat) (cardNum : Nat) :
    ∀ (d ai : Nat) (s : State), MAX_ATTR ≤ ai + d →
      (spcMainLoop cfg fuel cardNum ai s).round = s.round
  | 0, ai, s, hd => by
    rw [spcMainLoop, if_neg (by
      rintro ⟨-, h2⟩
      have h40 : (40 : Nat) ≤ ai := hd
      have h2' : ai < 40 := h2
      omega)]
  | d + 1, ai, s, hd => by
    rw [spcMainLoop]
    by_cases hc : ai < (fieldGet s cardNum).attr.length ∧ ai < MAX_ATTR
    · rw [if_pos hc]
      rw [spcMainLoop_round cfg fuel cardNum d (ai + 1) _ (by omega)]
      cases hty : ((fieldGet s cardNum).attr[ai]?.getD DeadAttr).type <;> try rfl
      all_goals try dsimp only []
      -- remaining goals in constructor order (REGENERATE closes by rfl):
      -- ADVANCED_STRIKE, HEALING, MANA_CORRUPT, MANIA, PRAYER, REANIMATE,
      -- REINCARNATE, SNIPE, FLYING_STONE
      · exact SimAdvancedStrike_round s
      · exact SimHealing_round s _
      · split_ifs <;> rfl
      · split_ifs <;> (try simp only [RemoveCard_round, modifyField_round])
      · exact SimPrayer_round s _
      · exact SimReanimate_round fuel s
      · exact SimReincarnate_round s _
      · split_ifs <;> rfl
      · split_ifs <;> rfl
    · rw [if_neg hc]

theorem spcMainLoop_round0 (cfg : Config) (fuel : Nat) (cardNum : Nat)
    (s : State) : (spcMainLoop cfg fuel cardNum 0 s).round = s.round :=
  spcMainLoop_round cfg fuel cardNum 40 0 s (by decide)

theorem spcStatusLoop_round (fuel : Nat) (cardNum : Nat) :
    ∀ (d ai : Nat) (s : State), MAX_ATTR ≤ ai + d →
      (spcStatusLoop fuel cardNum ai s).round = s.round
  | 0, ai, s, hd => by
    rw [spcStatusLoop, if_neg (by
      rintro ⟨-, h2⟩
      have h40 : (40 : Nat) ≤ ai := hd
      have h2' : ai < 40 := h2
      omega)]
  | d + 1, ai, s, hd => by
    rw [spcStatusLoop]
    by_cases hc : ai < (fieldGet s cardNum).attr.length ∧ ai < MAX_ATTR
    · rw [if_pos hc]
      rw [spcStatusLoop_round fuel cardNum d (ai + 1) _ (by omega)]
      cases hty : ((fieldGet s cardNum).attr[ai]?.getD DeadAttr).type <;> try rfl
      all_goals try dsimp only []
      all_goals split_ifs <;>
        (try simp only [RemoveCard_round, modifyField_round])
    · rw [if_neg hc]

theorem spcStatusLoop_round0 (fuel : Nat) (cardNum : Nat) (s : State) :
    (spcStatusLoop fuel cardNum 0 s).round = s.round :=
  spcStatusLoop_round fuel cardNum 40 0 s (by decide)

theorem spcHealLoop_round (trapped : Bool) (cardNum : Nat) :
    ∀ (d ai : Nat) (s : State), MAX_ATTR ≤ ai + d →
      (spcHealLoop trapped cardNum ai s).round = s.round
  | 0, ai, s, hd => by
    rw [spcHealLoop, if_neg (by
      rintro ⟨-, h2⟩
      have h40 : (40 : Nat) ≤ ai := hd
      have h2' : ai < 40 := h2
      omega)]
  | d + 1, ai, s, hd => by
    rw [spcHealLoop]
    by_cases hc : ai < (fieldGet s cardNum).attr.length ∧ ai < MAX_ATTR
    · rw [if_pos hc]
      rw [spcHealLoop_round trapped cardNum d (ai + 1) _ (by omega)]
      cases hty : ((fieldGet s cardNum).attr[ai]?.getD DeadAttr).type <;> try rfl
      all_goals try dsimp only []
      all_goals split_ifs <;> (try simp only [modifyField_round])
    · rw [if_neg hc]

theorem spcHealLoop_round0 (trapped : Bool) (cardNum : Nat) (s : State) :
    (spcHealLoop trapped cardNum 0 s).round = s.round :=
  spcHealLoop_round trapped cardNum 40 0 s (by decide)

theorem SimPlayerCard_round (cfg : Config) (fuel : Nat) (s : State)
    (cardNum : Nat) : (SimPlayerCard cfg fuel s cardNum).round = s.round := by
  rw [SimPlayerCard]
  try dsimp only []
  split_ifs <;>
    first
      | rfl
      | simp only [spcHealLoop_round0, spcStatusLoop_round0,
          SimPlayerAttack_round, spcMainLoop_round0, modifyField_round]

theorem springBreezeEndLoop_round (level : Int) :
    ∀ (d j : Nat) (s : State), MAX_CARDS_IN_SET ≤ j + d →
      (springBreezeEndLoop level j s).round = s.round
  | 0, j, s, hd => by
    rw [springBreezeEndLoop, if_neg (by
      rintro ⟨-, h2⟩
      have h20 : (20 : Nat) ≤ j := hd
      have h2' : j < 20 := h2
      omega)]
  | d + 1, j, s, hd => by
    rw [springBreezeEndLoop]
    by_cases hc : j < s.field.length ∧ j < MAX_CARDS_IN_SET
    · rw [if_pos hc]
      rw [springBreezeEndLoop_round level d (j + 1) _ (by omega)]
      split_ifs <;> (try simp only [modifyField_round])
    · rw [if_neg hc]

theorem springBreezeStartLoop_round (level : Int) :
    ∀ (d j : Nat) (s : State), MAX_CARDS_IN_SET ≤ j + d →
      (springBreezeStartLoop level j s).round = s.round
  | 0, j, s, hd => by
    rw [springBreezeStartLoop, if_neg (by
      rintro ⟨-, h2⟩
      have h20 : (20 : Nat) ≤ j := hd
      have h2' : j < 20 := h2
      omega)]
  | d + 1, j, s, hd => by
    rw [springBreezeStartLoop]
    by_cases hc : j < s.field.length ∧ j < MAX_CARDS_IN_SET
    · rw [if_pos hc]
      rw [springBreezeStartLoop_round level d (j + 1) _ (by omega)]
      rfl
    · rw [if_neg hc]

theorem handleRunesDeactLoop_round :
    ∀ (d i : Nat) (s : State), MAX_RUNES ≤ i + d →
      (handleRunesDeactLoop i s).round = s.round
  | 0, i, s, hd => by
    rw [handleRunesDeactLoop, if_neg (by
      rintro ⟨-, h2⟩
      have h4 : (4 : Nat) ≤ i := hd
      have h2' : i < 4 := h2
      omega)]
  | d + 1, i, s, hd => by
    rw [handleRunesDeactLoop]
    by_cases hc : i < s.runes.length ∧ i < MAX_RUNES
    · rw [if_pos hc]
      by_cases hu : !(s.runes[i]?.getD NullRune).usedThisRound
      · rw [if_pos hu]
        exact handleRunesDeactLoop_round d (i + 1) s (by omega)
      · rw [if_neg hu]
        rw [handleRunesDeactLoop_round d (i + 1) _ (by omega)]
        cases hty : (s.runes[i]?.getD NullRune).attr.type <;> try rfl
        all_goals try dsimp only []
        all_goals
          exact springBreezeEndLoop_round _ 20 0 _ (by decide)
    · rw [if_neg hc]

theorem handleRunesActLoop_round :
    ∀ (d i : Nat) (s : State), MAX_RUNES ≤ i + d →
      (handleRunesActLoop i s).round = s.round
  | 0, i, s, hd => by
    rw [handleRunesActLoop, if_neg (by
      rintro ⟨-, h2⟩
      have h4 : (4 : Nat) ≤ i := hd
      have h2' : i < 4 := h2
      omega)]
  | d + 1, i, s, hd => by
    rw [handleRunesActLoop]
    by_cases hc : i < s.runes.length ∧ i < MAX_RUNES
    · rw [if_pos hc]
      by_cases hu : (s.runes[i]?.getD NullRune).maxCharges ≤
          (s.runes[i]?.getD NullRune).chargesUsed
      · rw [if_pos hu]
        exact handleRunesActLoop_round d (i + 1) s (by omega)
      · rw [if_neg hu]
        rw [handleRunesActLoop_round d (i + 1) _ (by omega)]
        cases hty : (s.runes[i]?.getD NullRune).attr.type <;> try rfl
        all_goals try dsimp only []
        all_goals try (split_ifs <;> rfl)
        all_goals split_ifs <;>
          first
            | rfl
            | exact springBreezeStartLoop_round _ 20 0 _ (by decide)
    · rw [if_neg hc]

theorem HandleRunes_round (s : State) : (HandleRunes s).round = s.round := by
  rw [HandleRunes, handleRunesActLoop_round 4 0 _ (by decide),
      handleRunesDeactLoop_round 4 0 _ (by decide)]

theorem simPlayerCardLoop_round (cfg : Config) (fuel : Nat) :
    ∀ (d i : Nat) (s : State), MAX_CARDS_IN_SET ≤ i + d →
      (simPlayerCardLoop cfg fuel i s).round = s.round
  | 0, i, s, hd => by
    rw [simPlayerCardLoop, if_neg (by
      rintro ⟨-, h2⟩
      have h20 : (20 : Nat) ≤ i := hd
      have h2' : i < 20 := h2
      omega)]
  | d + 1, i, s, hd => by
    rw [simPlayerCardLoop]
    by_cases hc : i < s.field.length ∧ i < MAX_CARDS_IN_SET
    · rw [if_pos hc]
      rw [simPlayerCardLoop_round cfg fuel d (i + 1) _ (by omega)]
      exact SimPlayerCard_round cfg fuel s i
    · rw [if_neg hc]

theorem backstabStripLoop_round :
    ∀ (d i : Nat) (s : State), MAX_CARDS_IN_SET ≤ i + d →
      (backstabStripLoop i s).round = s.round
  | 0, i, s, hd => by
    rw [backstabStripLoop, if_neg (by
      rintro ⟨-, h2⟩
      have h20 : (20 : Nat) ≤ i := hd
      have h2' : i < 20 := h2
      omega)]
  | d + 1, i, s, hd => by
    rw [backstabStripLoop]
    by_cases hc : i < s.field.length ∧ i < MAX_CARDS_IN_SET
    · rw [if_pos hc]
      rw [backstabStripLoop_round d (i + 1) _ (by omega)]
      cases hb : HasAttr (fieldGet s i) .ATTR_BACKSTAB_BUFF <;> rfl
    · rw [if_neg hc]

theorem SimPlayer_round (cfg : Config) (fuel : Nat) (s : State) :
    (SimPlayer cfg fuel s).round = s.round := by
  rw [SimPlayer, RemoveDeadCards_round, backstabStripLoop_round 20 0 _ (by decide),
      simPlayerCardLoop_round cfg fuel 20 0 _ (by decide), HandleRunes_round]

theorem SimulateLoop_exit (cfg : Config) (fuel : Nat) (x : Int) :
    ∀ (rf : Nat) (s : State) (hit : Bool),
      (cfg.maxRounds + 1 - s.round).toNat < rf →
      ¬(0 < (SimulateLoop cfg fuel x rf s hit).1.hp ∧
        ((SimulateLoop cfg fuel x rf s hit).1.field.length ≠ 0 ∨
         (SimulateLoop cfg fuel x rf s hit).1.deck.length ≠ 0 ∨
         (SimulateLoop cfg fuel x rf s hit).1.hand.length ≠ 0) ∧
        (SimulateLoop cfg fuel x rf s hit).1.round ≤ cfg.maxRounds)
  | 0, s, hit, hf => absurd hf (by omega)
  | rf + 1, s, hit, hf => by
    rw [SimulateLoop]
    by_cases hg : 0 < s.hp ∧ (s.field.length ≠ 0 ∨ s.deck.length ≠ 0 ∨
        s.hand.length ≠ 0) ∧ s.round ≤ cfg.maxRounds
    · rw [if_pos hg]
      have hle : s.round ≤ cfg.maxRounds := hg.2.2
      by_cases hpar : (DecreaseTimers s).round % 2 = 0
      · rw [if_pos hpar]
        by_cases hhp :
            (PlayCardsFromHand fuel (PlayCardsFromDeck (DecreaseTimers s))).hp ≤ 0
        · rw [if_pos hhp]
          dsimp only []
          rintro ⟨h1, -, -⟩
          omega
        · rw [if_neg hhp]
          exact SimulateLoop_exit cfg fuel x rf _ _ (by
            dsimp only []
            rw [SimPlayer_round, PlayCardsFromHand_round, PlayCardsFromDeck_round,
                DecreaseTimers_round]
            omega)
      · rw [if_neg hpar]
        exact SimulateLoop_exit cfg fuel x rf _ _ (by
          dsimp only []
          rw [SimDemon_round, DecreaseTimers_round]
          omega)
    · rw [if_neg hg]
      exact hg

/-- C1 (amended): the `while` loop of `Simulate` stops exactly when the
hero's hit points have run out, or the field, the deck, and the hand are
simultaneously empty (the graveyard takes no part in the test), or the
round counter exceeds the configured ceiling; on exit `Simulate` decrements
the round counter by exactly one.  The loop's fuel is the one `Simulate`
supplies. -/
theorem C1_loop_termination (cfg : Config) (fuel : Nat) (x : Int) (s : State) :
    ∃ (t : State) (hit : Bool),
      SimulateLoop cfg fuel x ((cfg.maxRounds + 1 - s.round).toNat + 1) s false
        = (t, hit) ∧
      ¬(0 < t.hp ∧ (t.field.length ≠ 0 ∨ t.deck.length ≠ 0 ∨ t.hand.length ≠ 0) ∧
          t.round ≤ cfg.maxRounds) ∧
      (¬(0 < s.hp ∧ (s.field.length ≠ 0 ∨ s.deck.length ≠ 0 ∨ s.hand.length ≠ 0) ∧
          s.round ≤ cfg.maxRounds) → t = s ∧ hit = false) ∧
      Simulate cfg fuel s x = ({ t with round := t.round - 1 }, hit) := by
  refine ⟨(SimulateLoop cfg fuel x ((cfg.maxRounds + 1 - s.round).toNat + 1) s
      false).1,
    (SimulateLoop cfg fuel x ((cfg.maxRounds + 1 - s.round).toNat + 1) s
      false).2, rfl, ?_, ?_, rfl⟩
  · exact SimulateLoop_exit cfg fuel x _ s false (by omega)
  · intro h
    rw [SimulateLoop, if_neg h]
    exact ⟨rfl, rfl⟩

/-- A state whose field, deck, and hand are empty but whose graveyard is
occupied, with a live hero inside the round ceiling. -/
def c1cexS : State := { wState [] with grave := [wCard 1 1 1 1 []] }

/-- Counterexample to C1 as stated: the loop guard tests only three of the
four rosters — with field, deck, and hand empty the loop exits at once even
though the graveyard is occupied, the hero lives, and the round is within
the ceiling, so "all four rosters simultaneously empty" is not the exit
condition. -/
theorem C1_counterexample :
    ∃ (cfg : Config) (fuel : Nat) (x : Int) (s : State),
      0 < s.hp ∧ s.grave.length ≠ 0 ∧ s.round ≤ cfg.maxRounds ∧
      (SimulateLoop cfg fuel x ((cfg.maxRounds + 1 - s.round).toNat + 1) s
        false).1 = s := by
  refine ⟨⟨10, false⟩, 1, 3, c1cexS, by decide, by decide, by decide, ?_⟩
  rw [SimulateLoop, if_neg (by decide)]

/-- A state with an attribute-free attacker at the front whose attack
exceeds the demon's remaining hit points. -/
def c2cexS : State :=
  { wState [wCard 50 50 5 5 []] with demon := wCard 10 10 8 8 [], round := 6 }

/-- Counterexample to C2 as stated: the demon's hit points are never
clamped — the front card's physical attack drives them below zero at a
reachable point (the attack step of an ordinary player round), so
`0 ≤ hitPoints` does not hold for the boss. -/
theorem C2_counterexample :
    ∃ (cfg : Config) (fuel : Nat) (s : State),
      0 ≤ s.demon.hp ∧ (SimPlayerAttack cfg fuel s).demon.hp < 0 := by
  refine ⟨⟨10, false⟩, 1, c2cexS, by decide, ?_⟩
  rw [SimPlayerAttack, if_neg (by decide), if_neg (by decide)]
  dsimp only [c2cexS, wState, wCard]
  norm_num [fieldGet, spaRevivalLoop, spaPreAttackLoop, ReducePhysDmg,
    reducePhysDmgLoop, HasAttr, hasAttrList, DeadCard, DeadAttr]
  rw [spaPostAttackLoop]
  norm_num [fieldGet, hasAttrList, DeadCard, DeadAttr]
  rw [spaCounterLoop]
  norm_num [fieldGet, spaWickedLeech, HasAttr, hasAttrList, DeadCard, DeadAttr]

theorem SimDemonLacerate_hp (c : Card) : (SimDemonLacerate c).hp = c.hp := by
  rw [SimDemonLacerate]
  split_ifs <;> rfl

theorem modifyField_dead (t : State) (idx : Nat) :
    fieldGet (modifyField t idx (fun _ => DeadCard)) idx = DeadCard := by
  simp only [fieldGet, modifyField]
  rw [listModify_get_self]
  cases t.field[idx]? <;> rfl

/-- The attribute types with side effects in the attribute loop of C
`RemoveCard`: the class hp/attack abilities strip the matching buff from
the rest of the field, and the desperation abilities fire on death. -/
def strippedTypes : List AttrType :=
  [.ATTR_TUNDRA_HP, .ATTR_FOREST_HP, .ATTR_MTN_HP, .ATTR_SWAMP_HP,
   .ATTR_TUNDRA_ATK, .ATTR_FOREST_ATK, .ATTR_MTN_ATK, .ATTR_SWAMP_ATK,
   .ATTR_D_PRAYER, .ATTR_D_REANIMATE, .ATTR_D_REINCARNATE]

/-- A card none of whose attributes triggers a buff strip or a desperation
ability on death (its removal touches no other card). -/
def benignCard (c : Card) : Prop := ∀ a ∈ c.attr, a.type ∉ strippedTypes

/-- The hit-point invariant of a single card. -/
def boundedCard (c : Card) : Prop := 0 ≤ c.hp ∧ c.hp ≤ c.maxHp

/-- Every field card is benign. -/
def benignField (s : State) : Prop := ∀ c ∈ s.field, benignCard c

/-- Every field card satisfies `0 ≤ hp ≤ maxHp`. -/
def boundedField (s : State) : Prop := ∀ c ∈ s.field, boundedCard c

instance (c : Card) : Decidable (benignCard c) :=
  inferInstanceAs (Decidable (∀ a ∈ c.attr, a.type ∉ strippedTypes))

instance (c : Card) : Decidable (boundedCard c) :=
  inferInstanceAs (Decidable (0 ≤ c.hp ∧ c.hp ≤ c.maxHp))

instance (s : State) : Decidable (benignField s) :=
  inferInstanceAs (Decidable (∀ c ∈ s.field, benignCard c))

instance (s : State) : Decidable (boundedField s) :=
  inferInstanceAs (Decidable (∀ c ∈ s.field, boundedCard c))

theorem benignField_get {s : State} (h : benignField s) (j : Nat) :
    benignCard (fieldGet s j) := by
  rw [fieldGet]
  cases hg : s.field[j]? with
  | none => exact (by decide : benignCard DeadCard)
  | some c => exact h c (List.getElem?_mem hg)

theorem boundedField_get {s : State} (h : boundedField s) (j : Nat) :
    boundedCard (fieldGet s j) := by
  rw [fieldGet]
  cases hg : s.field[j]? with
  | none => exact (by decide : boundedCard DeadCard)
  | some c => exact h c (List.getElem?_mem hg)

theorem benignField_of_get {s : State} (h : ∀ j, benignCard (fieldGet s j)) :
    benignField s := by
  intro c hc
  obtain ⟨j, hj⟩ := List.getElem?_of_mem hc
  have := h j
  rwa [fieldGet, hj] at this

theorem boundedField_of_get {s : State} (h : ∀ j, boundedCard (fieldGet s j)) :
    boundedField s := by
  intro c hc
  obtain ⟨j, hj⟩ := List.getElem?_of_mem hc
  have := h j
  rwa [fieldGet, hj] at this

theorem benignField_congr {s s' : State} (hf : s'.field = s.field)
    (h : benignField s) : benignField s' := by
  intro c hc
  exact h c (hf ▸ hc)

theorem boundedField_congr {s s' : State} (hf : s'.field = s.field)
    (h : boundedField s) : boundedField s' := by
  intro c hc
  exact h c (hf ▸ hc)

theorem fieldGet_modifyField_getD (s : State) (i : Nat) (f : Card → Card) :
    fieldGet (modifyField s i f) i = (s.field[i]?.map f).getD DeadCard := by
  simp only [fieldGet, modifyField]
  rw [listModify_get_self]

theorem boundedField_modify_at (s : State) (i : Nat) (f : Card → Card)
    (hb : boundedField s)
    (hf : boundedCard (fieldGet s i) → boundedCard (f (fieldGet s i))) :
    boundedField (modifyField s i f) := by
  refine boundedField_of_get (fun j => ?_)
  by_cases hj : j = i
  · subst hj
    rw [fieldGet_modifyField_getD]
    cases hg : s.field[j]? with
    | none => exact (by decide : boundedCard DeadCard)
    | some c =>
      have hc : fieldGet s j = c := by rw [fieldGet, hg]; rfl
      have := hf (boundedField_get hb j)
      rw [hc] at this
      exact this
  · rw [fieldGet_modifyField_other _ _ _ _ hj]
    exact boundedField_get hb j

theorem benignField_modify_at (s : State) (i : Nat) (f : Card → Card)
    (hb : benignField s)
    (hf : benignCard (fieldGet s i) → benignCard (f (fieldGet s i))) :
    benignField (modifyField s i f) := by
  refine benignField_of_get (fun j => ?_)
  by_cases hj : j = i
  · subst hj
    rw [fieldGet_modifyField_getD]
    cases hg : s.field[j]? with
    | none => exact (by decide : benignCard DeadCard)
    | some c =>
      have hc : fieldGet s j = c := by rw [fieldGet, hg]; rfl
      have := hf (benignField_get hb j)
      rw [hc] at this
      exact this
  · rw [fieldGet_modifyField_other _ _ _ _ hj]
    exact benignField_get hb j

theorem listModify_comp (f g : α → α) (n : Nat) (l : List α) :
    listModify g n (listModify f n l) = listModify (fun x => g (f x)) n l := by
  induction l generalizing n with
  | nil => cases n <;> rfl
  | cons a rest ih => cases n <;> simp [listModify, ih]

theorem modifyField_comp (s : State) (i : Nat) (f g : Card → Card) :
    modifyField (modifyField s i f) i g = modifyField s i (fun c => g (f c)) := by
  simp only [modifyField]
  rw [listModify_comp]

theorem removeAttrList_mem {a : Attr} :
    ∀ (attrs : List Attr) (t : AttrType) (lvl : Int),
      a ∈ removeAttrList attrs t lvl → a ∈ attrs
  | [], t, lvl, h => h
  | x :: rest, t, lvl, h => by
    rw [removeAttrList] at h
    split_ifs at h with h1 h2
    · exact List.mem_cons_of_mem _ (removeAttrList_mem rest t lvl h)
    · exact List.mem_cons_of_mem _ h
    · rcases List.mem_cons.1 h with h3 | h3
      · exact List.mem_cons.2 (Or.inl h3)
      · exact List.mem_cons_of_mem _ (removeAttrList_mem rest t lvl h3)

theorem benignCard_AddAttr {c : Card} {a : Attr} (hb : benignCard c)
    (ha : a.type ∉ strippedTypes) : benignCard (AddAttr c a) := by
  intro x hx
  rcases List.mem_append.1 hx with hx | hx
  · exact hb x hx
  · rcases List.mem_singleton.1 hx with rfl
    exact ha

theorem benignCard_RemoveAttr {c : Card} (hb : benignCard c) (t : AttrType)
    (lvl : Int) : benignCard (RemoveAttr c t lvl) := by
  intro x hx
  exact hb x (removeAttrList_mem _ _ _ hx)

theorem removeCardAttrLoop_id (fuel : Nat) (idx : Nat) (b : Bool) :
    ∀ (attrs : List Attr) (s : State), (∀ a ∈ attrs, a.type ∉ strippedTypes) →
      removeCardAttrLoop fuel s idx b attrs = s
  | [], _, _ => by rw [removeCardAttrLoop]
  | a :: rest, s, h => by
    have ha := h a (List.mem_cons_self a rest)
    have hrest : ∀ x ∈ rest, x.type ∉ strippedTypes :=
      fun x hx => h x (List.mem_cons_of_mem a hx)
    rw [removeCardAttrLoop]
    cases hty : a.type
    all_goals try dsimp only []
    all_goals first
      | exact removeCardAttrLoop_id fuel idx b rest s hrest
      | (rw [hty] at ha; exact absurd (by decide) ha)

theorem rcDestRoll_frame (o : Option Int) (dflt : RCDest) (t : State) :
    (rcDestRoll o dflt t).2.field = t.field ∧
    (rcDestRoll o dflt t).2.demon = t.demon := by
  cases o with
  | none => exact ⟨rfl, rfl⟩
  | some l =>
    dsimp only [rcDestRoll, Rnd, myRand]
    split_ifs <;> exact ⟨rfl, rfl⟩

theorem rcPlaceCopy_frame (dest : RCDest) (copy : Card) (s : State) :
    (rcPlaceCopy dest copy s).field = s.field ∧
    (rcPlaceCopy dest copy s).demon = s.demon := by
  cases dest <;> exact ⟨rfl, rfl⟩

theorem AddCardToSetRandomly_frame (s : State) (cs : List Card) (c : Card) :
    (AddCardToSetRandomly s cs c).2.field = s.field ∧
    (AddCardToSetRandomly s cs c).2.demon = s.demon :=
  ⟨rfl, rfl⟩

theorem RemoveCard_bb (fuel : Nat) (s : State) (idx : Nat) (b : Bool)
    (hben : benignField s) (hbnd : boundedField s) :
    boundedField (RemoveCard fuel s idx b) ∧
    benignField (RemoveCard fuel s idx b) ∧
    (RemoveCard fuel s idx b).demon = s.demon := by
  cases fuel with
  | zero =>
    rw [show RemoveCard 0 s idx b = s from by rw [RemoveCard]]
    exact ⟨hbnd, hben, rfl⟩
  | succ fl =>
    have hben1 : benignField (modifyField s idx
        (fun c => AddAttr { c with hp := 0 } DeadAttr)) :=
      benignField_modify_at s idx _ hben
        (fun hc => benignCard_AddAttr hc (by decide))
    have hbnd1 : boundedField (modifyField s idx
        (fun c => AddAttr { c with hp := 0 } DeadAttr)) :=
      boundedField_modify_at s idx _ hbnd
        (fun hc => ⟨le_refl 0, le_trans hc.1 hc.2⟩)
    have hdS : (modifyField s idx
        (fun c => AddAttr { c with hp := 0 } DeadAttr)).demon = s.demon := rfl
    rw [RemoveCard]
    rw [removeCardAttrLoop_id fl idx b _ _ (benignField_get hben1 idx)]
    generalize hS : modifyField s idx
        (fun c => AddAttr { c with hp := 0 } DeadAttr) = S1 at hben1 hbnd1 hdS ⊢
    by_cases hb : b = true
    · rw [if_pos hb]
      split
      rename_i dest1 t1 heq1
      obtain ⟨hfr1, hdr1⟩ :=
        rcDestRoll_frame (HasAttr (fieldGet S1 idx) .ATTR_DIRT) RCDest.grave S1
      rw [heq1] at hfr1 hdr1
      dsimp only [] at hfr1 hdr1
      split
      rename_i dest2 t2 heq2
      obtain ⟨hfr2, hdr2⟩ :=
        rcDestRoll_frame (HasAttr (fieldGet S1 idx) .ATTR_RESURRECTION) dest1 t1
      rw [heq2] at hfr2 hdr2
      dsimp only [] at hfr2 hdr2
      have hfX : (rcPlaceCopy dest2 (InitCard (fieldGet S1 idx)) t2).field
          = S1.field := by
        rw [(rcPlaceCopy_frame _ _ _).1, hfr2, hfr1]
      refine ⟨boundedField_modify_at _ idx _ (boundedField_congr hfX hbnd1)
          (fun _ => by decide),
        benignField_modify_at _ idx _ (benignField_congr hfX hben1)
          (fun _ => by decide), ?_⟩
      show (rcPlaceCopy dest2 (InitCard (fieldGet S1 idx)) t2).demon = s.demon
      rw [(rcPlaceCopy_frame _ _ _).2, hdr2, hdr1, hdS]
    · rw [if_neg hb]
      split
      rename_i nd t3 heq3
      obtain ⟨hfr3, hdr3⟩ :=
        AddCardToSetRandomly_frame S1 S1.deck (InitCard (fieldGet S1 idx))
      rw [heq3] at hfr3 hdr3
      dsimp only [] at hfr3 hdr3
      have hfX : ({ t3 with deck := nd } : State).field = S1.field := hfr3
      refine ⟨boundedField_modify_at _ idx _ (boundedField_congr hfX hbnd1)
          (fun _ => by decide),
        benignField_modify_at _ idx _ (benignField_congr hfX hben1)
          (fun _ => by decide), ?_⟩
      show ({ t3 with deck := nd } : State).demon = s.demon
      show t3.demon = s.demon
      rw [hdr3, hdS]

theorem RemoveCard_dead (fl : Nat) (s : State) (idx : Nat) (b : Bool) :
    fieldGet (RemoveCard (fl + 1) s idx b) idx = DeadCard := by
  rw [RemoveCard]
  by_cases hb : b = true
  · rw [if_pos hb]
    split
    split
    exact modifyField_dead _ _
  · rw [if_neg hb]
    split
    exact modifyField_dead _ _

theorem bounded_SimDemonLacerate {c : Card} (hc : boundedCard c) :
    boundedCard (SimDemonLacerate c) := by
  rw [SimDemonLacerate]
  split_ifs
  · exact hc
  · exact hc

theorem benign_SimDemonLacerate {c : Card} (hc : benignCard c) :
    benignCard (SimDemonLacerate c) := by
  rw [SimDemonLacerate]
  split_ifs
  · exact hc
  · exact benignCard_AddAttr hc (by decide)

theorem damageCardTriggerLoop_bb (cardIdx : Nat) :
    ∀ (d ai : Nat) (s : State), MAX_ATTR ≤ ai + d →
      benignField s → boundedField s →
      boundedField (damageCardTriggerLoop cardIdx ai s) ∧
      benignField (damageCardTriggerLoop cardIdx ai s)
  | 0, ai, s, hd, hben, hbnd => by
    rw [damageCardTriggerLoop, if_neg (by
      rintro ⟨-, h2⟩
      have h40 : (40 : Nat) ≤ ai := hd
      have h2' : ai < 40 := h2
      omega)]
    exact ⟨hbnd, hben⟩
  | d + 1, ai, s, hd, hben, hbnd => by
    rw [damageCardTriggerLoop]
    by_cases hc : ai < (fieldGet s cardIdx).attr.length ∧ ai < MAX_ATTR
    · rw [if_pos hc]
      dsimp only []
      split
      all_goals first
        | exact damageCardTriggerLoop_bb cardIdx d (ai + 1) _ (by omega) hben hbnd
        | exact damageCardTriggerLoop_bb cardIdx d (ai + 1) _ (by omega)
            (benignField_modify_at _ _ _ hben (fun hc => hc))
            (boundedField_modify_at _ _ _ hbnd (fun hc => hc))
    · rw [if_neg hc]
      exact ⟨hbnd, hben⟩


theorem dodgeRoll_field (o : Option Int) (t : State) :
    (dodgeRoll o t).2.field = t.field := by
  cases o <;> rfl

theorem DamageCard_bb (fuel : Nat) (s : State) (i : Nat) (dmg : Int)
    (hben : benignField s) (hbnd : boundedField s) :
    boundedField (DamageCard fuel s i dmg).2 ∧
    benignField (DamageCard fuel s i dmg).2 := by
  rw [DamageCard]
  rcases hdr : dodgeRoll (HasAttr (fieldGet s i) .ATTR_NIMBLE_SOUL) s with ⟨d1, s1⟩
  have hf1 : s1.field = s.field := by
    have h' := congrArg (fun p => (Prod.snd p).field) hdr
    dsimp only [] at h'
    rw [← h']
    exact dodgeRoll_field _ _
  have hben1 : benignField s1 := benignField_congr hf1 hben
  have hbnd1 : boundedField s1 := boundedField_congr hf1 hbnd
  dsimp only []
  by_cases hb1 : d1 = true
  · rw [if_pos hb1]
    exact ⟨hbnd1, hben1⟩
  · rw [if_neg hb1]
    rcases hdr2 : dodgeRoll (HasAttr (fieldGet s1 i) .ATTR_DODGE) s1 with ⟨d2, s2⟩
    have hf2 : s2.field = s1.field := by
      have h' := congrArg (fun p => (Prod.snd p).field) hdr2
      dsimp only [] at h'
      rw [← h']
      exact dodgeRoll_field _ _
    have hben2 : benignField s2 := benignField_congr hf2 hben1
    have hbnd2 : boundedField s2 := boundedField_congr hf2 hbnd1
    dsimp only []
    by_cases hb2 : d2 = true
    · rw [if_pos hb2]
      exact ⟨hbnd2, hben2⟩
    · rw [if_neg hb2]
      by_cases hdm : ReducePhysDmg (fieldGet s2 i) dmg ≤ 0
      · rw [if_pos hdm]
        exact ⟨hbnd2, hben2⟩
      · rw [if_neg hdm]
        have hD : 0 < ReducePhysDmg (fieldGet s2 i) dmg := by omega
        dsimp only []
        rw [modifyField_comp]
        have hben3 : benignField (modifyField s2 i (fun c =>
            if ({ c with hp := c.hp - ReducePhysDmg (fieldGet s2 i) dmg } : Card).hp ≤ 0
            then { { c with hp := c.hp - ReducePhysDmg (fieldGet s2 i) dmg } with hp := 0 }
            else { c with hp := c.hp - ReducePhysDmg (fieldGet s2 i) dmg })) :=
          benignField_modify_at _ _ _ hben2 (fun hc => by
            split_ifs <;> exact hc)
        have hbnd3 : boundedField (modifyField s2 i (fun c =>
            if ({ c with hp := c.hp - ReducePhysDmg (fieldGet s2 i) dmg } : Card).hp ≤ 0
            then { { c with hp := c.hp - ReducePhysDmg (fieldGet s2 i) dmg } with hp := 0 }
            else { c with hp := c.hp - ReducePhysDmg (fieldGet s2 i) dmg })) :=
          boundedField_modify_at _ _ _ hbnd2 (fun hc => by
            obtain ⟨hc1, hc2⟩ := hc
            split_ifs with hsp
            · exact ⟨le_refl 0, le_trans hc1 hc2⟩
            · dsimp only [] at hsp
              refine ⟨?_, ?_⟩
              · show 0 ≤ (fieldGet s2 i).hp - ReducePhysDmg (fieldGet s2 i) dmg
                omega
              · show (fieldGet s2 i).hp - ReducePhysDmg (fieldGet s2 i) dmg ≤
                  (fieldGet s2 i).maxHp
                omega)
        obtain ⟨hbnd4, hben4⟩ := damageCardTriggerLoop_bb i 40 0 _ (by decide)
          hben3 hbnd3
        obtain ⟨hrcA, hrcB, -⟩ := RemoveCard_bb fuel _ i true hben4 hbnd4
        split
        · split
          · exact ⟨boundedField_modify_at _ _ _ hrcA bounded_SimDemonLacerate,
                   benignField_modify_at _ _ _ hrcB benign_SimDemonLacerate⟩
          · exact ⟨hrcA, hrcB⟩
        · split
          · exact ⟨boundedField_modify_at _ _ _ hbnd4 bounded_SimDemonLacerate,
                   benignField_modify_at _ _ _ hben4 benign_SimDemonLacerate⟩
          · exact ⟨hbnd4, hben4⟩

theorem damagePlayerLoop_bb (fuel : Nat) :
    ∀ (d i : Nat) (dmg : Int) (s : State), MAX_CARDS_IN_SET ≤ i + d →
      benignField s → boundedField s →
      boundedField (damagePlayerLoop fuel i dmg s).2 ∧
      benignField (damagePlayerLoop fuel i dmg s).2 ∧
      (damagePlayerLoop fuel i dmg s).2.demon = s.demon
  | 0, i, dmg, s, hd, hben, hbnd => by
    rw [damagePlayerLoop, if_neg (by
      rintro ⟨-, h2⟩
      have h20 : (20 : Nat) ≤ i := hd
      have h2' : i < 20 := h2
      omega)]
    exact ⟨hbnd, hben, rfl⟩
  | d + 1, i, dmg, s, hd, hben, hbnd => by
    rw [damagePlayerLoop]
    by_cases hc : i < s.field.length ∧ i < MAX_CARDS_IN_SET
    · rw [if_pos hc]
      by_cases hg : (HasAttr (fieldGet s i) .ATTR_GUARD).isSome
      · rw [if_pos hg]
        by_cases hdm : 0 < min dmg (fieldGet s i).hp
        · rw [if_pos hdm]
          try dsimp only []
          have hbenS1 : benignField (modifyField s i (fun c =>
              { c with hp := c.hp - min dmg (fieldGet s i).hp })) :=
            benignField_modify_at _ _ _ hben (fun hcc => hcc)
          have hbndS1 : boundedField (modifyField s i (fun c =>
              { c with hp := c.hp - min dmg (fieldGet s i).hp })) :=
            boundedField_modify_at _ _ _ hbnd (fun hcc => by
              obtain ⟨hc1, hc2⟩ := hcc
              refine ⟨?_, ?_⟩
              · show 0 ≤ (fieldGet s i).hp - min dmg (fieldGet s i).hp
                omega
              · show (fieldGet s i).hp - min dmg (fieldGet s i).hp ≤
                  (fieldGet s i).maxHp
                omega)
          split_ifs with hdeath
          · obtain ⟨hA, hB, hC⟩ := RemoveCard_bb fuel _ i true hbenS1 hbndS1
            obtain ⟨hA2, hB2, hC2⟩ := damagePlayerLoop_bb fuel d (i + 1) _ _
              (by omega) hB hA
            exact ⟨hA2, hB2, hC2.trans (hC.trans rfl)⟩
          · obtain ⟨hA2, hB2, hC2⟩ := damagePlayerLoop_bb fuel d (i + 1) _ _
              (by omega) hbenS1 hbndS1
            exact ⟨hA2, hB2, hC2.trans rfl⟩
        · rw [if_neg hdm]
          exact damagePlayerLoop_bb fuel d (i + 1) _ _ (by omega) hben hbnd
      · rw [if_neg hg]
        exact damagePlayerLoop_bb fuel d (i + 1) _ _ (by omega) hben hbnd
    · rw [if_neg hc]
      exact ⟨hbnd, hben, rfl⟩

theorem DamagePlayer_bb (fuel : Nat) (s : State) (dmg : Int)
    (hben : benignField s) (hbnd : boundedField s) :
    boundedField (DamagePlayer fuel s dmg) ∧
    benignField (DamagePlayer fuel s dmg) ∧
    (DamagePlayer fuel s dmg).demon = s.demon := by
  rw [DamagePlayer]
  rcases hdp : damagePlayerLoop fuel 0 dmg s with ⟨dmg2, s2⟩
  obtain ⟨hA, hB, hC⟩ := damagePlayerLoop_bb fuel 20 0 dmg s (by decide) hben hbnd
  rw [hdp] at hA hB hC
  dsimp only [] at hA hB hC ⊢
  exact ⟨boundedField_congr rfl hA, benignField_congr rfl hB, hC⟩

theorem spaCounterLoop_bb (fuel : Nat) (ntc : Nat) (level : Int)
    (hlev : 0 ≤ level) :
    ∀ (d i : Nat) (s : State), ntc ≤ i + d →
      benignField s → boundedField s →
      boundedField (spaCounterLoop fuel ntc level i s) ∧
      benignField (spaCounterLoop fuel ntc level i s)
  | 0, i, s, hd, hben, hbnd => by
    rw [spaCounterLoop, if_neg (by omega)]
    exact ⟨hbnd, hben⟩
  | d + 1, i, s, hd, hben, hbnd => by
    rw [spaCounterLoop]
    by_cases hi : i < ntc
    · rw [if_pos hi]
      by_cases hfl : s.field.length ≤ i
      · rw [if_pos hfl]
        exact ⟨hbnd, hben⟩
      · rw [if_neg hfl]
        try dsimp only []
        by_cases hhp : (fieldGet s i).hp ≤ 0
        · rw [if_pos hhp]
          exact spaCounterLoop_bb fuel ntc level hlev d (i + 1) s (by omega)
            hben hbnd
        · rw [if_neg hhp]
          cases hdx : HasAttr (fieldGet s i) .ATTR_DEXTERITY with
          | none =>
            try dsimp only []
            rw [if_neg (by decide)]
            try dsimp only []
            have hbenS1 : benignField (modifyField s i (fun c =>
                { c with hp := c.hp - min level (fieldGet s i).hp })) :=
              benignField_modify_at _ _ _ hben (fun hcc => hcc)
            have hbndS1 : boundedField (modifyField s i (fun c =>
                { c with hp := c.hp - min level (fieldGet s i).hp })) :=
              boundedField_modify_at _ _ _ hbnd (fun hcc => by
                obtain ⟨hc1, hc2⟩ := hcc
                refine ⟨?_, ?_⟩
                · show 0 ≤ (fieldGet s i).hp - min level (fieldGet s i).hp
                  omega
                · show (fieldGet s i).hp - min level (fieldGet s i).hp ≤
                    (fieldGet s i).maxHp
                  omega)
            split_ifs with hdeath
            · obtain ⟨hA, hB, -⟩ := RemoveCard_bb fuel _ i true hbenS1 hbndS1
              exact spaCounterLoop_bb fuel ntc level hlev d (i + 1) _ (by omega)
                hB hA
            · exact spaCounterLoop_bb fuel ntc level hlev d (i + 1) _ (by omega)
                hbenS1 hbndS1
          | some lvl =>
            try dsimp only []
            rcases hrnd : Rnd s 100 with ⟨r, s2⟩
            have hf2 : s2.field = s.field := by
              have hq := congrArg (fun p => (Prod.snd p).field) hrnd
              dsimp only [] at hq
              rw [← hq]
              rfl
            have hben2 : benignField s2 := benignField_congr hf2 hben
            have hbnd2 : boundedField s2 := boundedField_congr hf2 hbnd
            try dsimp only []
            have hbenS1 : benignField (modifyField s2 i (fun c =>
                { c with hp := c.hp - min level (fieldGet s2 i).hp })) :=
              benignField_modify_at _ _ _ hben2 (fun hcc => hcc)
            have hbndS1 : boundedField (modifyField s2 i (fun c =>
                { c with hp := c.hp - min level (fieldGet s2 i).hp })) :=
              boundedField_modify_at _ _ _ hbnd2 (fun hcc => by
                obtain ⟨hc1, hc2⟩ := hcc
                refine ⟨?_, ?_⟩
                · show 0 ≤ (fieldGet s2 i).hp - min level (fieldGet s2 i).hp
                  omega
                · show (fieldGet s2 i).hp - min level (fieldGet s2 i).hp ≤
                    (fieldGet s2 i).maxHp
                  omega)
            split_ifs with hdodge hdeath
            · exact spaCounterLoop_bb fuel ntc level hlev d (i + 1) s2 (by omega)
                hben2 hbnd2
            · obtain ⟨hA, hB, -⟩ := RemoveCard_bb fuel _ i true hbenS1 hbndS1
              exact spaCounterLoop_bb fuel ntc level hlev d (i + 1) _ (by omega)
                hB hA
            · exact spaCounterLoop_bb fuel ntc level hlev d (i + 1) _ (by omega)
                hbenS1 hbndS1
    · rw [if_neg hi]
      exact ⟨hbnd, hben⟩

theorem simDemonFireGodLoop_bb (attrVal : Attr)
    (hty : attrVal.type ∉ strippedTypes) :
    ∀ (d j : Nat) (s : State), MAX_CARDS_IN_SET ≤ j + d →
      benignField s → boundedField s →
      boundedField (simDemonFireGodLoop attrVal j s) ∧
      benignField (simDemonFireGodLoop attrVal j s) ∧
      (simDemonFireGodLoop attrVal j s).demon = s.demon
  | 0, j, s, hd, hben, hbnd => by
    rw [simDemonFireGodLoop, if_neg (by
      rintro ⟨-, h2⟩
      have h20 : (20 : Nat) ≤ j := hd
      have h2' : j < 20 := h2
      omega)]
    exact ⟨hbnd, hben, rfl⟩
  | d + 1, j, s, hd, hben, hbnd => by
    rw [simDemonFireGodLoop]
    by_cases hc : j < s.field.length ∧ j < MAX_CARDS_IN_SET
    · rw [if_pos hc]
      try dsimp only []
      have hbenM : benignField (modifyField s j (fun c => AddAttr c attrVal)) :=
        benignField_modify_at _ _ _ hben (fun hcc => benignCard_AddAttr hcc hty)
      have hbndM : boundedField (modifyField s j (fun c => AddAttr c attrVal)) :=
        boundedField_modify_at _ _ _ hbnd (fun hcc => hcc)
      split_ifs with h1 h2 h3
      · exact simDemonFireGodLoop_bb attrVal hty d (j + 1) s (by omega) hben hbnd
      · exact simDemonFireGodLoop_bb attrVal hty d (j + 1) s (by omega) hben hbnd
      · obtain ⟨hA, hB, hC⟩ := simDemonFireGodLoop_bb attrVal hty d (j + 1) _
          (by omega) hbenM hbndM
        exact ⟨hA, hB, hC.trans rfl⟩
      · exact simDemonFireGodLoop_bb attrVal hty d (j + 1) s (by omega) hben hbnd
    · rw [if_neg hc]
      exact ⟨hbnd, hben, rfl⟩

theorem simDemonToxicLoop_bb (fuel : Nat) (attrVal : Attr)
    (hty : attrVal.type ∉ strippedTypes) (hlev : 0 ≤ attrVal.level) :
    ∀ (d j : Nat) (s : State), MAX_CARDS_IN_SET ≤ j + d →
      benignField s → boundedField s →
      boundedField (simDemonToxicLoop fuel attrVal j s) ∧
      benignField (simDemonToxicLoop fuel attrVal j s) ∧
      (simDemonToxicLoop fuel attrVal j s).demon = s.demon
  | 0, j, s, hd, hben, hbnd => by
    rw [simDemonToxicLoop, if_neg (by
      rintro ⟨-, h2⟩
      have h20 : (20 : Nat) ≤ j := hd
      have h2' : j < 20 := h2
      omega)]
    exact ⟨hbnd, hben, rfl⟩
  | d + 1, j, s, hd, hben, hbnd => by
    rw [simDemonToxicLoop]
    by_cases hc : j < s.field.length ∧ j < MAX_CARDS_IN_SET
    · rw [if_pos hc]
      try dsimp only []
      by_cases hhp : (fieldGet s j).hp ≤ 0
      · rw [if_pos hhp]
        exact simDemonToxicLoop_bb fuel attrVal hty hlev d (j + 1) s (by omega)
          hben hbnd
      · rw [if_neg hhp]
        by_cases himm : (HasAttr (fieldGet s j) .ATTR_IMMUNITY).isSome
        · rw [if_pos himm]
          exact ⟨hbnd, hben, rfl⟩
        · rw [if_neg himm]
          try dsimp only []
          have hbenS1 : benignField (modifyField s j (fun c =>
              { c with hp := c.hp - min attrVal.level (fieldGet s j).hp })) :=
            benignField_modify_at _ _ _ hben (fun hcc => hcc)
          have hbndS1 : boundedField (modifyField s j (fun c =>
              { c with hp := c.hp - min attrVal.level (fieldGet s j).hp })) :=
            boundedField_modify_at _ _ _ hbnd (fun hcc => by
              obtain ⟨hc1, hc2⟩ := hcc
              refine ⟨?_, ?_⟩
              · show 0 ≤ (fieldGet s j).hp - min attrVal.level (fieldGet s j).hp
                omega
              · show (fieldGet s j).hp - min attrVal.level (fieldGet s j).hp ≤
                  (fieldGet s j).maxHp
                omega)
          obtain ⟨hA, hB, hC⟩ := RemoveCard_bb fuel _ j true hbenS1 hbndS1
          have hbenM : benignField (modifyField (modifyField s j (fun c =>
              { c with hp := c.hp - min attrVal.level (fieldGet s j).hp })) j
              (fun c => AddAttr c attrVal)) :=
            benignField_modify_at _ _ _ hbenS1
              (fun hcc => benignCard_AddAttr hcc hty)
          have hbndM : boundedField (modifyField (modifyField s j (fun c =>
              { c with hp := c.hp - min attrVal.level (fieldGet s j).hp })) j
              (fun c => AddAttr c attrVal)) :=
            boundedField_modify_at _ _ _ hbndS1 (fun hcc => hcc)
          split_ifs with hdeath hnt
          · obtain ⟨hA2, hB2, hC2⟩ := simDemonToxicLoop_bb fuel attrVal hty hlev
              d (j + 1) _ (by omega) hB hA
            exact ⟨hA2, hB2, hC2.trans (hC.trans rfl)⟩
          · obtain ⟨hA2, hB2, hC2⟩ := simDemonToxicLoop_bb fuel attrVal hty hlev
              d (j + 1) _ (by omega) hbenM hbndM
            exact ⟨hA2, hB2, hC2.trans rfl⟩
          · obtain ⟨hA2, hB2, hC2⟩ := simDemonToxicLoop_bb fuel attrVal hty hlev
              d (j + 1) _ (by omega) hbenS1 hbndS1
            exact ⟨hA2, hB2, hC2.trans rfl⟩
    · rw [if_neg hc]
      exact ⟨hbnd, hben, rfl⟩

theorem simDemonTrapLoop_bb :
    ∀ (idxs : List Nat) (k : Nat) (s : State),
      benignField s → boundedField s →
      boundedField (simDemonTrapLoop idxs k s) ∧
      benignField (simDemonTrapLoop idxs k s) ∧
      (simDemonTrapLoop idxs k s).demon = s.demon
  | idxs, 0, s, hben, hbnd => by
    rw [simDemonTrapLoop.eq_def]
    cases idxs <;> exact ⟨hbnd, hben, rfl⟩
  | [], k + 1, s, hben, hbnd => by
    rw [simDemonTrapLoop.eq_def]
    exact ⟨hbnd, hben, rfl⟩
  | idx :: rest, k + 1, s, hben, hbnd => by
    rw [simDemonTrapLoop]
    rcases hrnd : Rnd s 100 with ⟨r, s2⟩
    have hf2 : s2.field = s.field := by
      have hq := congrArg (fun p => (Prod.snd p).field) hrnd
      dsimp only [] at hq
      rw [← hq]
      rfl
    have hd2 : s2.demon = s.demon := by
      have hq := congrArg (fun p => (Prod.snd p).demon) hrnd
      dsimp only [] at hq
      rw [← hq]
      rfl
    have hben2 : benignField s2 := benignField_congr hf2 hben
    have hbnd2 : boundedField s2 := boundedField_congr hf2 hbnd
    try dsimp only []
    split_ifs with h1 h2 h3
    · obtain ⟨hA, hB, hC⟩ := simDemonTrapLoop_bb rest k s2 hben2 hbnd2
      exact ⟨hA, hB, hC.trans hd2⟩
    · obtain ⟨hA, hB, hC⟩ := simDemonTrapLoop_bb rest k s2 hben2 hbnd2
      exact ⟨hA, hB, hC.trans hd2⟩
    · have hbenM : benignField (modifyField s2 idx (fun c =>
          AddAttr c ⟨.ATTR_TRAP_BUFF, 0⟩)) :=
        benignField_modify_at _ _ _ hben2 (fun hcc =>
          benignCard_AddAttr hcc (by decide))
      have hbndM : boundedField (modifyField s2 idx (fun c =>
          AddAttr c ⟨.ATTR_TRAP_BUFF, 0⟩)) :=
        boundedField_modify_at _ _ _ hbnd2 (fun hcc => hcc)
      obtain ⟨hA, hB, hC⟩ := simDemonTrapLoop_bb rest k _ hbenM hbndM
      exact ⟨hA, hB, hC.trans hd2⟩
    · obtain ⟨hA, hB, hC⟩ := simDemonTrapLoop_bb rest k s2 hben2 hbnd2
      exact ⟨hA, hB, hC.trans hd2⟩

theorem PickAliveCardFromSet_frame (s : State) (cs : List Card) :
    (PickAliveCardFromSet s cs).2.field = s.field ∧
    (PickAliveCardFromSet s cs).2.demon = s.demon := by
  rw [PickAliveCardFromSet]
  try dsimp only []
  split_ifs with h1 h2
  · exact ⟨rfl, rfl⟩
  · exact ⟨rfl, rfl⟩
  · dsimp only [Rnd, myRand]
    exact ⟨rfl, rfl⟩

theorem FindLowestHpCard_frame (s : State) (cs : List Card) (md : Bool) :
    (FindLowestHpCard s cs md).2.field = s.field ∧
    (FindLowestHpCard s cs md).2.demon = s.demon := by
  rw [FindLowestHpCard]
  rcases flhcScan md cs 0 (-1) 0 none with ⟨low, nl, li⟩
  try dsimp only []
  split_ifs with h1 h2 h3
  · exact ⟨rfl, rfl⟩
  · exact ⟨rfl, rfl⟩
  · cases cs.getLast? with
    | none => exact ⟨rfl, rfl⟩
    | some last =>
      try dsimp only []
      split_ifs <;> exact ⟨rfl, rfl⟩
  · cases cs.getLast? with
    | none => exact ⟨rfl, rfl⟩
    | some last =>
      try dsimp only []
      split_ifs <;> exact ⟨rfl, rfl⟩

theorem pickSwapLoop_frame (numAlive n : Nat) :
    ∀ (d i : Nat) (ret : List Nat) (s : State), n ≤ i + d →
      (pickSwapLoop numAlive n i ret s).2.field = s.field ∧
      (pickSwapLoop numAlive n i ret s).2.demon = s.demon
  | 0, i, ret, s, hd => by
    rw [pickSwapLoop, if_neg (by omega)]
    exact ⟨rfl, rfl⟩
  | d + 1, i, ret, s, hd => by
    rw [pickSwapLoop]
    by_cases hi : i < n
    · rw [if_pos hi]
      try dsimp only []
      rcases hrnd : Rnd s (numAlive - 1 - i) with ⟨r, s2⟩
      have hf2 : s2.field = s.field := by
        have hq := congrArg (fun p => (Prod.snd p).field) hrnd
        dsimp only [] at hq
        rw [← hq]
        rfl
      have hd2 : s2.demon = s.demon := by
        have hq := congrArg (fun p => (Prod.snd p).demon) hrnd
        dsimp only [] at hq
        rw [← hq]
        rfl
      try dsimp only []
      obtain ⟨hA, hB⟩ := pickSwapLoop_frame numAlive n d (i + 1) _ s2 (by omega)
      exact ⟨hA.trans hf2, hB.trans hd2⟩
    · rw [if_neg hi]
      exact ⟨rfl, rfl⟩

theorem PickNCards_frame (s : State) (cs : List Card) (n : Int) :
    (PickNCards s cs n).2.2.field = s.field ∧
    (PickNCards s cs n).2.2.demon = s.demon := by
  rw [PickNCards]
  try dsimp only []
  split_ifs with h1
  · exact ⟨rfl, rfl⟩
  · try dsimp only []
    exact pickSwapLoop_frame (aliveIndicesFrom 0 cs).length
      (min n ((aliveIndicesFrom 0 cs).length : Int)).toNat
      (min n ((aliveIndicesFrom 0 cs).length : Int)).toNat 0
      (aliveIndicesFrom 0 cs) s (by omega)

theorem SimDemonTrap_bb (s : State) (numToTrap : Int)
    (hben : benignField s) (hbnd : boundedField s) :
    boundedField (SimDemonTrap s numToTrap) ∧
    benignField (SimDemonTrap s numToTrap) ∧
    (SimDemonTrap s numToTrap).demon = s.demon := by
  rw [SimDemonTrap]
  split
  rename_i nt trapped s2 heq
  obtain ⟨hfr, hdr⟩ := PickNCards_frame s s.field numToTrap
  rw [heq] at hfr hdr
  dsimp only [] at hfr hdr
  have hben2 : benignField s2 := benignField_congr hfr hben
  have hbnd2 : boundedField s2 := boundedField_congr hfr hbnd
  split_ifs with h1
  · exact ⟨hbnd2, hben2, hdr⟩
  · obtain ⟨hA, hB, hC⟩ := simDemonTrapLoop_bb trapped nt.toNat s2 hben2 hbnd2
    exact ⟨hA, hB, hC.trans hdr⟩

theorem simDemonAttrLoop_bb (fuel : Nat) :
    ∀ (d i : Nat) (s : State), MAX_ATTR ≤ i + d →
      (∀ x ∈ s.demon.attr, 0 ≤ x.level) →
      benignField s → boundedField s →
      boundedField (simDemonAttrLoop fuel i s) ∧
      benignField (simDemonAttrLoop fuel i s) ∧
      (simDemonAttrLoop fuel i s).demon = s.demon
  | 0, i, s, hd, hdem, hben, hbnd => by
    rw [simDemonAttrLoop, if_neg (by
      rintro ⟨-, h2⟩
      have h40 : (40 : Nat) ≤ i := hd
      have h2' : i < 40 := h2
      omega)]
    exact ⟨hbnd, hben, rfl⟩
  | d + 1, i, s, hd, hdem, hben, hbnd => by
    rw [simDemonAttrLoop]
    by_cases hc : i < s.demon.attr.length ∧ i < MAX_ATTR
    · rw [if_pos hc]
      by_cases hhp : s.hp ≤ 0
      · rw [if_pos hhp]
        exact ⟨hbnd, hben, rfl⟩
      · rw [if_neg hhp]
        try dsimp only []
        have hLevA : 0 ≤ (s.demon.attr[i]?.getD DeadAttr).level := by
          cases hga : s.demon.attr[i]? with
          | none => decide
          | some a => exact hdem a (List.getElem?_mem hga)
        split
        -- CURSE
        · obtain ⟨hA0, hB0, hC0⟩ := DamagePlayer_bb fuel s _ hben hbnd
          obtain ⟨hA, hB, hC⟩ := simDemonAttrLoop_bb fuel d (i + 1) _ (by omega)
            (by rw [hC0]; exact hdem) hB0 hA0
          exact ⟨hA, hB, hC.trans hC0⟩
        -- DAMNATION
        · split_ifs with hdm
          · obtain ⟨hA0, hB0, hC0⟩ := DamagePlayer_bb fuel s _ hben hbnd
            obtain ⟨hA, hB, hC⟩ := simDemonAttrLoop_bb fuel d (i + 1) _ (by omega)
              (by rw [hC0]; exact hdem) hB0 hA0
            exact ⟨hA, hB, hC.trans hC0⟩
          · exact simDemonAttrLoop_bb fuel d (i + 1) s (by omega) hdem hben hbnd
        -- EXILE
        · split_ifs with h1 h2 h3
          · obtain ⟨hA0, hB0, hC0⟩ := RemoveCard_bb fuel s 0 false hben hbnd
            obtain ⟨hA, hB, hC⟩ := simDemonAttrLoop_bb fuel d (i + 1) _ (by omega)
              (by rw [hC0]; exact hdem) hB0 hA0
            exact ⟨hA, hB, hC.trans hC0⟩
          all_goals exact simDemonAttrLoop_bb fuel d (i + 1) s (by omega) hdem hben hbnd
        -- SNIPE
        · rcases hfl : FindLowestHpCard s s.field false with ⟨ci, s2⟩
          obtain ⟨hfr, hdr⟩ := FindLowestHpCard_frame s s.field false
          rw [hfl] at hfr hdr
          dsimp only [] at hfr hdr
          have hben2 : benignField s2 := benignField_congr hfr hben
          have hbnd2 : boundedField s2 := boundedField_congr hfr hbnd
          try dsimp only []
          cases ci with
          | none =>
            obtain ⟨hA, hB, hC⟩ := simDemonAttrLoop_bb fuel d (i + 1) s2 (by omega)
              (by rw [hdr]; exact hdem) hben2 hbnd2
            exact ⟨hA, hB, hC.trans hdr⟩
          | some ci =>
            try dsimp only []
            generalize hL : (s.demon.attr[i]?.getD DeadAttr).level = L at hLevA ⊢
            have hbenS1 : benignField (modifyField s2 ci (fun c =>
                { c with hp := c.hp - min L (fieldGet s2 ci).hp })) :=
              benignField_modify_at _ _ _ hben2 (fun hcc => hcc)
            have hbndS1 : boundedField (modifyField s2 ci (fun c =>
                { c with hp := c.hp - min L (fieldGet s2 ci).hp })) :=
              boundedField_modify_at _ _ _ hbnd2 (fun hcc => by
                obtain ⟨hc1, hc2⟩ := hcc
                refine ⟨?_, ?_⟩
                · show 0 ≤ (fieldGet s2 ci).hp - min L (fieldGet s2 ci).hp
                  omega
                · show (fieldGet s2 ci).hp - min L (fieldGet s2 ci).hp ≤
                    (fieldGet s2 ci).maxHp
                  omega)
            have hdS1 : (modifyField s2 ci (fun c =>
                { c with hp := c.hp - min L (fieldGet s2 ci).hp })).demon
                = s.demon := hdr
            obtain ⟨hA0, hB0, hC0⟩ := RemoveCard_bb fuel _ ci true hbenS1 hbndS1
            split_ifs with hdeath
            · obtain ⟨hA, hB, hC⟩ := simDemonAttrLoop_bb fuel d (i + 1) _ (by omega)
                (by rw [hC0, hdS1]; exact hdem) hB0 hA0
              exact ⟨hA, hB, hC.trans (hC0.trans hdS1)⟩
            · obtain ⟨hA, hB, hC⟩ := simDemonAttrLoop_bb fuel d (i + 1) _ (by omega)
                (by rw [hdS1]; exact hdem) hbenS1 hbndS1
              exact ⟨hA, hB, hC.trans hdS1⟩
        -- MANA_CORRUPT
        · rcases hpk : PickAliveCardFromSet s s.field with ⟨ri, s2⟩
          obtain ⟨hfr, hdr⟩ := PickAliveCardFromSet_frame s s.field
          rw [hpk] at hfr hdr
          dsimp only [] at hfr hdr
          have hben2 : benignField s2 := benignField_congr hfr hben
          have hbnd2 : boundedField s2 := boundedField_congr hfr hbnd
          try dsimp only []
          cases ri with
          | none =>
            obtain ⟨hA, hB, hC⟩ := simDemonAttrLoop_bb fuel d (i + 1) s2 (by omega)
              (by rw [hdr]; exact hdem) hben2 hbnd2
            exact ⟨hA, hB, hC.trans hdr⟩
          | some ri =>
            try dsimp only []
            generalize hL : (s.demon.attr[i]?.getD DeadAttr).level = L at hLevA ⊢
            generalize hD : (if (HasAttr (fieldGet s2 ri) .ATTR_REFLECTION).isSome ∨
                (HasAttr (fieldGet s2 ri) .ATTR_IMMUNITY).isSome
                then L * 3 else L) = D
            have hD0 : 0 ≤ D := by
              rw [← hD]
              split_ifs <;> omega
            have hbenS1 : benignField (modifyField s2 ri (fun c =>
                { c with hp := c.hp - min D (fieldGet s2 ri).hp })) :=
              benignField_modify_at _ _ _ hben2 (fun hcc => hcc)
            have hbndS1 : boundedField (modifyField s2 ri (fun c =>
                { c with hp := c.hp - min D (fieldGet s2 ri).hp })) :=
              boundedField_modify_at _ _ _ hbnd2 (fun hcc => by
                obtain ⟨hc1, hc2⟩ := hcc
                refine ⟨?_, ?_⟩
                · show 0 ≤ (fieldGet s2 ri).hp - min D (fieldGet s2 ri).hp
                  omega
                · show (fieldGet s2 ri).hp - min D (fieldGet s2 ri).hp ≤
                    (fieldGet s2 ri).maxHp
                  omega)
            have hdS1 : (modifyField s2 ri (fun c =>
                { c with hp := c.hp - min D (fieldGet s2 ri).hp })).demon
                = s.demon := hdr
            obtain ⟨hA0, hB0, hC0⟩ := RemoveCard_bb fuel _ ri true hbenS1 hbndS1
            split_ifs with hdeath
            · obtain ⟨hA, hB, hC⟩ := simDemonAttrLoop_bb fuel d (i + 1) _ (by omega)
                (by rw [hC0, hdS1]; exact hdem) hB0 hA0
              exact ⟨hA, hB, hC.trans (hC0.trans hdS1)⟩
            · obtain ⟨hA, hB, hC⟩ := simDemonAttrLoop_bb fuel d (i + 1) _ (by omega)
                (by rw [hdS1]; exact hdem) hbenS1 hbndS1
              exact ⟨hA, hB, hC.trans hdS1⟩
        -- DESTROY
        · rcases hpk : PickAliveCardFromSet s s.field with ⟨ri, s2⟩
          obtain ⟨hfr, hdr⟩ := PickAliveCardFromSet_frame s s.field
          rw [hpk] at hfr hdr
          dsimp only [] at hfr hdr
          have hben2 : benignField s2 := benignField_congr hfr hben
          have hbnd2 : boundedField s2 := boundedField_congr hfr hbnd
          try dsimp only []
          cases ri with
          | none =>
            obtain ⟨hA, hB, hC⟩ := simDemonAttrLoop_bb fuel d (i + 1) s2 (by omega)
              (by rw [hdr]; exact hdem) hben2 hbnd2
            exact ⟨hA, hB, hC.trans hdr⟩
          | some ri =>
            try dsimp only []
            have hbenS1 : benignField (modifyField s2 ri
                (fun c => { c with hp := 0 })) :=
              benignField_modify_at _ _ _ hben2 (fun hcc => hcc)
            have hbndS1 : boundedField (modifyField s2 ri
                (fun c => { c with hp := 0 })) :=
              boundedField_modify_at _ _ _ hbnd2 (fun hcc =>
                ⟨le_refl 0, le_trans hcc.1 hcc.2⟩)
            have hdS1 : (modifyField s2 ri (fun c => { c with hp := 0 })).demon
                = s.demon := hdr
            obtain ⟨hA0, hB0, hC0⟩ := RemoveCard_bb fuel _ ri true hbenS1 hbndS1
            split_ifs with h1
            · obtain ⟨hA, hB, hC⟩ := simDemonAttrLoop_bb fuel d (i + 1) _ (by omega)
                (by rw [hC0, hdS1]; exact hdem) hB0 hA0
              exact ⟨hA, hB, hC.trans (hC0.trans hdS1)⟩
            · obtain ⟨hA, hB, hC⟩ := simDemonAttrLoop_bb fuel d (i + 1) s2 (by omega)
                (by rw [hdr]; exact hdem) hben2 hbnd2
              exact ⟨hA, hB, hC.trans hdr⟩
        -- FIRE_GOD
        · rename_i heq
          obtain ⟨hA0, hB0, hC0⟩ := simDemonFireGodLoop_bb _
            (by rw [heq]; decide) 20 0 s (by decide) hben hbnd
          obtain ⟨hA, hB, hC⟩ := simDemonAttrLoop_bb fuel d (i + 1) _ (by omega)
            (by rw [hC0]; exact hdem) hB0 hA0
          exact ⟨hA, hB, hC.trans hC0⟩
        -- TOXIC_CLOUDS
        · rename_i heq
          obtain ⟨hA0, hB0, hC0⟩ := simDemonToxicLoop_bb fuel _
            (by rw [heq]; decide) hLevA 20 0 s (by decide) hben hbnd
          obtain ⟨hA, hB, hC⟩ := simDemonAttrLoop_bb fuel d (i + 1) _ (by omega)
            (by rw [hC0]; exact hdem) hB0 hA0
          exact ⟨hA, hB, hC.trans hC0⟩
        -- TRAP
        · obtain ⟨hA0, hB0, hC0⟩ := SimDemonTrap_bb s _ hben hbnd
          obtain ⟨hA, hB, hC⟩ := simDemonAttrLoop_bb fuel d (i + 1) _ (by omega)
            (by rw [hC0]; exact hdem) hB0 hA0
          exact ⟨hA, hB, hC.trans hC0⟩
        -- default
        · exact simDemonAttrLoop_bb fuel d (i + 1) s (by omega) hdem hben hbnd
    · rw [if_neg hc]
      exact ⟨hbnd, hben, rfl⟩

theorem spcStatusLoop_bb (fuel : Nat) (cardNum : Nat) :
    ∀ (d ai : Nat) (s : State), MAX_ATTR ≤ ai + d →
      benignField s → boundedField s →
      boundedField (spcStatusLoop fuel cardNum ai s) ∧
      benignField (spcStatusLoop fuel cardNum ai s)
  | 0, ai, s, hd, hben, hbnd => by
    rw [spcStatusLoop, if_neg (by
      rintro ⟨-, h2⟩
      have h40 : (40 : Nat) ≤ ai := hd
      have h2' : ai < 40 := h2
      omega)]
    exact ⟨hbnd, hben⟩
  | d + 1, ai, s, hd, hben, hbnd => by
    rw [spcStatusLoop]
    by_cases hc : ai < (fieldGet s cardNum).attr.length ∧ ai < MAX_ATTR
    · rw [if_pos hc]
      try dsimp only []
      split
      · -- Fire God burn
        generalize hL : ((fieldGet s cardNum).attr[ai]?.getD DeadAttr).level = L
        have hbenS1 : benignField (modifyField s cardNum (fun c =>
            { c with hp := c.hp - min L (fieldGet s cardNum).hp })) :=
          benignField_modify_at _ _ _ hben (fun hcc => hcc)
        have hbndS1 : 0 ≤ min L (fieldGet s cardNum).hp →
            boundedField (modifyField s cardNum (fun c =>
              { c with hp := c.hp - min L (fieldGet s cardNum).hp })) :=
          fun h0 => boundedField_modify_at _ _ _ hbnd (fun hcc => by
            obtain ⟨hc1, hc2⟩ := hcc
            refine ⟨?_, ?_⟩
            · show 0 ≤ (fieldGet s cardNum).hp - min L (fieldGet s cardNum).hp
              omega
            · show (fieldGet s cardNum).hp - min L (fieldGet s cardNum).hp ≤
                (fieldGet s cardNum).maxHp
              omega)
        have hbenS2 : benignField (modifyField (modifyField s cardNum (fun c =>
            { c with hp := c.hp - min L (fieldGet s cardNum).hp })) cardNum
            (fun c => RemoveAttr c .ATTR_TOXIC_CLOUDS (-1))) :=
          benignField_modify_at _ _ _ hbenS1
            (fun hcc => benignCard_RemoveAttr hcc _ _)
        have hbndS2 : 0 ≤ min L (fieldGet s cardNum).hp →
            boundedField (modifyField (modifyField s cardNum (fun c =>
              { c with hp := c.hp - min L (fieldGet s cardNum).hp })) cardNum
              (fun c => RemoveAttr c .ATTR_TOXIC_CLOUDS (-1))) :=
          fun h0 => boundedField_modify_at _ _ _ (hbndS1 h0) (fun hcc => hcc)
        split_ifs with h0 htox hdeath hdeath
        · obtain ⟨hA, hB, -⟩ := RemoveCard_bb fuel _ cardNum true hbenS2 (hbndS2 h0)
          exact spcStatusLoop_bb fuel cardNum d (ai + 1) _ (by omega) hB hA
        · exact spcStatusLoop_bb fuel cardNum d (ai + 1) _ (by omega) hbenS2
            (hbndS2 h0)
        · obtain ⟨hA, hB, -⟩ := RemoveCard_bb fuel _ cardNum true hbenS1 (hbndS1 h0)
          exact spcStatusLoop_bb fuel cardNum d (ai + 1) _ (by omega) hB hA
        · exact spcStatusLoop_bb fuel cardNum d (ai + 1) _ (by omega) hbenS1
            (hbndS1 h0)
        · exact spcStatusLoop_bb fuel cardNum d (ai + 1) s (by omega) hben hbnd
      · -- Toxic Clouds burn
        generalize hL : ((fieldGet s cardNum).attr[ai]?.getD DeadAttr).level = L
        have hbenS1 : benignField (modifyField s cardNum (fun c =>
            { c with hp := c.hp - min L (fieldGet s cardNum).hp })) :=
          benignField_modify_at _ _ _ hben (fun hcc => hcc)
        have hbndS1 : 0 ≤ min L (fieldGet s cardNum).hp →
            boundedField (modifyField s cardNum (fun c =>
              { c with hp := c.hp - min L (fieldGet s cardNum).hp })) :=
          fun h0 => boundedField_modify_at _ _ _ hbnd (fun hcc => by
            obtain ⟨hc1, hc2⟩ := hcc
            refine ⟨?_, ?_⟩
            · show 0 ≤ (fieldGet s cardNum).hp - min L (fieldGet s cardNum).hp
              omega
            · show (fieldGet s cardNum).hp - min L (fieldGet s cardNum).hp ≤
                (fieldGet s cardNum).maxHp
              omega)
        have hbenS2 : benignField (modifyField (modifyField s cardNum (fun c =>
            { c with hp := c.hp - min L (fieldGet s cardNum).hp })) cardNum
            (fun c => RemoveAttr c .ATTR_TOXIC_CLOUDS (-1))) :=
          benignField_modify_at _ _ _ hbenS1
            (fun hcc => benignCard_RemoveAttr hcc _ _)
        have hbndS2 : 0 ≤ min L (fieldGet s cardNum).hp →
            boundedField (modifyField (modifyField s cardNum (fun c =>
              { c with hp := c.hp - min L (fieldGet s cardNum).hp })) cardNum
              (fun c => RemoveAttr c .ATTR_TOXIC_CLOUDS (-1))) :=
          fun h0 => boundedField_modify_at _ _ _ (hbndS1 h0) (fun hcc => hcc)
        split_ifs with h0 hdeath
        · obtain ⟨hA, hB, -⟩ := RemoveCard_bb fuel _ cardNum true hbenS2 (hbndS2 h0)
          exact spcStatusLoop_bb fuel cardNum d (ai + 1) _ (by omega) hB hA
        · exact spcStatusLoop_bb fuel cardNum d (ai + 1) _ (by omega) hbenS2
            (hbndS2 h0)
        · exact spcStatusLoop_bb fuel cardNum d (ai + 1) s (by omega) hben hbnd
      · -- other attributes
        exact spcStatusLoop_bb fuel cardNum d (ai + 1) s (by omega) hben hbnd
    · rw [if_neg hc]
      exact ⟨hbnd, hben⟩

theorem mania_bb (fuel : Nat) (s : State) (cardNum : Nat) (level : Int)
    (hben : benignField s) (hbnd : boundedField s) (hlev : 0 ≤ level) :
    boundedField ((fun s1 => if (fieldGet s1 cardNum).hp = 0
        then RemoveCard fuel s1 cardNum true else s1)
      (modifyField s cardNum (fun c =>
        let c2 : Card := { c with
          hp := c.hp - level, atk := c.atk + level,
          curBaseAtk := c.curBaseAtk + level }
        if c2.hp < 0 then { c2 with hp := 0 } else c2))) ∧
    benignField ((fun s1 => if (fieldGet s1 cardNum).hp = 0
        then RemoveCard fuel s1 cardNum true else s1)
      (modifyField s cardNum (fun c =>
        let c2 : Card := { c with
          hp := c.hp - level, atk := c.atk + level,
          curBaseAtk := c.curBaseAtk + level }
        if c2.hp < 0 then { c2 with hp := 0 } else c2))) := by
  have hbenS1 : benignField (modifyField s cardNum (fun c =>
      let c2 : Card := { c with
        hp := c.hp - level, atk := c.atk + level,
        curBaseAtk := c.curBaseAtk + level }
      if c2.hp < 0 then { c2 with hp := 0 } else c2)) :=
    benignField_modify_at _ _ _ hben (fun hcc => by
      try dsimp only []
      split_ifs <;> exact hcc)
  have hbndS1 : boundedField (modifyField s cardNum (fun c =>
      let c2 : Card := { c with
        hp := c.hp - level, atk := c.atk + level,
        curBaseAtk := c.curBaseAtk + level }
      if c2.hp < 0 then { c2 with hp := 0 } else c2)) :=
    boundedField_modify_at _ _ _ hbnd (fun hcc => by
      obtain ⟨hc1, hc2⟩ := hcc
      try dsimp only []
      split_ifs with hsp
      · exact ⟨le_refl 0, le_trans hc1 hc2⟩
      · try dsimp only [] at hsp
        refine ⟨?_, ?_⟩
        · show 0 ≤ (fieldGet s cardNum).hp - level
          omega
        · show (fieldGet s cardNum).hp - level ≤ (fieldGet s cardNum).maxHp
          omega)
  try dsimp only []
  obtain ⟨hA, hB, -⟩ := RemoveCard_bb fuel _ cardNum true hbenS1 hbndS1
  split_ifs with hdeath
  · exact ⟨hA, hB⟩
  · exact ⟨hbndS1, hbenS1⟩

/-- C2 (amended): every card-damage path of the battle preserves
`0 ≤ hp ≤ maxHp` for every field card — the demon's physical attack
(`DamageCard`), guard absorption (`DamagePlayer`), the demon's ability
phase (`simDemonAttrLoop`: snipe, mana corrupt, destroy, exile, curse,
damnation, fire god, toxic clouds, trap), the demon's counters
(`spaCounterLoop`), the player-side burn pass (`spcStatusLoop`), and the
Mania self-damage step — every damaging write clamps at zero and never
raises hit points; and a card removed by death keeps occupying its field
slot as the dead placeholder, which carries the sentinel Dead attribute
with hit points and maximum hit points both forced to 0.  Ability levels
are nonnegative and the field is benign (no buff-strip or desperation
death triggers, whose side effects on other cards are outside this
claim).  The demon itself is the exception: damage to the demon is never
clamped and its hit points can drop below zero (see the counterexample). -/
theorem C2_card_bounds (fuel fl : Nat) (s : State) (i cardNum : Nat)
    (dmg level : Int) (ntc : Nat) (b : Bool)
    (hben : benignField s) (hbnd : boundedField s)
    (hdem : ∀ x ∈ s.demon.attr, 0 ≤ x.level) (hlev : 0 ≤ level) :
    boundedField (DamageCard fuel s i dmg).2 ∧
    boundedField (DamagePlayer fuel s dmg) ∧
    boundedField (simDemonAttrLoop fuel 0 s) ∧
    boundedField (spaCounterLoop fuel ntc level 0 s) ∧
    boundedField (spcStatusLoop fuel cardNum 0 s) ∧
    boundedField ((fun s1 => if (fieldGet s1 cardNum).hp = 0
        then RemoveCard fuel s1 cardNum true else s1)
      (modifyField s cardNum (fun c =>
        let c2 : Card := { c with
          hp := c.hp - level, atk := c.atk + level,
          curBaseAtk := c.curBaseAtk + level }
        if c2.hp < 0 then { c2 with hp := 0 } else c2))) ∧
    fieldGet (RemoveCard (fl + 1) s i b) i = DeadCard ∧
    (HasAttr DeadCard .ATTR_DEAD).isSome ∧ DeadCard.hp = 0 ∧ DeadCard.maxHp = 0 :=
  ⟨(DamageCard_bb fuel s i dmg hben hbnd).1,
   (DamagePlayer_bb fuel s dmg hben hbnd).1,
   (simDemonAttrLoop_bb fuel 40 0 s (by decide) hdem hben hbnd).1,
   (spaCounterLoop_bb fuel ntc level hlev ntc 0 s (by omega) hben hbnd).1,
   (spcStatusLoop_bb fuel cardNum 40 0 s (by decide) hben hbnd).1,
   (mania_bb fuel s cardNum level hben hbnd hlev).1,
   RemoveCard_dead fl s i b, by decide, rfl, rfl⟩

theorem C2_card_bounds_witness :
    (benignField (wState [wCard 3 3 5 5 []]) ∧
     boundedField (wState [wCard 3 3 5 5 []]) ∧
     (∀ x ∈ (wState [wCard 3 3 5 5 []]).demon.attr, 0 ≤ x.level) ∧
     0 ≤ (2 : Int)) ∧
    (boundedField (DamageCard 1 (wState [wCard 3 3 5 5 []]) 0 2).2 ∧
     boundedField (DamagePlayer 1 (wState [wCard 3 3 5 5 []]) 2) ∧
     boundedField (simDemonAttrLoop 1 0 (wState [wCard 3 3 5 5 []])) ∧
     boundedField (spaCounterLoop 1 1 2 0 (wState [wCard 3 3 5 5 []])) ∧
     boundedField (spcStatusLoop 1 0 0 (wState [wCard 3 3 5 5 []])) ∧
     boundedField ((fun s1 => if (fieldGet s1 0).hp = 0
         then RemoveCard 1 s1 0 true else s1)
       (modifyField (wState [wCard 3 3 5 5 []]) 0 (fun c =>
         let c2 : Card := { c with
           hp := c.hp - 2, atk := c.atk + 2,
           curBaseAtk := c.curBaseAtk + 2 }
         if c2.hp < 0 then { c2 with hp := 0 } else c2))) ∧
     fieldGet (RemoveCard (0 + 1) (wState [wCard 3 3 5 5 []]) 0 true) 0
       = DeadCard ∧
     (HasAttr DeadCard .ATTR_DEAD).isSome ∧ DeadCard.hp = 0 ∧
     DeadCard.maxHp = 0) :=
  ⟨⟨by decide, by decide, by decide, by decide⟩,
   C2_card_bounds 1 0 (wState [wCard 3 3 5 5 []]) 0 0 2 2 1 true
     (by decide) (by decide) (by decide) (by decide)⟩

end DemonSim
